import Mathlib

/-
Verification development for the canvas-editor in src/main.py.

The Python source is shallowly embedded: every definition below is a direct
translation of a function or state component of the source (class
CanvasWindow and the tool classes), with Qt/OpenCV library primitives
modelled at the level of their documented contracts.  Machine floats of the
source are modelled as exact rationals; Python `int()` truncation is
modelled by `pyInt`.
-/

set_option maxRecDepth 8192

namespace CanvasEditor

/-- Python `int()` applied to a rational: truncation toward zero. -/
def pyInt (q : ℚ) : Int := if 0 ≤ q then ⌊q⌋ else ⌈q⌉

/-- C++ `qint64` division as used by Qt: truncation toward zero. -/
def cDiv (a b : Int) : Int := Int.tdiv a b

/-- A point with integer coordinates (QPoint). -/
structure Pt where
  x : Int
  y : Int
  deriving DecidableEq, Repr

/-- A rectangle in Qt's historical representation: `right = left + width - 1`,
`bottom = top + height - 1` (QRect). -/
structure Rect where
  left : Int
  top : Int
  right : Int
  bottom : Int
  deriving DecidableEq, Repr

namespace Rect

/-- QRect(x, y, w, h). -/
def mkXYWH (x y w h : Int) : Rect := ⟨x, y, x + w - 1, y + h - 1⟩

/-- QRect(topLeft, bottomRight). -/
def ofCorners (tl br : Pt) : Rect := ⟨tl.x, tl.y, br.x, br.y⟩

def width (r : Rect) : Int := r.right - r.left + 1

def height (r : Rect) : Int := r.bottom - r.top + 1

def topLeft (r : Rect) : Pt := ⟨r.left, r.top⟩

def topRight (r : Rect) : Pt := ⟨r.right, r.top⟩

def bottomLeft (r : Rect) : Pt := ⟨r.left, r.bottom⟩

def bottomRight (r : Rect) : Pt := ⟨r.right, r.bottom⟩

/-- QRect.contains(point). -/
def containsPt (r : Rect) (p : Pt) : Bool :=
  r.left ≤ p.x ∧ p.x ≤ r.right ∧ r.top ≤ p.y ∧ p.y ≤ r.bottom

/-- QRect.setTopLeft: moves the left and top edges only. -/
def setTopLeft (r : Rect) (p : Pt) : Rect := { r with left := p.x, top := p.y }

/-- QRect.setTopRight: moves the right and top edges only. -/
def setTopRight (r : Rect) (p : Pt) : Rect := { r with right := p.x, top := p.y }

/-- QRect.setBottomLeft: moves the left and bottom edges only. -/
def setBottomLeft (r : Rect) (p : Pt) : Rect := { r with left := p.x, bottom := p.y }

/-- QRect.setBottomRight: moves the right and bottom edges only. -/
def setBottomRight (r : Rect) (p : Pt) : Rect := { r with right := p.x, bottom := p.y }

/-- QRect.moveTo(x, y): translates the rectangle, preserving its size. -/
def moveTo (r : Rect) (x y : Int) : Rect :=
  ⟨x, y, x + r.width - 1, y + r.height - 1⟩

/-- QRect.translated(dx, dy). -/
def translated (r : Rect) (dx dy : Int) : Rect :=
  ⟨r.left + dx, r.top + dy, r.right + dx, r.bottom + dy⟩

/-- QRect.normalized(): swaps edges so that width and height are nonnegative. -/
def normalized (r : Rect) : Rect :=
  ⟨min r.left r.right, min r.top r.bottom, max r.left r.right, max r.top r.bottom⟩

end Rect

/-- A color with alpha channel (QColor / a raster sample), channels in 0..255. -/
structure RGBA where
  r : Nat
  g : Nat
  b : Nat
  a : Nat
  deriving DecidableEq, Repr

def RGBA.transparent : RGBA := ⟨0, 0, 0, 0⟩
def RGBA.white : RGBA := ⟨255, 255, 255, 255⟩
def RGBA.black : RGBA := ⟨0, 0, 0, 255⟩
def RGBA.red : RGBA := ⟨255, 0, 0, 255⟩
def RGBA.yellow : RGBA := ⟨255, 255, 0, 255⟩
def RGBA.blue : RGBA := ⟨0, 0, 255, 255⟩

/-- Source-over composition of a source sample onto a destination sample,
the default QPainter composition mode.  Exact at the alpha extremes used by
the program (fully opaque and fully transparent); blended channels use
truncated 8-bit arithmetic. -/
def RGBA.over (src dst : RGBA) : RGBA :=
  if src.a = 255 then src
  else if src.a = 0 then dst
  else
    ⟨(src.r * src.a + dst.r * dst.a * (255 - src.a) / 255) / 255,
     (src.g * src.a + dst.g * dst.a * (255 - src.a) / 255) / 255,
     (src.b * src.a + dst.b * dst.a * (255 - src.a) / 255) / 255,
     src.a + dst.a * (255 - src.a) / 255⟩

/-- Applying a painter opacity to a pen color (QPainter.setOpacity):
the alpha channel is scaled. -/
def RGBA.withOpacity (c : RGBA) (o : ℚ) : RGBA :=
  { c with a := (pyInt (o * c.a)).toNat }

/-- A raster buffer (QPixmap): a size together with the sample at each
coordinate.  Samples outside the size are carried by the function but are
irrelevant: every reader guards with the size. -/
structure Pixmap where
  w : Int
  h : Int
  data : Int → Int → RGBA

/-- QPixmap(w, h) then fill(color). -/
def Pixmap.filled (w h : Int) (c : RGBA) : Pixmap := ⟨w, h, fun _ _ => c⟩

/-- QPixmap.fill(color): replaces every sample. -/
def Pixmap.fill (p : Pixmap) (c : RGBA) : Pixmap := ⟨p.w, p.h, fun _ _ => c⟩

/-- Painting one sample: source-over of the pen color onto the existing
sample, clipped to the pixmap bounds (QPainter clips to its device). -/
def Pixmap.paintPx (p : Pixmap) (x y : Int) (c : RGBA) : Pixmap :=
  if 0 ≤ x ∧ x < p.w ∧ 0 ≤ y ∧ y < p.h then
    ⟨p.w, p.h, fun a b => if a = x ∧ b = y then RGBA.over c (p.data a b) else p.data a b⟩
  else p

/-- Rounding to the nearest integer of the fraction n / d (d > 0 intended):
the sample grid of an ideal line segment. -/
def roundFrac (n : Int) (d : Nat) : Int := Int.fdiv (2 * n + d) (2 * d)

/-- The grid points of the segment from a to b, by linear interpolation.
Exact for axis-aligned segments; a contract-level model of QPainter's line
rasterizer for the rest. -/
def linePoints (a b : Pt) : List Pt :=
  let dx := b.x - a.x
  let dy := b.y - a.y
  let steps := max dx.natAbs dy.natAbs
  if steps = 0 then [a]
  else (List.range (steps + 1)).map
    (fun i => ⟨a.x + roundFrac (i * dx) steps, a.y + roundFrac (i * dy) steps⟩)

/-- The square brush footprint of a pen of the given width around a point. -/
def brushPoints (p : Pt) (penW : Int) : List Pt :=
  (List.range penW.toNat).flatMap (fun i =>
    (List.range penW.toNat).map (fun j =>
      ⟨p.x + i - Int.tdiv (penW - 1) 2, p.y + j - Int.tdiv (penW - 1) 2⟩))

/-- QPainter.drawLine with a pen of the given color, width and opacity. -/
def Pixmap.drawLine (p : Pixmap) (a b : Pt) (c : RGBA) (penW : Int) (o : ℚ) : Pixmap :=
  ((linePoints a b).flatMap (fun q => brushPoints q penW)).foldl
    (fun acc q => acc.paintPx q.x q.y (c.withOpacity o)) p

/-- QPainter.drawPixmap(0, 0, src) on dst: source-over composition of src
over dst across the extent of src. -/
def Pixmap.compositeOver (dst src : Pixmap) : Pixmap :=
  ⟨dst.w, dst.h, fun x y =>
    if 0 ≤ x ∧ x < src.w ∧ 0 ≤ y ∧ y < src.h then RGBA.over (src.data x y) (dst.data x y)
    else dst.data x y⟩

/-- QSize.scaled with Qt.KeepAspectRatio: the exact integer computation of
the Qt source (qint64 arithmetic, truncating division). -/
def sizeKeepAspect (ow oh tw th : Int) : Int × Int :=
  let rw := cDiv (th * ow) oh
  if rw ≤ tw then (rw, th) else (tw, cDiv (tw * oh) ow)

/-- QPixmap.scaled(tw, th, KeepAspectRatio, SmoothTransformation).  The
result size follows Qt's exact rule; the resampled content is modelled by
coordinate mapping back into the source buffer (a contract-level model of
the smooth filter). -/
def Pixmap.scaledKeepAspect (p : Pixmap) (tw th : Int) : Pixmap :=
  let sz := sizeKeepAspect p.w p.h tw th
  ⟨sz.1, sz.2, fun x y => p.data (cDiv (x * p.w) sz.1) (cDiv (y * p.h) sz.2)⟩

/-- QPixmap.transformed(QTransform().scale(-1, 1)): horizontal mirror. -/
def Pixmap.flippedH (p : Pixmap) : Pixmap :=
  ⟨p.w, p.h, fun x y => p.data (p.w - 1 - x) y⟩

/-- QPixmap.transformed(QTransform().scale(1, -1)): vertical mirror. -/
def Pixmap.flippedV (p : Pixmap) : Pixmap :=
  ⟨p.w, p.h, fun x y => p.data x (p.h - 1 - y)⟩

/-- QPixmap.copy(rect): the sub-region bounded by rect; samples sourced
outside the pixmap are transparent. -/
def Pixmap.copyRect (p : Pixmap) (r : Rect) : Pixmap :=
  ⟨r.width, r.height, fun x y =>
    if 0 ≤ r.left + x ∧ r.left + x < p.w ∧ 0 ≤ r.top + y ∧ r.top + y < p.h then
      p.data (r.left + x) (r.top + y)
    else RGBA.transparent⟩

/-- A font as the program constructs it: QFont(family, pointSize). -/
structure Font where
  family : String
  size : Int
  deriving DecidableEq, Repr

/-- Painting every in-bounds sample satisfying a predicate: the shared
shape of QPainter's closed-form primitives (rectangle and ellipse
outlines) at the contract level used by ShapeTool. -/
def Pixmap.paintWhere (p : Pixmap) (pred : Int → Int → Bool) (c : RGBA) (o : ℚ) : Pixmap :=
  ⟨p.w, p.h, fun x y =>
    if (0 ≤ x ∧ x < p.w ∧ 0 ≤ y ∧ y < p.h) ∧ pred x y then
      RGBA.over (c.withOpacity o) (p.data x y)
    else p.data x y⟩

/-- QPainter.drawRect: the rectangle outline. -/
def Pixmap.drawRectOutline (p : Pixmap) (r : Rect) (c : RGBA) (o : ℚ) : Pixmap :=
  p.paintWhere
    (fun x y =>
      (r.left ≤ x ∧ x ≤ r.right ∧ r.top ≤ y ∧ y ≤ r.bottom) ∧
      (x = r.left ∨ x = r.right ∨ y = r.top ∨ y = r.bottom))
    c o

/-- QPainter.drawEllipse: a one-sample band around the inscribed ellipse of
the rectangle (contract-level model of the ellipse rasterizer). -/
def Pixmap.drawEllipseOutline (p : Pixmap) (r : Rect) (c : RGBA) (o : ℚ) : Pixmap :=
  let wd := r.width
  let ht := r.height
  p.paintWhere
    (fun x y =>
      ((2 * x - (r.left + r.right)) ^ 2 * ht ^ 2 +
          (2 * y - (r.top + r.bottom)) ^ 2 * wd ^ 2 - wd ^ 2 * ht ^ 2).natAbs
        ≤ (4 * wd.natAbs * ht.natAbs * max wd.natAbs ht.natAbs))
    c o

/-- The mouse buttons the handlers distinguish. -/
inductive MouseButton where
  | left
  | right
  | other
  deriving DecidableEq, Repr

/-- The slice of a Qt mouse event the handlers read: position, the button
of a press/release, and whether the left button is held during a move. -/
structure MouseEvent where
  pos : Pt
  button : MouseButton
  buttonsLeft : Bool
  deriving DecidableEq, Repr

/-- The corner anchors of `CanvasWindow.get_clicked_anchor`. -/
inductive Anchor where
  | topLeft
  | topRight
  | bottomLeft
  | bottomRight
  deriving DecidableEq, Repr

/-- The pen styles the tools configure. -/
inductive PenStyle where
  | solid
  | dash
  deriving DecidableEq, Repr

/-- The shape kinds of ShapeTool.draw_shape. -/
inductive ShapeType where
  | rectangle
  | ellipse
  | circle
  | square
  | triangle
  | line
  | dashLine
  deriving DecidableEq, Repr

/-- One entry of `CanvasWindow.images`: the dict built by import_image with
keys pixmap, original_pixmap, x, y, rect. -/
structure ImgObj where
  pixmap : Pixmap
  original_pixmap : Pixmap
  x : Int
  y : Int
  rect : Rect

/-- One entry of `TextTool.text_objects`: the dict built by finalize_text.
Its field values are held by value: the source never mutates a committed
text object's position, font or color objects in place (set_text_settings
reassigns fresh QFont/QColor objects, start_pos is a fresh point per
event). -/
structure TextObj where
  position : Pt
  text : String
  font : Font
  color : RGBA
  opacity : ℚ
  deriving DecidableEq, Repr

/-- The DrawingTool state: pen settings, the in-progress flag and the last
canvas point (src/main.py, class DrawingTool). -/
structure DrawingToolState where
  pen_color : RGBA
  pen_width : Int
  pen_opacity : ℚ
  pen_style : PenStyle
  is_drawing : Bool
  last_pos : Option Pt

/-- The EraseTool state (src/main.py, class EraseTool). -/
structure EraseToolState where
  pen_width : Int
  pen_style : PenStyle
  is_erasing : Bool
  last_pos : Option Pt

/-- The ShapeTool state (src/main.py, class ShapeTool). -/
structure ShapeToolState where
  start_pos : Option Pt
  shape_type : ShapeType
  pen_color : RGBA
  pen_width : Int
  pen_opacity : ℚ
  pen_style : PenStyle

/-- The TextTool state (src/main.py, class TextTool). -/
structure TextToolState where
  current_text : String
  text_objects : List TextObj
  current_font : Font
  pen_color : RGBA
  pen_opacity : ℚ
  is_active : Bool
  text_rect : Option Rect
  start_pos : Option Pt

/-- The state dict built by `CanvasWindow.save_state` (src/main.py:1552-1582)
and symmetrically by undo_action/redo_action: the deep-copied document plus
the three filter-slider values. -/
structure Snapshot where
  images : List ImgObj
  selected_image_index : Option Nat
  pixmap : Pixmap
  overlay_pixmap : Pixmap
  text_objects : List TextObj
  threshold_value : Int
  sharp_value : Int
  gamma_value : Int

/-- The live state of a CanvasWindow: the document (background pixmap,
overlay pixmap, image objects, text objects, selection), the history
stacks, the tool-mode flags, the tool states and the three filter-slider
values.  Slider reads are plain field reads; slider setValue carries Qt's
synchronous valueChanged dispatch to the wired filter handlers (see
set_threshold_value, set_sharp_value and set_gamma_value below). -/
structure CanvasState where
  width : Int
  height : Int
  canvas_x : Int
  canvas_y : Int
  pixmap : Pixmap
  overlay_pixmap : Pixmap
  images : List ImgObj
  selected_image_index : Option Nat
  undo_stack : List Snapshot
  redo_stack : List Snapshot
  drag_mode : Bool
  scale_mode : Bool
  drawing_mode : Bool
  eraser_mode : Bool
  shape_mode : Bool
  text_mode : Bool
  crop_mode : Bool
  anchor_clicked : Option Anchor
  last_mouse_position : Pt
  threshold_value : Int
  sharp_value : Int
  gamma_value : Int
  drawing_tool : DrawingToolState
  erase_tool : EraseToolState
  shape_tool : ShapeToolState
  text_tool : TextToolState
  crop_start_point : Option Pt
  crop_end_point : Option Pt
  crop_rect : Option Rect

/-- The snapshot save_state builds of the live state.  The source deep-copies
every pixmap (`.copy()`) and rect (`QRect(...)`); in this value-level model a
deep copy is the value itself.  (Aliasing is analysed separately in the
heap-level model below.) -/
def snapOf (σ : CanvasState) : Snapshot :=
  { images := σ.images
    selected_image_index := σ.selected_image_index
    pixmap := σ.pixmap
    overlay_pixmap := σ.overlay_pixmap
    text_objects := σ.text_tool.text_objects
    threshold_value := σ.threshold_value
    sharp_value := σ.sharp_value
    gamma_value := σ.gamma_value }

/-- CanvasWindow.save_state (src/main.py:1552-1589): appends the snapshot to
the undo stack and clears the redo stack unconditionally (line 1584); the
guarded second clear (lines 1587-1589, commented "Clear redo stack only if
not in drag/scale mode") re-clears the already empty stack when not in a
drag, anchor-scale or drawing continuation. -/
def save_state (σ : CanvasState) : CanvasState :=
  let σ1 := { σ with undo_stack := σ.undo_stack ++ [snapOf σ], redo_stack := [] }
  if ¬σ1.drag_mode ∧ ¬σ1.anchor_clicked.isSome ∧ ¬σ1.drawing_mode then
    { σ1 with redo_stack := [] }
  else σ1

/-- The thresholding pipeline of update_thresholding_image applied to the
original buffer (src/main.py:2463-2505): every channel of every sample goes
through cv2.THRESH_BINARY — 255 where the channel strictly exceeds the
threshold, 0 otherwise — and the RGB32/RGB888 conversions leave the result
fully opaque.  The BGR extraction and the final BGR-to-RGB swap cancel, so
the map is channelwise. -/
def thresholded (t : Int) (p : Pixmap) : Pixmap :=
  ⟨p.w, p.h, fun x y =>
    ⟨if t < ((p.data x y).r : Int) then 255 else 0,
     if t < ((p.data x y).g : Int) then 255 else 0,
     if t < ((p.data x y).b : Int) then 255 else 0, 255⟩⟩

/-- The two filter pipelines whose pixel arithmetic runs in floating point
in the source — the sharpening convolution (src/main.py:2437-2446) and the
power-law lookup table (src/main.py:2330-2338) — taken as parameters: each
maps the slider value and the original buffer to the filtered buffer
(before the final resize to the display size).  The statements below hold
for every choice of these kernels. -/
structure FilterKernels where
  sharpen : Int → Pixmap → Pixmap
  powerlaw : Int → Pixmap → Pixmap

/-- CanvasWindow.update_thresholding_image (src/main.py:2463-2505): returns
unless an image is selected and the list is non-empty; otherwise calls
save_state, thresholds the selected image's original buffer at the slider
value, resizes the result to the current display size
(resize_pixmap, src/main.py:2306-2308 — scaled with KeepAspectRatio) and
overwrites the displayed pixmap in place.  An out-of-range selected index
raises in the source; the model stops at the state reached then. -/
def update_thresholding_image (σ : CanvasState) : CanvasState :=
  match σ.selected_image_index with
  | none => σ
  | some i =>
    if σ.images.isEmpty then σ
    else
      let σ0 := save_state σ
      match σ0.images.get? i with
      | none => σ0
      | some img =>
        let resized := (thresholded σ0.threshold_value img.original_pixmap).scaledKeepAspect
          img.pixmap.w img.pixmap.h
        { σ0 with images := σ0.images.set i { img with pixmap := resized } }

/-- CanvasWindow.update_sharpening_image (src/main.py:2409-2461): same
guard and save_state; at slider value 0 the displayed pixmap becomes the
resized original, otherwise the sharpening kernel output resized. -/
def update_sharpening_image (K : FilterKernels) (σ : CanvasState) : CanvasState :=
  match σ.selected_image_index with
  | none => σ
  | some i =>
    if σ.images.isEmpty then σ
    else
      let σ0 := save_state σ
      match σ0.images.get? i with
      | none => σ0
      | some img =>
        if σ0.sharp_value = 0 then
          let resized := img.original_pixmap.scaledKeepAspect img.pixmap.w img.pixmap.h
          { σ0 with images := σ0.images.set i { img with pixmap := resized } }
        else
          let resized := (K.sharpen σ0.sharp_value img.original_pixmap).scaledKeepAspect
            img.pixmap.w img.pixmap.h
          { σ0 with images := σ0.images.set i { img with pixmap := resized } }

/-- CanvasWindow.update_powerlaw_image (src/main.py:2311-2354): same guard
and save_state; the displayed pixmap becomes the power-law kernel output
resized to the current display size. -/
def update_powerlaw_image (K : FilterKernels) (σ : CanvasState) : CanvasState :=
  match σ.selected_image_index with
  | none => σ
  | some i =>
    if σ.images.isEmpty then σ
    else
      let σ0 := save_state σ
      match σ0.images.get? i with
      | none => σ0
      | some img =>
        let resized := (K.powerlaw σ0.gamma_value img.original_pixmap).scaledKeepAspect
          img.pixmap.w img.pixmap.h
        { σ0 with images := σ0.images.set i { img with pixmap := resized } }

/-- QSlider.setValue on the threshold slider (range 0-255): the value is
bounded to the range and, exactly when it changes, the wired valueChanged
handler update_thresholding_image runs synchronously (connection at
src/main.py:1095). -/
def set_threshold_value (σ : CanvasState) (v : Int) : CanvasState :=
  let v2 := max 0 (min v 255)
  if v2 = σ.threshold_value then σ
  else update_thresholding_image { σ with threshold_value := v2 }

/-- QSlider.setValue on the sharpening slider (range 0-20): on change, the
wired handler update_sharpening_image runs synchronously (connection at
src/main.py:1105). -/
def set_sharp_value (K : FilterKernels) (σ : CanvasState) (v : Int) : CanvasState :=
  let v2 := max 0 (min v 20)
  if v2 = σ.sharp_value then σ
  else update_sharpening_image K { σ with sharp_value := v2 }

/-- QSlider.setValue on the gamma slider (range 1-50): on change, the wired
handler update_powerlaw_image runs synchronously (connection at
src/main.py:1129). -/
def set_gamma_value (K : FilterKernels) (σ : CanvasState) (v : Int) : CanvasState :=
  let v2 := max 1 (min v 50)
  if v2 = σ.gamma_value then σ
  else update_powerlaw_image K { σ with gamma_value := v2 }

/-- Installing a popped history snapshot's document fields into the live
state: the five plain assignments of undo_action (src/main.py:1626-1631)
and redo_action (src/main.py:1676-1681).  The slider values are restored
separately, through setValue (see undo_action below). -/
def installSnap (σ : CanvasState) (s : Snapshot) : CanvasState :=
  { σ with
    images := s.images
    selected_image_index := s.selected_image_index
    pixmap := s.pixmap
    overlay_pixmap := s.overlay_pixmap
    text_tool := { σ.text_tool with text_objects := s.text_objects } }

/-- CanvasWindow.undo_action (src/main.py:1591-1639): no-op on an empty undo
stack; otherwise pushes a snapshot of the current state onto the redo stack,
pops the last undo entry, installs its document fields, and restores the
three slider values through setValue (lines 1634-1636) — each of which, when
the value changes, synchronously fires the wired valueChanged filter
handler, re-entrantly calling save_state and refiltering the selected
image's pixmap. -/
def undo_action (K : FilterKernels) (σ : CanvasState) : CanvasState :=
  match σ.undo_stack.getLast? with
  | none => σ
  | some last =>
    let σ1 := { σ with
      redo_stack := σ.redo_stack ++ [snapOf σ]
      undo_stack := σ.undo_stack.dropLast }
    let σ2 := installSnap σ1 last
    let σ3 := set_threshold_value σ2 last.threshold_value
    let σ4 := set_sharp_value K σ3 last.sharp_value
    set_gamma_value K σ4 last.gamma_value

/-- CanvasWindow.redo_action (src/main.py:1641-1689): symmetric to
undo_action, using the redo stack; the slider restores at lines 1684-1686
carry the same synchronous valueChanged dispatch. -/
def redo_action (K : FilterKernels) (σ : CanvasState) : CanvasState :=
  match σ.redo_stack.getLast? with
  | none => σ
  | some nxt =>
    let σ1 := { σ with
      undo_stack := σ.undo_stack ++ [snapOf σ]
      redo_stack := σ.redo_stack.dropLast }
    let σ2 := installSnap σ1 nxt
    let σ3 := set_threshold_value σ2 nxt.threshold_value
    let σ4 := set_sharp_value K σ3 nxt.sharp_value
    set_gamma_value K σ4 nxt.gamma_value

/-- CanvasWindow.toggle_drag_mode (src/main.py:1737-1763): flips the drag
flag; the rest of the body is button styling. -/
def toggle_drag_mode (σ : CanvasState) : CanvasState :=
  { σ with drag_mode := !σ.drag_mode }

/-- CanvasWindow.toggle_scale_mode (src/main.py:1837-1865): flips the scale
flag and, when enabling, disables drag mode. -/
def toggle_scale_mode (σ : CanvasState) : CanvasState :=
  let σ1 := { σ with scale_mode := !σ.scale_mode }
  if σ1.scale_mode then { σ1 with drag_mode := false } else σ1

/-- CanvasWindow.toggle_drawing_mode (src/main.py:1867-1898): flips the
drawing flag, takes a checkpoint, and when enabling disables drag and scale
modes.  Eraser, shape, text and crop flags are not touched. -/
def toggle_drawing_mode (σ : CanvasState) : CanvasState :=
  let σ1 := save_state { σ with drawing_mode := !σ.drawing_mode }
  if σ1.drawing_mode then { σ1 with drag_mode := false, scale_mode := false } else σ1

/-- CanvasWindow.toggle_eraser_mode (src/main.py:1967-2000): flips the
eraser flag, disables drawing, takes a checkpoint, and when enabling
disables drag and scale modes. -/
def toggle_eraser_mode (σ : CanvasState) : CanvasState :=
  let σ1 := save_state { σ with eraser_mode := !σ.eraser_mode, drawing_mode := false }
  if σ1.eraser_mode then { σ1 with drag_mode := false, scale_mode := false } else σ1

/-- CanvasWindow.toggle_shape_mode (src/main.py:2002-2032): flips the shape
flag, disables drawing and eraser, and takes a checkpoint.  Drag, scale,
text and crop flags are not touched. -/
def toggle_shape_mode (σ : CanvasState) : CanvasState :=
  save_state { σ with shape_mode := !σ.shape_mode, drawing_mode := false, eraser_mode := false }

/-- CanvasWindow.toggle_text_mode (src/main.py:2061-2092): flips the text
flag, disables drawing, eraser and shape, and takes a checkpoint. -/
def toggle_text_mode (σ : CanvasState) : CanvasState :=
  save_state { σ with
    text_mode := !σ.text_mode, drawing_mode := false, eraser_mode := false,
    shape_mode := false }

/-- CanvasWindow.toggle_crop_mode (src/main.py:2130-2157): flips the crop
flag only. -/
def toggle_crop_mode (σ : CanvasState) : CanvasState :=
  { σ with crop_mode := !σ.crop_mode }

/-- The screen-to-canvas mapping shared verbatim by DrawingTool
(src/main.py:414-432), ShapeTool (325-335) and EraseTool (478-488):
subtract the canvas offsets, divide by scale factors
width/pixmap.width and height/pixmap.height, clamp to the pixmap extent,
and truncate to integers. -/
def map_to_canvas (σ : CanvasState) (widget_pos : Pt) : Pt :=
  let offset_x := σ.canvas_x
  let offset_y := σ.canvas_y
  let scale_x : ℚ := (σ.width : ℚ) / (σ.pixmap.w : ℚ)
  let scale_y : ℚ := (σ.height : ℚ) / (σ.pixmap.h : ℚ)
  let canvas_x : ℚ := ((widget_pos.x - offset_x : Int) : ℚ) / scale_x
  let canvas_y : ℚ := ((widget_pos.y - offset_y : Int) : ℚ) / scale_y
  let cx := max 0 (min canvas_x (σ.pixmap.w : ℚ))
  let cy := max 0 (min canvas_y (σ.pixmap.h : ℚ))
  ⟨pyInt cx, pyInt cy⟩

/-- DrawingTool.start_drawing (src/main.py:440-443). -/
def drawing_start (σ : CanvasState) (ev : MouseEvent) : CanvasState :=
  { σ with drawing_tool := { σ.drawing_tool with
      is_drawing := true
      last_pos := some (map_to_canvas σ ev.pos) } }

/-- DrawingTool.continue_drawing (src/main.py:445-455): draws a segment from
the last point to the current point onto the overlay pixmap with the active
pen, then advances the last point. -/
def drawing_continue (σ : CanvasState) (ev : MouseEvent) : CanvasState :=
  if σ.drawing_tool.is_drawing then
    match σ.drawing_tool.last_pos with
    | some lp =>
      let cur := map_to_canvas σ ev.pos
      { σ with
        overlay_pixmap := σ.overlay_pixmap.drawLine lp cur
          σ.drawing_tool.pen_color σ.drawing_tool.pen_width σ.drawing_tool.pen_opacity
        drawing_tool := { σ.drawing_tool with last_pos := some cur } }
    | none => σ
  else σ

/-- DrawingTool.end_drawing (src/main.py:457-469): composites the overlay
pixmap onto the main pixmap and resets the gesture.  The overlay clear
(`self.canvas.overlay_pixmap.fill(Qt.transparent)`, line 466) is commented
out in the source, so the overlay keeps the stroke. -/
def drawing_end (σ : CanvasState) : CanvasState :=
  if σ.drawing_tool.is_drawing then
    { σ with
      pixmap := σ.pixmap.compositeOver σ.overlay_pixmap
      drawing_tool := { σ.drawing_tool with is_drawing := false, last_pos := none } }
  else σ

/-- EraseTool.start_erasing (src/main.py:490-493). -/
def erase_start (σ : CanvasState) (ev : MouseEvent) : CanvasState :=
  { σ with erase_tool := { σ.erase_tool with
      is_erasing := true
      last_pos := some (map_to_canvas σ ev.pos) } }

/-- EraseTool.continue_erasing (src/main.py:495-504): draws in fixed white
on the overlay pixmap. -/
def erase_continue (σ : CanvasState) (ev : MouseEvent) : CanvasState :=
  if σ.erase_tool.is_erasing then
    match σ.erase_tool.last_pos with
    | some lp =>
      let cur := map_to_canvas σ ev.pos
      { σ with
        overlay_pixmap := σ.overlay_pixmap.drawLine lp cur RGBA.white σ.erase_tool.pen_width 1
        erase_tool := { σ.erase_tool with last_pos := some cur } }
    | none => σ
  else σ

/-- EraseTool.end_erasing (src/main.py:506-518): composites the overlay onto
the main pixmap; as in DrawingTool.end_drawing the overlay clear is
commented out. -/
def erase_end (σ : CanvasState) : CanvasState :=
  if σ.erase_tool.is_erasing then
    { σ with
      pixmap := σ.pixmap.compositeOver σ.overlay_pixmap
      erase_tool := { σ.erase_tool with is_erasing := false, last_pos := none } }
  else σ

/-- ShapeTool.draw_shape (src/main.py:373-402) applied to a target pixmap
with the tool's pen. -/
def draw_shape (t : ShapeToolState) (target : Pixmap) (start_pos current_pos : Pt) : Pixmap :=
  let r := Rect.ofCorners start_pos current_pos
  match t.shape_type with
  | .rectangle => target.drawRectOutline r t.pen_color t.pen_opacity
  | .ellipse => target.drawEllipseOutline r t.pen_color t.pen_opacity
  | .circle =>
    let s := min r.width r.height
    target.drawEllipseOutline (Rect.mkXYWH r.left r.top s s) t.pen_color t.pen_opacity
  | .square =>
    let s := min r.width r.height
    target.drawRectOutline (Rect.mkXYWH r.left r.top s s) t.pen_color t.pen_opacity
  | .triangle =>
    let apex : Pt := ⟨cDiv (r.left + r.right) 2, r.top⟩
    ((target.drawLine apex r.bottomLeft t.pen_color t.pen_width t.pen_opacity).drawLine
        r.bottomLeft r.bottomRight t.pen_color t.pen_width t.pen_opacity).drawLine
      r.bottomRight apex t.pen_color t.pen_width t.pen_opacity
  | .line => target.drawLine start_pos current_pos t.pen_color t.pen_width t.pen_opacity
  | .dashLine => target.drawLine start_pos current_pos t.pen_color t.pen_width t.pen_opacity

/-- ShapeTool.start_drawing (src/main.py:337-339). -/
def shape_start (σ : CanvasState) (ev : MouseEvent) : CanvasState :=
  { σ with shape_tool := { σ.shape_tool with start_pos := some (map_to_canvas σ ev.pos) } }

/-- ShapeTool.continue_drawing (src/main.py:341-354): clears the overlay to
transparent and redraws the live preview. -/
def shape_continue (σ : CanvasState) (ev : MouseEvent) : CanvasState :=
  match σ.shape_tool.start_pos with
  | some sp =>
    let cur := map_to_canvas σ ev.pos
    { σ with overlay_pixmap :=
        draw_shape σ.shape_tool (σ.overlay_pixmap.fill RGBA.transparent) sp cur }
  | none => σ

/-- ShapeTool.end_drawing (src/main.py:356-371): draws the final shape
directly onto the main pixmap (the overlay is neither merged nor cleared)
and ends the gesture. -/
def shape_end (σ : CanvasState) (ev : MouseEvent) : CanvasState :=
  match σ.shape_tool.start_pos with
  | some sp =>
    let cur := map_to_canvas σ ev.pos
    { σ with
      pixmap := draw_shape σ.shape_tool σ.pixmap sp cur
      shape_tool := { σ.shape_tool with start_pos := none } }
  | none => σ

/-- QFontMetrics.height for a font, modelled at the contract level. -/
def fontHeight (f : Font) : Int := f.size

/-- QFontMetrics.averageCharWidth for a font, modelled at the contract
level. -/
def fontAvgCharWidth (f : Font) : Int := cDiv f.size 2

/-- TextTool.update_text_rect (src/main.py:241-251). -/
def text_update_rect (σ : CanvasState) : CanvasState :=
  match σ.text_tool.start_pos with
  | some sp =>
    let fm_h := fontHeight σ.text_tool.current_font
    let r := Rect.mkXYWH sp.x (sp.y - fm_h)
      (fontAvgCharWidth σ.text_tool.current_font * 10) (fm_h + 5)
    { σ with text_tool := { σ.text_tool with text_rect := some r } }
  | none => σ

/-- TextTool.start_typing (src/main.py:234-239). -/
def text_start_typing (σ : CanvasState) (ev : MouseEvent) : CanvasState :=
  text_update_rect { σ with text_tool := { σ.text_tool with
    start_pos := some ev.pos
    current_text := ""
    is_active := true } }

/-- TextTool.finalize_text (src/main.py:253-267): when text is pending,
appends an immutable text object and closes the session. -/
def text_finalize (σ : CanvasState) : CanvasState :=
  if σ.text_tool.current_text ≠ "" then
    match σ.text_tool.start_pos with
    | some sp =>
      { σ with text_tool := { σ.text_tool with
          text_objects := σ.text_tool.text_objects ++
            [{ position := sp
               text := σ.text_tool.current_text
               font := σ.text_tool.current_font
               color := σ.text_tool.pen_color
               opacity := σ.text_tool.pen_opacity }]
          current_text := ""
          start_pos := none
          text_rect := none
          is_active := false } }
    | none => σ
  else σ

/-- CanvasWindow.get_clicked_anchor (src/main.py:1789-1800): hit-test the
four rect corners with a 10x10 square centred 5 off each corner, in the
source's dict order. -/
def get_clicked_anchor (pos : Pt) (r : Rect) : Option Anchor :=
  let hit := fun (a : Pt) => (Rect.mkXYWH (a.x - 5) (a.y - 5) 10 10).containsPt pos
  if hit r.topLeft then some .topLeft
  else if hit r.topRight then some .topRight
  else if hit r.bottomLeft then some .bottomLeft
  else if hit r.bottomRight then some .bottomRight
  else none

/-- The corner update of CanvasWindow.scale_image (src/main.py:1807-1815):
the grabbed anchor of the rect is set to the pointer. -/
def anchorAdjustedRect (a : Option Anchor) (r : Rect) (p : Pt) : Rect :=
  match a with
  | some .topLeft => r.setTopLeft p
  | some .topRight => r.setTopRight p
  | some .bottomLeft => r.setBottomLeft p
  | some .bottomRight => r.setBottomRight p
  | none => r

/-- The height recomputation of CanvasWindow.scale_image (src/main.py:
1822-1826): for a grabbed corner, `int(new_width / aspect)` with
`aspect = original.width() / original.height()` in exact rational
arithmetic for the source's float division; otherwise the height is left
as derived from the rect. -/
def scaleRecomputedHeight (a : Option Anchor) (origW origH newW fallback : Int) : Int :=
  match a with
  | some _ => pyInt ((newW : ℚ) / ((origW : ℚ) / (origH : ℚ)))
  | none => fallback

/-- CanvasWindow.scale_image (src/main.py:1802-1835).  The grabbed corner of
the selected object's rect is moved to the pointer in place (lines
1808-1815, mutating the stored rect) before the size guard; if both
resulting dimensions exceed 10, the height is recomputed from the original
pixmap's aspect and the display pixmap is resampled from the original
pixmap, else only the already moved rect remains. -/
def scale_image (σ : CanvasState) (pos : Pt) : CanvasState :=
  match σ.selected_image_index with
  | none => σ
  | some i =>
    match σ.images.get? i with
    | none => σ
    | some img =>
      let rect1 := anchorAdjustedRect σ.anchor_clicked img.rect pos
      if rect1.width > 10 ∧ rect1.height > 10 then
        let newH := scaleRecomputedHeight σ.anchor_clicked
          img.original_pixmap.w img.original_pixmap.h rect1.width rect1.height
        let pm := img.original_pixmap.scaledKeepAspect rect1.width newH
        let rect2 := Rect.mkXYWH rect1.left rect1.top rect1.width newH
        { σ with images := σ.images.set i { img with pixmap := pm, rect := rect2 } }
      else
        { σ with images := σ.images.set i { img with rect := rect1 } }

/-- CanvasWindow.flip_horizontal (src/main.py:2197-2204): with a valid
selection, checkpoints and replaces only the selected image's displayed
pixmap by its horizontal mirror. -/
def flip_horizontal (σ : CanvasState) : CanvasState :=
  match σ.selected_image_index with
  | some i =>
    if i < σ.images.length then
      let σ1 := save_state σ
      match σ1.images.get? i with
      | some img =>
        { σ1 with images := σ1.images.set i { img with pixmap := img.pixmap.flippedH } }
      | none => σ1
    else σ
  | none => σ

/-- CanvasWindow.flip_vertical (src/main.py:2206-2213): as flip_horizontal
with a vertical mirror. -/
def flip_vertical (σ : CanvasState) : CanvasState :=
  match σ.selected_image_index with
  | some i =>
    if i < σ.images.length then
      let σ1 := save_state σ
      match σ1.images.get? i with
      | some img =>
        { σ1 with images := σ1.images.set i { img with pixmap := img.pixmap.flippedV } }
      | none => σ1
    else σ
  | none => σ

/-- CanvasWindow.perform_crop (src/main.py:2159-2171): with a selection and
a crop rect, checkpoints, then replaces the selected image's pixmap by the
crop-rect sub-region (translated into the object's local space) and resets
its rect to the cropped size at the unchanged position. -/
def perform_crop (σ : CanvasState) : CanvasState :=
  match σ.selected_image_index, σ.crop_rect with
  | some i, some cr =>
    let σ1 := save_state σ
    match σ1.images.get? i with
    | some img =>
      let r := cr.translated (-img.x) (-img.y)
      let cropped := img.pixmap.copyRect r
      let img1 := { img with
        pixmap := cropped
        rect := Rect.mkXYWH img.x img.y cropped.w cropped.h }
      { σ1 with images := σ1.images.set i img1 }
    | none => σ1
  | _, _ => σ

/-- The first image (index and object) whose rect contains the position:
the `for ... if rect.contains(pos): ... break / else:` loops of the press
handler. -/
def findImageAt : List ImgObj → Pt → Nat → Option (Nat × ImgObj)
  | [], _, _ => none
  | img :: rest, pos, i =>
    if img.rect.containsPt pos then some (i, img) else findImageAt rest pos (i + 1)

/-- CanvasWindow.mousePressEvent (src/main.py:3159-3215): the mode-ordered
elif chain.  The drag and scale branches select the hit image and
checkpoint (the scale branch only on an anchor hit). -/
def mousePressEvent (σ : CanvasState) (ev : MouseEvent) : CanvasState :=
  if σ.drag_mode ∧ ev.button = .left then
    match findImageAt σ.images ev.pos 0 with
    | some (i, _) =>
      save_state { σ with selected_image_index := some i, last_mouse_position := ev.pos }
    | none => { σ with selected_image_index := none }
  else if σ.drawing_mode ∧ ev.button = .left then drawing_start σ ev
  else if σ.eraser_mode ∧ ev.button = .left then erase_start σ ev
  else if σ.shape_mode ∧ ev.button = .left then shape_start σ ev
  else if σ.text_mode ∧ ev.button = .left then
    let σ1 := if σ.text_tool.is_active then text_finalize σ else σ
    text_start_typing σ1 ev
  else if σ.crop_mode ∧ ev.button = .left then
    { σ with crop_start_point := some ev.pos, crop_end_point := none, crop_rect := none }
  else if σ.scale_mode ∧ ev.button = .left then
    match findImageAt σ.images ev.pos 0 with
    | some (i, img) =>
      let σ1 := { σ with
        selected_image_index := some i
        last_mouse_position := ev.pos
        anchor_clicked := get_clicked_anchor ev.pos img.rect }
      if σ1.anchor_clicked.isSome then save_state σ1 else σ1
    | none => { σ with selected_image_index := none }
  else if ev.button = .left then
    match findImageAt σ.images ev.pos 0 with
    | some (i, img) =>
      let σ1 := { σ with
        selected_image_index := some i
        last_mouse_position := ev.pos
        anchor_clicked := get_clicked_anchor ev.pos img.rect }
      if σ1.anchor_clicked.isSome then save_state σ1 else σ1
    | none => { σ with selected_image_index := none }
  else if ev.button = .right then
    match findImageAt σ.images ev.pos 0 with
    | some (i, _) => { σ with selected_image_index := some i }
    | none => { σ with selected_image_index := none }
  else σ

/-- CanvasWindow.mouseMoveEvent (src/main.py:3217-3261).  With a selection,
an anchor-scale in progress routes to scale_image; the duplicate drag
branch of the source (lines 3243-3249) is unreachable and omitted. -/
def mouseMoveEvent (σ : CanvasState) (ev : MouseEvent) : CanvasState :=
  match σ.selected_image_index with
  | some i =>
    if σ.anchor_clicked.isSome then scale_image σ ev.pos
    else if σ.crop_mode ∧ σ.crop_start_point.isSome then
      match σ.crop_start_point with
      | some cs =>
        { σ with
          crop_end_point := some ev.pos
          crop_rect := some ((Rect.ofCorners cs ev.pos).normalized) }
      | none => σ
    else if σ.drawing_mode ∧ ev.buttonsLeft then drawing_continue σ ev
    else if σ.eraser_mode ∧ ev.buttonsLeft then erase_continue σ ev
    else if σ.shape_mode ∧ ev.buttonsLeft then shape_continue σ ev
    else if σ.drag_mode ∧ ev.buttonsLeft then
      match σ.images.get? i with
      | some img =>
        let dx := ev.pos.x - σ.last_mouse_position.x
        let dy := ev.pos.y - σ.last_mouse_position.y
        let img1 := { img with
          x := img.x + dx
          y := img.y + dy
          rect := img.rect.moveTo (img.x + dx) (img.y + dy) }
        { σ with last_mouse_position := ev.pos, images := σ.images.set i img1 }
      | none => σ
    else if σ.scale_mode ∧ σ.anchor_clicked.isSome then scale_image σ ev.pos
    else σ
  | none =>
    if σ.drawing_mode ∧ ev.buttonsLeft then drawing_continue σ ev
    else if σ.eraser_mode ∧ ev.buttonsLeft then erase_continue σ ev
    else if σ.shape_mode ∧ ev.buttonsLeft then shape_continue σ ev
    else σ

/-- CanvasWindow.mouseReleaseEvent (src/main.py:3263-3289): the mode-ordered
elif chain, then `self.anchor_clicked = None` unconditionally. -/
def mouseReleaseEvent (σ : CanvasState) (ev : MouseEvent) : CanvasState :=
  let σ1 :=
    if σ.selected_image_index.isSome ∧ σ.scale_mode then
      if σ.anchor_clicked.isSome then save_state σ else σ
    else if σ.drawing_mode then save_state (drawing_end σ)
    else if σ.eraser_mode then save_state (erase_end σ)
    else if σ.shape_mode then save_state (shape_end σ ev)
    else if σ.text_mode ∧ σ.text_tool.is_active then text_finalize σ
    else if σ.crop_mode ∧ σ.crop_start_point.isSome ∧ ev.button = .left then
      match σ.crop_start_point with
      | some cs =>
        let σa := { σ with
          crop_end_point := some ev.pos
          crop_rect := some ((Rect.ofCorners cs ev.pos).normalized) }
        let σb := perform_crop σa
        { σb with crop_start_point := none, crop_end_point := none, crop_rect := none }
      | none => σ
    else σ
  { σ1 with anchor_clicked := none }

/-- The state of a freshly constructed CanvasWindow (src/main.py:650-703 and
init_ui): white background pixmap, transparent overlay, empty stacks and
lists, all mode flags off, canvas offset (100, 100), slider defaults
threshold 127 / sharpen 0 / gamma 10, default tool settings. -/
def initialCanvasState (w h : Int) : CanvasState :=
  { width := w
    height := h
    canvas_x := 100
    canvas_y := 100
    pixmap := Pixmap.filled w h RGBA.white
    overlay_pixmap := Pixmap.filled w h RGBA.transparent
    images := []
    selected_image_index := none
    undo_stack := []
    redo_stack := []
    drag_mode := false
    scale_mode := false
    drawing_mode := false
    eraser_mode := false
    shape_mode := false
    text_mode := false
    crop_mode := false
    anchor_clicked := none
    last_mouse_position := ⟨0, 0⟩
    threshold_value := 127
    sharp_value := 0
    gamma_value := 10
    drawing_tool := ⟨RGBA.black, 1, 1, .solid, false, none⟩
    erase_tool := ⟨10, .solid, false, none⟩
    shape_tool := ⟨none, .rectangle, RGBA.black, 1, 1, .solid⟩
    text_tool := ⟨"", [], ⟨"Arial", 12⟩, RGBA.black, 1, false, none, none⟩
    crop_start_point := none
    crop_end_point := none
    crop_rect := none }

/-- A concrete imported image object: a 100x100 white pixmap at the canvas
origin. -/
def imgA : ImgObj :=
  { pixmap := Pixmap.filled 100 100 RGBA.white
    original_pixmap := Pixmap.filled 100 100 RGBA.white
    x := 0
    y := 0
    rect := Rect.mkXYWH 0 0 100 100 }

/-- A concrete document with one imported image, selected, at the default
slider values. -/
def undoReentryBase : CanvasState :=
  { initialCanvasState 800 600 with
    images := [imgA]
    selected_image_index := some 0
    last_mouse_position := ⟨0, 0⟩ }

/-- The concrete state at which the undo/redo roundtrip breaks: one undo
entry recording the selected-image document at threshold 127, while the
live threshold slider has since been moved to 100 — so popping the entry
makes undo_action call setValue(127) on a slider reading 100, firing the
wired thresholding handler mid-undo. -/
def undoReentryState : CanvasState :=
  { undoReentryBase with
    threshold_value := 100
    undo_stack := [snapOf undoReentryBase] }

/-- A concrete canvas with one image and scale mode active. -/
def scaleModeState : CanvasState :=
  { initialCanvasState 800 600 with scale_mode := true, images := [imgA] }

/-- One full anchor-scale gesture: pointer-down at press, the listed
pointer moves, pointer-up at rel, all with the left button. -/
def scaleGesture (σ : CanvasState) (press : Pt) (moves : List Pt) (rel : Pt) : CanvasState :=
  mouseReleaseEvent
    (moves.foldl (fun s p => mouseMoveEvent s ⟨p, .left, true⟩)
      (mousePressEvent σ ⟨press, .left, true⟩))
    ⟨rel, .left, false⟩

/-- An image object with its rect replaced: the shape of the rejected
scale_image result. -/
def withRect (img : ImgObj) (r : Rect) : ImgObj := { img with rect := r }

/-- The image object produced by an accepted scale_image move: rect moved to
the grabbed corner, height recomputed from the original aspect, display
pixmap resampled from the original pixmap at the new size. -/
def acceptedScaledImg (a : Option Anchor) (img : ImgObj) (pos : Pt) : ImgObj :=
  let r1 := anchorAdjustedRect a img.rect pos
  let nh := scaleRecomputedHeight a img.original_pixmap.w img.original_pixmap.h
    r1.width r1.height
  { img with
    pixmap := img.original_pixmap.scaledKeepAspect r1.width nh
    rect := Rect.mkXYWH r1.left r1.top r1.width nh }

/-- A concrete canvas mid anchor-scale gesture on imgA's bottom-right
anchor. -/
def scaleRejectState : CanvasState :=
  { initialCanvasState 800 600 with
    scale_mode := true
    images := [imgA]
    selected_image_index := some 0
    anchor_clicked := some .bottomRight }

/-- A concrete imported 400x300 image object at (100, 100), as import_image
builds it. -/
def img400 : ImgObj :=
  { pixmap := Pixmap.filled 400 300 RGBA.white
    original_pixmap := Pixmap.filled 400 300 RGBA.white
    x := 100
    y := 100
    rect := Rect.mkXYWH 100 100 400 300 }

/-- A concrete canvas mid anchor-scale gesture on img400's bottom-right
anchor. -/
def scaleAcceptState : CanvasState :=
  { initialCanvasState 800 600 with
    scale_mode := true
    images := [img400]
    selected_image_index := some 0
    anchor_clicked := some .bottomRight }

/-- A concrete 800x600 canvas with the drawing-mode flag on, as
toggle_drawing_mode leaves it. -/
def drawState : CanvasState := { initialCanvasState 800 600 with drawing_mode := true }

/-- drawState after a left press at widget point (110, 110): the start of a
freehand stroke at canvas point (10, 10). -/
def pressedState : CanvasState := mousePressEvent drawState ⟨⟨110, 110⟩, .left, true⟩

/-- pressedState after a pointer move to widget point (110, 200): the
stroke segment from canvas (10, 10) to (10, 100) drawn onto the overlay. -/
def strokeState : CanvasState := mouseMoveEvent pressedState ⟨⟨110, 200⟩, .left, true⟩

/-- strokeState after the pointer release that ends the stroke. -/
def releasedState : CanvasState := mouseReleaseEvent strokeState ⟨⟨110, 200⟩, .left, false⟩

/-- Modelled from the spec (§4.1 CoordinateMapper), for comparison against
the source's map_to_canvas: canvasX = (widgetX − originX) / scaleX with
scaleX = displayedWidth / bufferWidth (and likewise for y), the result
clamped to [0, bufferWidth] x [0, bufferHeight], on the integer grid. -/
def coordinateMapperSpec (displayedW displayedH bufferW bufferH originX originY : Int)
    (p : Pt) : Pt :=
  let scaleX : ℚ := (displayedW : ℚ) / (bufferW : ℚ)
  let scaleY : ℚ := (displayedH : ℚ) / (bufferH : ℚ)
  let cx := max 0 (min (((p.x - originX : Int) : ℚ) / scaleX) (bufferW : ℚ))
  let cy := max 0 (min (((p.y - originY : Int) : ℚ) / scaleY) (bufferH : ℚ))
  ⟨pyInt cx, pyInt cy⟩

/-- A heap-level image dict (one entry of `self.images`): the pixmap,
original pixmap and rect fields hold references (heap ids) to the mutable
QPixmap and QRect objects; x and y are immutable ints held by value. -/
structure HImg where
  pix : Nat
  orig : Nat
  x : Int
  y : Int
  rect : Nat
  deriving DecidableEq, Repr

/-- The mutable object store: one region per kind of mutable Qt object the
document aliases — QPixmaps, QRects and the image dicts themselves.  Each
region is a counter plus a cell map; ids at or above the counter are
unallocated. -/
structure Heap where
  pixN : Nat
  pixmaps : Nat → Pixmap
  rectN : Nat
  rects : Nat → Rect
  imgN : Nat
  imgs : Nat → HImg

/-- Allocating a fresh pixmap object (QPixmap construction or `.copy()`). -/
def Heap.allocPix (h : Heap) (p : Pixmap) : Heap × Nat :=
  ({ h with
      pixN := h.pixN + 1
      pixmaps := fun j => if j = h.pixN then p else h.pixmaps j }, h.pixN)

/-- Allocating a fresh rect object (QRect construction or copy). -/
def Heap.allocRect (h : Heap) (r : Rect) : Heap × Nat :=
  ({ h with
      rectN := h.rectN + 1
      rects := fun j => if j = h.rectN then r else h.rects j }, h.rectN)

/-- Allocating a fresh image dict. -/
def Heap.allocImg (h : Heap) (d : HImg) : Heap × Nat :=
  ({ h with
      imgN := h.imgN + 1
      imgs := fun j => if j = h.imgN then d else h.imgs j }, h.imgN)

/-- Mutating a pixmap object in place (painting into it, filling it). -/
def Heap.writePix (h : Heap) (i : Nat) (p : Pixmap) : Heap :=
  { h with pixmaps := fun j => if j = i then p else h.pixmaps j }

/-- Mutating a rect object in place (moveTo, setTopLeft and friends). -/
def Heap.writeRect (h : Heap) (i : Nat) (r : Rect) : Heap :=
  { h with rects := fun j => if j = i then r else h.rects j }

/-- Mutating an image dict in place (`img['pixmap'] = ...`,
`img['x'] += ...`). -/
def Heap.writeImg (h : Heap) (i : Nat) (d : HImg) : Heap :=
  { h with imgs := fun j => if j = i then d else h.imgs j }

/-- The heap-level state dict of save_state: the snapshot holds its own
freshly allocated image dicts, pixmap copies and rect copies; text objects
and the plain values are held by value (the source's text-object dicts are
freshly built per snapshot and their field values are never mutated in
place). -/
structure HSnapshot where
  images : List Nat
  selected : Option Nat
  pixmap : Nat
  overlay : Nat
  texts : List TextObj
  threshold : Int
  sharp : Int
  gamma : Int
  deriving DecidableEq, Repr

/-- The heap-level live state of a CanvasWindow: the object store, the live
document's references into it, the history stacks, and the fields
save_state consults. -/
structure HState where
  heap : Heap
  width : Int
  height : Int
  canvas_x : Int
  canvas_y : Int
  images : List Nat
  selected : Option Nat
  bg : Nat
  overlay : Nat
  texts : List TextObj
  threshold : Int
  sharp : Int
  gamma : Int
  undo : List HSnapshot
  redo : List HSnapshot
  drag_mode : Bool
  scale_mode : Bool
  drawing_mode : Bool
  anchor : Option Anchor

/-- One iteration of save_state's deep-copy loop over `self.images`
(src/main.py:1556-1562): fresh copies of both pixmaps, a fresh rect copy,
and a fresh dict referencing them. -/
def snapOneImage (h : Heap) (d : Nat) : Heap × Nat :=
  let img := h.imgs d
  let a1 := h.allocPix (h.pixmaps img.pix)
  let a2 := a1.1.allocPix (a1.1.pixmaps img.orig)
  let a3 := a2.1.allocRect (a2.1.rects img.rect)
  let a4 := a3.1.allocImg ⟨a1.2, a2.2, img.x, img.y, a3.2⟩
  (a4.1, a4.2)

/-- The deep-copy loop of save_state over `self.images`
(src/main.py:1555-1564). -/
def snapImages : Heap → List Nat → Heap × List Nat
  | h, [] => (h, [])
  | h, d :: rest =>
    let a := snapOneImage h d
    let r := snapImages a.1 rest
    (r.1, a.2 :: r.2)

/-- The heap after save_state's deep copies (src/main.py:1552-1582): the
snapshot loop over the images, then copies of the background and overlay
pixmaps. -/
def hsaveHeap (σ : HState) : Heap :=
  let s1 := snapImages σ.heap σ.images
  let a1 := s1.1.allocPix (s1.1.pixmaps σ.bg)
  (a1.1.allocPix (a1.1.pixmaps σ.overlay)).1

/-- The snapshot dict save_state builds: freshly copied image dicts, fresh
background and overlay copies, by-value text objects and slider values. -/
def hsaveSnap (σ : HState) : HSnapshot :=
  let s1 := snapImages σ.heap σ.images
  let a1 := s1.1.allocPix (s1.1.pixmaps σ.bg)
  let a2 := a1.1.allocPix (a1.1.pixmaps σ.overlay)
  ⟨s1.2, σ.selected, a1.2, a2.2, σ.texts, σ.threshold, σ.sharp, σ.gamma⟩

/-- Heap-level CanvasWindow.save_state: deep-copies the document into a
fresh snapshot, appends it to the undo stack, and clears the redo stack
unconditionally (src/main.py:1584) before the dead guarded clear. -/
def hsave_state (σ : HState) : HState :=
  let σ1 := { σ with
    heap := hsaveHeap σ
    undo := σ.undo ++ [hsaveSnap σ]
    redo := ([] : List HSnapshot) }
  if ¬σ1.drag_mode ∧ ¬σ1.anchor.isSome ∧ ¬σ1.drawing_mode then
    { σ1 with redo := [] }
  else σ1

/-- Heap-level CanvasWindow.undo_action: pushes a fresh deep-copy snapshot
of the live state onto the redo stack, pops the undo stack, and installs
the popped snapshot's references as the live document. -/
def hundo (σ : HState) : HState :=
  match σ.undo.getLast? with
  | none => σ
  | some last =>
    { σ with
      heap := hsaveHeap σ
      redo := σ.redo ++ [hsaveSnap σ]
      undo := σ.undo.dropLast
      images := last.images
      selected := last.selected
      bg := last.pixmap
      overlay := last.overlay
      texts := last.texts
      threshold := last.threshold
      sharp := last.sharp
      gamma := last.gamma }

/-- Heap-level CanvasWindow.redo_action, symmetric to hundo. -/
def hredo (σ : HState) : HState :=
  match σ.redo.getLast? with
  | none => σ
  | some nxt =>
    { σ with
      heap := hsaveHeap σ
      undo := σ.undo ++ [hsaveSnap σ]
      redo := σ.redo.dropLast
      images := nxt.images
      selected := nxt.selected
      bg := nxt.pixmap
      overlay := nxt.overlay
      texts := nxt.texts
      threshold := nxt.threshold
      sharp := nxt.sharp
      gamma := nxt.gamma }

/-- The document mutations of the source, at the heap level.  Each case
mirrors one mutating code path of CanvasWindow or a tool; the external
pixel filters (§6 of the spec) enter as an uninterpreted buffer transform.
-/
inductive DocOp where
  | importImg (p : Pixmap)
  | dragMove (delta : Pt)
  | scaleMove (pos : Pt)
  | flipH
  | flipV
  | applyFilter (f : Pixmap → Pixmap)
  | cropSelected (r : Rect)
  | drawSeg (a b : Pt) (c : RGBA) (penW : Int) (o : ℚ)
  | eraseSeg (a b : Pt) (penW : Int)
  | shapePreview (t : ShapeToolState) (a b : Pt)
  | shapeCommit (t : ShapeToolState) (a b : Pt)
  | commitStroke
  | overlayClear
  | finalizeText (t : TextObj)
  | deleteSelected
  | push
  | undoOp
  | redoOp

/-- The semantics of each document mutation on the heap-level state,
translated from the corresponding source paths: import_image (1692-1728),
the drag branch of mouseMoveEvent (3234-3242), scale_image (1802-1835),
flip_horizontal/vertical (2197-2213), the filter handlers
(update_powerlaw_image and friends), perform_crop (2159-2171),
DrawingTool.continue_drawing / EraseTool.continue_erasing,
ShapeTool.continue_drawing / end_drawing, DrawingTool.end_drawing,
overlay fills, TextTool.finalize_text, delete_selected_image (2173-2180),
save_state, undo_action, redo_action. -/
def hstep (op : DocOp) (σ : HState) : HState :=
  match op with
  | .importImg p =>
    let σ0 := hsave_state σ
    let x := σ0.canvas_x + Int.fdiv (σ0.width - p.w) 2
    let y := σ0.canvas_y + Int.fdiv (σ0.height - p.h) 2
    let a1 := σ0.heap.allocPix p
    let a2 := a1.1.allocPix p
    let a3 := a2.1.allocRect (Rect.mkXYWH x y p.w p.h)
    let a4 := a3.1.allocImg ⟨a1.2, a2.2, x, y, a3.2⟩
    { σ0 with heap := a4.1, images := σ0.images ++ [a4.2] }
  | .dragMove delta =>
    match σ.selected with
    | none => σ
    | some i =>
      match σ.images.get? i with
      | none => σ
      | some d =>
        let img := σ.heap.imgs d
        let nx := img.x + delta.x
        let ny := img.y + delta.y
        let h1 := σ.heap.writeImg d { img with x := nx, y := ny }
        let h2 := h1.writeRect img.rect ((h1.rects img.rect).moveTo nx ny)
        { σ with heap := h2 }
  | .scaleMove pos =>
    match σ.selected with
    | none => σ
    | some i =>
      match σ.images.get? i with
      | none => σ
      | some d =>
        let img := σ.heap.imgs d
        let rect1 := anchorAdjustedRect σ.anchor (σ.heap.rects img.rect) pos
        let h1 := σ.heap.writeRect img.rect rect1
        if rect1.width > 10 ∧ rect1.height > 10 then
          let origPix := h1.pixmaps img.orig
          let newH := scaleRecomputedHeight σ.anchor origPix.w origPix.h
            rect1.width rect1.height
          let a1 := h1.allocPix (origPix.scaledKeepAspect rect1.width newH)
          let a2 := a1.1.allocRect (Rect.mkXYWH rect1.left rect1.top rect1.width newH)
          let h2 := a2.1.writeImg d { img with pix := a1.2, rect := a2.2 }
          { σ with heap := h2 }
        else
          { σ with heap := h1 }
  | .flipH =>
    match σ.selected with
    | none => σ
    | some i =>
      match σ.images.get? i with
      | none => σ
      | some d =>
        let σ0 := hsave_state σ
        let img := σ0.heap.imgs d
        let a1 := σ0.heap.allocPix ((σ0.heap.pixmaps img.pix).flippedH)
        let h1 := a1.1.writeImg d { img with pix := a1.2 }
        { σ0 with heap := h1 }
  | .flipV =>
    match σ.selected with
    | none => σ
    | some i =>
      match σ.images.get? i with
      | none => σ
      | some d =>
        let σ0 := hsave_state σ
        let img := σ0.heap.imgs d
        let a1 := σ0.heap.allocPix ((σ0.heap.pixmaps img.pix).flippedV)
        let h1 := a1.1.writeImg d { img with pix := a1.2 }
        { σ0 with heap := h1 }
  | .applyFilter f =>
    match σ.selected with
    | none => σ
    | some i =>
      match σ.images.get? i with
      | none => σ
      | some d =>
        let σ0 := hsave_state σ
        let img := σ0.heap.imgs d
        let cur := σ0.heap.pixmaps img.pix
        let a1 := σ0.heap.allocPix ((f (σ0.heap.pixmaps img.orig)).scaledKeepAspect cur.w cur.h)
        let h1 := a1.1.writeImg d { img with pix := a1.2 }
        { σ0 with heap := h1 }
  | .cropSelected r =>
    match σ.selected with
    | none => σ
    | some i =>
      match σ.images.get? i with
      | none => σ
      | some d =>
        let σ0 := hsave_state σ
        let img := σ0.heap.imgs d
        let cropped := (σ0.heap.pixmaps img.pix).copyRect (r.translated (-img.x) (-img.y))
        let a1 := σ0.heap.allocPix cropped
        let a2 := a1.1.allocRect (Rect.mkXYWH img.x img.y cropped.w cropped.h)
        let h1 := a2.1.writeImg d { img with pix := a1.2, rect := a2.2 }
        { σ0 with heap := h1 }
  | .drawSeg a b c penW o =>
    let h1 := σ.heap.writePix σ.overlay ((σ.heap.pixmaps σ.overlay).drawLine a b c penW o)
    { σ with heap := h1 }
  | .eraseSeg a b penW =>
    let h1 := σ.heap.writePix σ.overlay
      ((σ.heap.pixmaps σ.overlay).drawLine a b RGBA.white penW 1)
    { σ with heap := h1 }
  | .shapePreview t a b =>
    let h1 := σ.heap.writePix σ.overlay
      (draw_shape t ((σ.heap.pixmaps σ.overlay).fill RGBA.transparent) a b)
    { σ with heap := h1 }
  | .shapeCommit t a b =>
    let h1 := σ.heap.writePix σ.bg (draw_shape t (σ.heap.pixmaps σ.bg) a b)
    { σ with heap := h1 }
  | .commitStroke =>
    let h1 := σ.heap.writePix σ.bg
      ((σ.heap.pixmaps σ.bg).compositeOver (σ.heap.pixmaps σ.overlay))
    { σ with heap := h1 }
  | .overlayClear =>
    let h1 := σ.heap.writePix σ.overlay ((σ.heap.pixmaps σ.overlay).fill RGBA.transparent)
    { σ with heap := h1 }
  | .finalizeText t =>
    { σ with texts := σ.texts ++ [t] }
  | .deleteSelected =>
    match σ.selected with
    | none => σ
    | some i =>
      if i < σ.images.length then
        let σ0 := hsave_state σ
        { σ0 with images := σ0.images.eraseIdx i, selected := none }
      else σ
  | .push => hsave_state σ
  | .undoOp => hundo σ
  | .redoOp => hredo σ

/-- Running a sequence of document mutations. -/
def hrun (ops : List DocOp) (σ : HState) : HState :=
  ops.foldl (fun s op => hstep op s) σ

/-- The heap-level state of a freshly constructed 800x600 CanvasWindow: two
allocated pixmaps (background, overlay), no images, empty stacks. -/
def hinit : HState :=
  { heap :=
      { pixN := 2
        pixmaps := fun j =>
          if j = 0 then Pixmap.filled 800 600 RGBA.white
          else Pixmap.filled 800 600 RGBA.transparent
        rectN := 0
        rects := fun _ => Rect.mkXYWH 0 0 0 0
        imgN := 0
        imgs := fun _ => ⟨0, 0, 0, 0, 0⟩ }
    width := 800
    height := 600
    canvas_x := 100
    canvas_y := 100
    images := []
    selected := none
    bg := 0
    overlay := 1
    texts := []
    threshold := 127
    sharp := 0
    gamma := 10
    undo := []
    redo := []
    drag_mode := false
    scale_mode := false
    drawing_mode := false
    anchor := none }

/-- The dereferenced value of an image dict: every mutable object's current
contents. -/
structure ImgVal where
  pixmap : Pixmap
  original : Pixmap
  x : Int
  y : Int
  rect : Rect

/-- The dereferenced value of a stored snapshot: what the user would get
back from undo — every field of the snapshot with all references chased
into the heap. -/
structure SnapVal where
  images : List ImgVal
  selected : Option Nat
  pixmap : Pixmap
  overlay : Pixmap
  texts : List TextObj
  threshold : Int
  sharp : Int
  gamma : Int

def derefImg (h : Heap) (d : Nat) : ImgVal :=
  ⟨h.pixmaps (h.imgs d).pix, h.pixmaps (h.imgs d).orig,
    (h.imgs d).x, (h.imgs d).y, h.rects (h.imgs d).rect⟩

def derefSnap (h : Heap) (s : HSnapshot) : SnapVal :=
  ⟨s.images.map (derefImg h), s.selected, h.pixmaps s.pixmap, h.pixmaps s.overlay,
    s.texts, s.threshold, s.sharp, s.gamma⟩

/-- The pixmap ids a document shape (a snapshot or the live document)
depends on: the background and overlay cells plus both buffers of every
image dict. -/
def pixIdsOf (h : Heap) (images : List Nat) (bg ov : Nat) : List Nat :=
  bg :: ov :: images.flatMap (fun d => [(h.imgs d).pix, (h.imgs d).orig])

/-- The rect ids a document shape depends on. -/
def rectIdsOf (h : Heap) (images : List Nat) : List Nat :=
  images.map (fun d => (h.imgs d).rect)

/-- The pixmap ids a snapshot's value depends on. -/
def snapPixIds (h : Heap) (s : HSnapshot) : List Nat :=
  pixIdsOf h s.images s.pixmap s.overlay

/-- The rect ids a snapshot's value depends on. -/
def snapRectIds (h : Heap) (s : HSnapshot) : List Nat :=
  rectIdsOf h s.images

/-- The pixmap ids the live document can write through. -/
def livePixIds (σ : HState) : List Nat :=
  pixIdsOf σ.heap σ.images σ.bg σ.overlay

/-- The rect ids the live document can write through. -/
def liveRectIds (σ : HState) : List Nat :=
  rectIdsOf σ.heap σ.images

/-- One heap extends another: the counters have grown and every cell below
the old counters is unchanged.  Allocation produces extension; in-place
mutation of an existing cell does not. -/
def HeapExtends (h h2 : Heap) : Prop :=
  h.pixN ≤ h2.pixN ∧ h.rectN ≤ h2.rectN ∧ h.imgN ≤ h2.imgN ∧
  (∀ i, i < h.pixN → h2.pixmaps i = h.pixmaps i) ∧
  (∀ i, i < h.rectN → h2.rects i = h.rects i) ∧
  (∀ i, i < h.imgN → h2.imgs i = h.imgs i)

/-- The unaliasing invariant of the heap-level state — the load-bearing
property behind the history mechanism: every stored snapshot's mutable
cells (image dicts, pixmaps, rects) are allocated (below the counters),
disjoint from every cell the live document can write through, and pairwise
disjoint between snapshots. -/
structure StateWF (σ : HState) : Prop where
  live_img : ∀ d ∈ σ.images, d < σ.heap.imgN
  live_pix : ∀ i ∈ livePixIds σ, i < σ.heap.pixN
  live_rect : ∀ i ∈ liveRectIds σ, i < σ.heap.rectN
  snap_img : ∀ s ∈ σ.undo ++ σ.redo, ∀ d ∈ s.images, d < σ.heap.imgN
  snap_pix : ∀ s ∈ σ.undo ++ σ.redo, ∀ i ∈ snapPixIds σ.heap s, i < σ.heap.pixN
  snap_rect : ∀ s ∈ σ.undo ++ σ.redo, ∀ i ∈ snapRectIds σ.heap s, i < σ.heap.rectN
  disj_img : ∀ s ∈ σ.undo ++ σ.redo, ∀ d ∈ s.images, d ∉ σ.images
  disj_pix : ∀ s ∈ σ.undo ++ σ.redo, ∀ i ∈ snapPixIds σ.heap s, i ∉ livePixIds σ
  disj_rect : ∀ s ∈ σ.undo ++ σ.redo, ∀ i ∈ snapRectIds σ.heap s, i ∉ liveRectIds σ
  pair_img : List.Pairwise (fun s t => ∀ d ∈ s.images, d ∉ t.images) (σ.undo ++ σ.redo)
  pair_pix : List.Pairwise
    (fun s t => ∀ i ∈ snapPixIds σ.heap s, i ∉ snapPixIds σ.heap t) (σ.undo ++ σ.redo)
  pair_rect : List.Pairwise
    (fun s t => ∀ i ∈ snapRectIds σ.heap s, i ∉ snapRectIds σ.heap t) (σ.undo ++ σ.redo)

/-- save_state grows the undo stack by the current snapshot and empties the
redo stack, whatever the mode flags: the unconditional clear on source line
1584 precedes the guarded one. -/
theorem save_state_stacks (σ : CanvasState) :
    (save_state σ).undo_stack = σ.undo_stack ++ [snapOf σ] ∧
    (save_state σ).redo_stack = [] := by
  unfold save_state
  dsimp only
  split <;> exact ⟨rfl, rfl⟩

/-- save_state is exactly the stack update: both branches of its trailing
conditional leave the same state. -/
theorem save_state_eq (σ : CanvasState) :
    save_state σ =
      { σ with undo_stack := σ.undo_stack ++ [snapOf σ], redo_stack := [] } := by
  unfold save_state
  dsimp only
  split <;> rfl

/-- save_state changes no field other than the history stacks. -/
theorem save_state_fields (σ : CanvasState) :
    (save_state σ).selected_image_index = σ.selected_image_index ∧
    (save_state σ).anchor_clicked = σ.anchor_clicked ∧
    (save_state σ).scale_mode = σ.scale_mode ∧
    (save_state σ).images = σ.images := by
  unfold save_state
  dsimp only
  split <;> exact ⟨rfl, rfl, rfl, rfl⟩

/-- scale_image touches only the images list: the history stacks, selection,
anchor and mode flags all pass through. -/
theorem scale_image_frame (σ : CanvasState) (pos : Pt) :
    (scale_image σ pos).undo_stack = σ.undo_stack ∧
    (scale_image σ pos).redo_stack = σ.redo_stack ∧
    (scale_image σ pos).selected_image_index = σ.selected_image_index ∧
    (scale_image σ pos).anchor_clicked = σ.anchor_clicked ∧
    (scale_image σ pos).scale_mode = σ.scale_mode := by
  unfold scale_image
  split
  · exact ⟨rfl, rfl, rfl, rfl, rfl⟩
  · split
    · exact ⟨rfl, rfl, rfl, rfl, rfl⟩
    · dsimp only
      split <;> exact ⟨rfl, rfl, rfl, rfl, rfl⟩

/-- During an anchor-scale gesture (a selection and a grabbed anchor), every
pointer move routes to scale_image. -/
theorem mouseMove_during_anchor (σ : CanvasState) (ev : MouseEvent)
    (hsel : σ.selected_image_index.isSome) (hanc : σ.anchor_clicked.isSome) :
    mouseMoveEvent σ ev = scale_image σ ev.pos := by
  rcases h : σ.selected_image_index with _ | i
  · rw [h] at hsel
    exact absurd hsel (by simp)
  · simp [mouseMoveEvent, h, hanc]

/-- A pointer-move fold during an anchor-scale gesture leaves the stacks,
the selection, the anchor and the scale flag untouched. -/
theorem moves_fold_frame (moves : List Pt) (τ : CanvasState)
    (hsel : τ.selected_image_index.isSome) (hanc : τ.anchor_clicked.isSome) :
    (moves.foldl (fun s p => mouseMoveEvent s ⟨p, .left, true⟩) τ).undo_stack = τ.undo_stack ∧
    (moves.foldl (fun s p => mouseMoveEvent s ⟨p, .left, true⟩) τ).redo_stack = τ.redo_stack ∧
    (moves.foldl (fun s p => mouseMoveEvent s ⟨p, .left, true⟩) τ).selected_image_index
      = τ.selected_image_index ∧
    (moves.foldl (fun s p => mouseMoveEvent s ⟨p, .left, true⟩) τ).anchor_clicked
      = τ.anchor_clicked ∧
    (moves.foldl (fun s p => mouseMoveEvent s ⟨p, .left, true⟩) τ).scale_mode = τ.scale_mode := by
  induction moves generalizing τ with
  | nil => exact ⟨rfl, rfl, rfl, rfl, rfl⟩
  | cons p rest ih =>
    have hstep := mouseMove_during_anchor τ ⟨p, .left, true⟩ hsel hanc
    have hframe := scale_image_frame τ p
    have hs1 : (mouseMoveEvent τ ⟨p, .left, true⟩).selected_image_index.isSome := by
      rw [hstep, hframe.2.2.1]
      exact hsel
    have ha1 : (mouseMoveEvent τ ⟨p, .left, true⟩).anchor_clicked.isSome := by
      rw [hstep, hframe.2.2.2.1]
      exact hanc
    have := ih (mouseMoveEvent τ ⟨p, .left, true⟩) hs1 ha1
    rw [List.foldl_cons]
    refine ⟨?_, ?_, ?_, ?_, ?_⟩
    · rw [this.1, hstep, hframe.1]
    · rw [this.2.1, hstep, hframe.2.1]
    · rw [this.2.2.1, hstep, hframe.2.2.1]
    · rw [this.2.2.2.1, hstep, hframe.2.2.2.1]
    · rw [this.2.2.2.2, hstep, hframe.2.2.2.2]

/-- C1: the claimed undo-then-redo roundtrip invariant fails on the real
control flow.  Restoring the slider values via setValue
(src/main.py:1634-1636) synchronously fires the wired valueChanged handlers
(connections at src/main.py:1095, 1105, 1129), which call save_state —
whose unconditional clear at line 1584 destroys the redo entry undo_action
itself just pushed — and overwrite the restored image's pixmap.  At the
concrete state whose popped snapshot has an image selected and threshold
127 while the live slider reads 100, undo_action leaves the redo stack
empty, the following redo_action is a no-op, and the state after
undo();redo() differs from the state before the undo (threshold 127
instead of 100) — for every choice of the floating-point sharpening and
power-law kernels. -/
theorem undo_redo_roundtrip_fails (K : FilterKernels) :
    undoReentryState.undo_stack ≠ [] ∧
    undoReentryState.threshold_value = 100 ∧
    (undo_action K undoReentryState).redo_stack = [] ∧
    (redo_action K (undo_action K undoReentryState)).threshold_value = 127 ∧
    snapOf (redo_action K (undo_action K undoReentryState)) ≠ snapOf undoReentryState := by
  refine ⟨List.cons_ne_nil _ _, rfl, rfl, rfl, ?_⟩
  intro h
  have h2 := congrArg Snapshot.threshold_value h
  rw [show (snapOf (redo_action K (undo_action K undoReentryState))).threshold_value
      = 127 from rfl,
    show (snapOf undoReentryState).threshold_value = 100 from rfl] at h2
  exact absurd h2 (by decide)

/-- Pointer-move continuation of a freehand stroke never touches the
history stacks. -/
theorem drawing_continue_stacks (σ : CanvasState) (ev : MouseEvent) :
    (drawing_continue σ ev).undo_stack = σ.undo_stack ∧
    (drawing_continue σ ev).redo_stack = σ.redo_stack := by
  unfold drawing_continue
  split
  · split <;> exact ⟨rfl, rfl⟩
  · exact ⟨rfl, rfl⟩

/-- Pointer-move continuation of an erase stroke never touches the history
stacks. -/
theorem erase_continue_stacks (σ : CanvasState) (ev : MouseEvent) :
    (erase_continue σ ev).undo_stack = σ.undo_stack ∧
    (erase_continue σ ev).redo_stack = σ.redo_stack := by
  unfold erase_continue
  split
  · split <;> exact ⟨rfl, rfl⟩
  · exact ⟨rfl, rfl⟩

/-- Pointer-move continuation of a shape preview never touches the history
stacks. -/
theorem shape_continue_stacks (σ : CanvasState) (ev : MouseEvent) :
    (shape_continue σ ev).undo_stack = σ.undo_stack ∧
    (shape_continue σ ev).redo_stack = σ.redo_stack := by
  unfold shape_continue
  split <;> exact ⟨rfl, rfl⟩

/-- C5: every call to history push (save_state) appends the deep-copied
document snapshot to the undo stack and clears the redo stack
(src/main.py:1584); and the pointer-move handler — the sole driver of
drag-move and anchor-scale-move continuations (src/main.py:3217-3261) —
performs no push and leaves both history stacks untouched on every state
and event.  So the redo stack is preserved during continuous-gesture
continuations (which push nothing), and only the pushes at the gesture
boundaries clear it, exactly as claimed. -/
theorem pushes_clear_redo_and_moves_never_push (σ : CanvasState) (ev : MouseEvent) :
    (save_state σ).undo_stack = σ.undo_stack ++ [snapOf σ] ∧
    (save_state σ).redo_stack = [] ∧
    (mouseMoveEvent σ ev).undo_stack = σ.undo_stack ∧
    (mouseMoveEvent σ ev).redo_stack = σ.redo_stack := by
  have hmv : (mouseMoveEvent σ ev).undo_stack = σ.undo_stack ∧
      (mouseMoveEvent σ ev).redo_stack = σ.redo_stack := by
    unfold mouseMoveEvent
    cases h : σ.selected_image_index with
    | none =>
      dsimp only
      split
      · exact drawing_continue_stacks σ ev
      · split
        · exact erase_continue_stacks σ ev
        · split
          · exact shape_continue_stacks σ ev
          · exact ⟨rfl, rfl⟩
    | some i =>
      dsimp only
      split
      · exact ⟨(scale_image_frame σ ev.pos).1, (scale_image_frame σ ev.pos).2.1⟩
      · split
        · split <;> exact ⟨rfl, rfl⟩
        · split
          · exact drawing_continue_stacks σ ev
          · split
            · exact erase_continue_stacks σ ev
            · split
              · exact shape_continue_stacks σ ev
              · split
                · split <;> exact ⟨rfl, rfl⟩
                · split
                  · exact ⟨(scale_image_frame σ ev.pos).1, (scale_image_frame σ ev.pos).2.1⟩
                  · exact ⟨rfl, rfl⟩
  exact ⟨(save_state_stacks σ).1, (save_state_stacks σ).2, hmv.1, hmv.2⟩

/-- C4 counterexample: activating Shape and then Drawing leaves both mode
flags set at once — activating a mode does not deactivate all others. -/
theorem shape_then_drawing_both_active :
    (toggle_drawing_mode (toggle_shape_mode (initialCanvasState 8 6))).shape_mode = true ∧
    (toggle_drawing_mode (toggle_shape_mode (initialCanvasState 8 6))).drawing_mode = true :=
  ⟨rfl, rfl⟩

/-- C4 (amended): each toggle deactivates only a fixed subset of the other
modes (Drawing clears drag and scale; Shape clears Drawing and Erasing;
neither clears text or crop), so flag combinations can coexist; the
specific sequence Drawing-then-Shape from a state with every mode off does
end with Shape as the only active mode. -/
theorem drawing_then_shape_exactly_shape (σ : CanvasState)
    (h1 : σ.drag_mode = false) (h2 : σ.scale_mode = false) (h3 : σ.drawing_mode = false)
    (h4 : σ.eraser_mode = false) (h5 : σ.shape_mode = false) (h6 : σ.text_mode = false)
    (h7 : σ.crop_mode = false) :
    (toggle_shape_mode (toggle_drawing_mode σ)).shape_mode = true ∧
    (toggle_shape_mode (toggle_drawing_mode σ)).drawing_mode = false ∧
    (toggle_shape_mode (toggle_drawing_mode σ)).eraser_mode = false ∧
    (toggle_shape_mode (toggle_drawing_mode σ)).drag_mode = false ∧
    (toggle_shape_mode (toggle_drawing_mode σ)).scale_mode = false ∧
    (toggle_shape_mode (toggle_drawing_mode σ)).text_mode = false ∧
    (toggle_shape_mode (toggle_drawing_mode σ)).crop_mode = false := by
  simp [toggle_shape_mode, toggle_drawing_mode, save_state, h1, h2, h3, h4, h5, h6, h7]

/-- A left press in scale mode on an image at an anchor selects the image,
records the grabbed anchor and checkpoints. -/
theorem press_during_scale (σ : CanvasState) (press : Pt) (i : Nat) (img : ImgObj)
    (hscale : σ.scale_mode = true) (hdrag : σ.drag_mode = false)
    (hdraw : σ.drawing_mode = false) (heras : σ.eraser_mode = false)
    (hshape : σ.shape_mode = false) (htext : σ.text_mode = false)
    (hcrop : σ.crop_mode = false)
    (hfind : findImageAt σ.images press 0 = some (i, img))
    (hanch : (get_clicked_anchor press img.rect).isSome) :
    mousePressEvent σ ⟨press, .left, true⟩ =
      save_state { σ with
        selected_image_index := some i
        last_mouse_position := press
        anchor_clicked := get_clicked_anchor press img.rect } := by
  simp [mousePressEvent, hscale, hdrag, hdraw, heras, hshape, htext, hcrop, hfind, hanch]

/-- A left release during an anchor-scale gesture checkpoints and drops the
grabbed anchor. -/
theorem release_during_scale (σ : CanvasState) (ev : MouseEvent)
    (hsel : σ.selected_image_index.isSome) (hscale : σ.scale_mode = true)
    (hanc : σ.anchor_clicked.isSome) :
    mouseReleaseEvent σ ev = { save_state σ with anchor_clicked := none } := by
  simp [mouseReleaseEvent, hsel, hscale, hanc]

/-- C6 counterexample: a complete anchor-scale gesture (press on the
bottom-right anchor, one move, release) pushes two history entries, not
one. -/
theorem anchor_scale_gesture_two_not_one :
    (scaleGesture scaleModeState ⟨99, 99⟩ [⟨5, 5⟩] ⟨5, 5⟩).undo_stack.length = 2 ∧
    scaleModeState.undo_stack.length = 0 :=
  ⟨rfl, rfl⟩

/-- C6 (amended): an anchor-scale gesture takes exactly two checkpoints —
one at pointer-down (gesture start) and one at pointer-up — and none at
the intermediate moves. -/
theorem anchor_scale_two_checkpoints (σ : CanvasState) (press rel : Pt)
    (moves : List Pt) (i : Nat) (img : ImgObj)
    (hscale : σ.scale_mode = true) (hdrag : σ.drag_mode = false)
    (hdraw : σ.drawing_mode = false) (heras : σ.eraser_mode = false)
    (hshape : σ.shape_mode = false) (htext : σ.text_mode = false)
    (hcrop : σ.crop_mode = false)
    (hfind : findImageAt σ.images press 0 = some (i, img))
    (hanch : (get_clicked_anchor press img.rect).isSome) :
    (mousePressEvent σ ⟨press, .left, true⟩).undo_stack.length
      = σ.undo_stack.length + 1 ∧
    (moves.foldl (fun s p => mouseMoveEvent s ⟨p, .left, true⟩)
        (mousePressEvent σ ⟨press, .left, true⟩)).undo_stack.length
      = σ.undo_stack.length + 1 ∧
    (scaleGesture σ press moves rel).undo_stack.length = σ.undo_stack.length + 2 := by
  have hp := press_during_scale σ press i img hscale hdrag hdraw heras hshape htext hcrop
    hfind hanch
  have hps := save_state_stacks { σ with
    selected_image_index := some i
    last_mouse_position := press
    anchor_clicked := get_clicked_anchor press img.rect }
  have hpf := save_state_fields { σ with
    selected_image_index := some i
    last_mouse_position := press
    anchor_clicked := get_clicked_anchor press img.rect }
  have hlen1 : (mousePressEvent σ ⟨press, .left, true⟩).undo_stack.length
      = σ.undo_stack.length + 1 := by
    rw [hp, hps.1]
    simp
  have hsel1 : (mousePressEvent σ ⟨press, .left, true⟩).selected_image_index.isSome := by
    rw [hp, hpf.1]
    simp
  have hanc1 : (mousePressEvent σ ⟨press, .left, true⟩).anchor_clicked.isSome := by
    rw [hp, hpf.2.1]
    exact hanch
  have hscale1 : (mousePressEvent σ ⟨press, .left, true⟩).scale_mode = true := by
    rw [hp, hpf.2.2.1]
    exact hscale
  have hfold := moves_fold_frame moves (mousePressEvent σ ⟨press, .left, true⟩) hsel1 hanc1
  have hlen2 : (moves.foldl (fun s p => mouseMoveEvent s ⟨p, .left, true⟩)
      (mousePressEvent σ ⟨press, .left, true⟩)).undo_stack.length
      = σ.undo_stack.length + 1 := by
    rw [hfold.1, hlen1]
  refine ⟨hlen1, hlen2, ?_⟩
  have hselm : (moves.foldl (fun s p => mouseMoveEvent s ⟨p, .left, true⟩)
      (mousePressEvent σ ⟨press, .left, true⟩)).selected_image_index.isSome := by
    rw [hfold.2.2.1]
    exact hsel1
  have hancm : (moves.foldl (fun s p => mouseMoveEvent s ⟨p, .left, true⟩)
      (mousePressEvent σ ⟨press, .left, true⟩)).anchor_clicked.isSome := by
    rw [hfold.2.2.2.1]
    exact hanc1
  have hscalem : (moves.foldl (fun s p => mouseMoveEvent s ⟨p, .left, true⟩)
      (mousePressEvent σ ⟨press, .left, true⟩)).scale_mode = true := by
    rw [hfold.2.2.2.2]
    exact hscale1
  have hr := release_during_scale (moves.foldl (fun s p => mouseMoveEvent s ⟨p, .left, true⟩)
      (mousePressEvent σ ⟨press, .left, true⟩)) ⟨rel, .left, false⟩ hselm hscalem hancm
  have hrs := save_state_stacks (moves.foldl (fun s p => mouseMoveEvent s ⟨p, .left, true⟩)
      (mousePressEvent σ ⟨press, .left, true⟩))
  unfold scaleGesture
  rw [hr]
  show (save_state _).undo_stack.length = _
  rw [hrs.1]
  simp [hlen2]

/-- C6 witness: the two-checkpoint count at a concrete gesture. -/
theorem anchor_scale_two_checkpoints_witness :
    (scaleModeState.scale_mode = true ∧
      findImageAt scaleModeState.images ⟨99, 99⟩ 0 = some (0, imgA) ∧
      (get_clicked_anchor ⟨99, 99⟩ imgA.rect).isSome) ∧
    (scaleGesture scaleModeState ⟨99, 99⟩ [⟨20, 20⟩] ⟨20, 20⟩).undo_stack.length
      = scaleModeState.undo_stack.length + 2 :=
  ⟨⟨rfl, rfl, rfl⟩,
    (anchor_scale_two_checkpoints scaleModeState ⟨99, 99⟩ ⟨20, 20⟩ [⟨20, 20⟩] 0 imgA
      rfl rfl rfl rfl rfl rfl rfl rfl rfl).2.2⟩

/-- The rejected branch of scale_image: with both guard dimensions not above
10, only the already corner-adjusted rect is stored. -/
theorem scale_image_reject_eq (σ : CanvasState) (pos : Pt) (i : Nat) (img : ImgObj)
    (hsel : σ.selected_image_index = some i)
    (hget : σ.images.get? i = some img)
    (hrej : ¬((anchorAdjustedRect σ.anchor_clicked img.rect pos).width > 10 ∧
        (anchorAdjustedRect σ.anchor_clicked img.rect pos).height > 10)) :
    scale_image σ pos =
      { σ with
        images := σ.images.set i
          (withRect img (anchorAdjustedRect σ.anchor_clicked img.rect pos)) } := by
  rw [List.get?_eq_getElem?] at hget
  simp [scale_image, withRect, hsel, hget, hrej]

/-- The accepted branch of scale_image: the height is recomputed and the
display pixmap is resampled from the original pixmap. -/
theorem scale_image_accept_eq (σ : CanvasState) (pos : Pt) (i : Nat) (img : ImgObj)
    (hsel : σ.selected_image_index = some i)
    (hget : σ.images.get? i = some img)
    (hacc : (anchorAdjustedRect σ.anchor_clicked img.rect pos).width > 10 ∧
        (anchorAdjustedRect σ.anchor_clicked img.rect pos).height > 10) :
    scale_image σ pos =
      { σ with
        images := σ.images.set i (acceptedScaledImg σ.anchor_clicked img pos) } := by
  rw [List.get?_eq_getElem?] at hget
  simp [scale_image, acceptedScaledImg, hsel, hget, hacc]

/-- C7 counterexample: an anchor-scale move to size 6x6 is rejected by the
guard, yet the stored rect has already been mutated to the degenerate
6x6 geometry — the object does not stay unchanged, and its rect width
drops to 10 or below. -/
theorem rejected_scale_mutates_rect :
    ((scale_image scaleRejectState ⟨5, 5⟩).images.get? 0).map ImgObj.rect
        = some (Rect.mkXYWH 0 0 6 6) ∧
    imgA.rect = Rect.mkXYWH 0 0 100 100 ∧
    ¬((Rect.mkXYWH 0 0 6 6).width > 10) :=
  ⟨rfl, rfl, by decide⟩

/-- C7 (amended): an anchor-scale move whose resulting size would be 10 or
below keeps the object's pixmap, original pixmap and position and takes no
checkpoint, but the object's rect has already been mutated to the
pointer-derived rect, which may have width or height at most 10. -/
theorem rejected_scale_only_moves_rect (σ : CanvasState) (pos : Pt) (i : Nat) (img : ImgObj)
    (hsel : σ.selected_image_index = some i)
    (hget : σ.images.get? i = some img)
    (hrej : ¬((anchorAdjustedRect σ.anchor_clicked img.rect pos).width > 10 ∧
        (anchorAdjustedRect σ.anchor_clicked img.rect pos).height > 10)) :
    (scale_image σ pos).images =
      σ.images.set i (withRect img (anchorAdjustedRect σ.anchor_clicked img.rect pos)) ∧
    (scale_image σ pos).images.get? i =
      some (withRect img (anchorAdjustedRect σ.anchor_clicked img.rect pos)) ∧
    (scale_image σ pos).undo_stack = σ.undo_stack ∧
    (scale_image σ pos).redo_stack = σ.redo_stack := by
  have hlt : i < σ.images.length := by
    rcases List.get?_eq_some.mp hget with ⟨h, _⟩
    exact h
  have heq := scale_image_reject_eq σ pos i img hsel hget hrej
  refine ⟨by rw [heq], ?_, by rw [heq], by rw [heq]⟩
  rw [heq]
  simp [List.get?_eq_getElem?, List.getElem?_set_eq_of_lt _ hlt]

/-- C7 witness: the amended statement at the concrete rejected move. -/
theorem rejected_scale_only_moves_rect_witness :
    (scaleRejectState.selected_image_index = some 0 ∧
      scaleRejectState.images.get? 0 = some imgA ∧
      ¬((anchorAdjustedRect scaleRejectState.anchor_clicked imgA.rect ⟨5, 5⟩).width > 10 ∧
        (anchorAdjustedRect scaleRejectState.anchor_clicked imgA.rect ⟨5, 5⟩).height > 10)) ∧
    (scale_image scaleRejectState ⟨5, 5⟩).images = scaleRejectState.images.set 0
      (withRect imgA (anchorAdjustedRect scaleRejectState.anchor_clicked imgA.rect ⟨5, 5⟩)) ∧
    (scale_image scaleRejectState ⟨5, 5⟩).undo_stack = scaleRejectState.undo_stack :=
  ⟨⟨rfl, rfl, by decide⟩,
    (rejected_scale_only_moves_rect scaleRejectState ⟨5, 5⟩ 0 imgA rfl rfl (by decide)).1,
    (rejected_scale_only_moves_rect scaleRejectState ⟨5, 5⟩ 0 imgA rfl rfl (by decide)).2.2.1⟩

/-- C8: for every accepted anchor-scale move (grabbed corner, both guard
dimensions above 10), the new height is recomputed from the new width by
`int(new_width / (original.width / original.height))` and the display
pixmap is resampled from the original pixmap at the new size, the stored
rect taking the new width and recomputed height. -/
theorem accepted_scale_resamples_from_original (σ : CanvasState) (pos : Pt) (i : Nat)
    (img : ImgObj) (c : Anchor)
    (hsel : σ.selected_image_index = some i)
    (hget : σ.images.get? i = some img)
    (hanc : σ.anchor_clicked = some c)
    (hacc : (anchorAdjustedRect σ.anchor_clicked img.rect pos).width > 10 ∧
        (anchorAdjustedRect σ.anchor_clicked img.rect pos).height > 10) :
    scaleRecomputedHeight σ.anchor_clicked img.original_pixmap.w img.original_pixmap.h
        (anchorAdjustedRect σ.anchor_clicked img.rect pos).width
        (anchorAdjustedRect σ.anchor_clicked img.rect pos).height
      = pyInt (((anchorAdjustedRect σ.anchor_clicked img.rect pos).width : ℚ) /
          ((img.original_pixmap.w : ℚ) / (img.original_pixmap.h : ℚ))) ∧
    (scale_image σ pos).images.get? i =
      some (acceptedScaledImg σ.anchor_clicked img pos) := by
  have hlt : i < σ.images.length := by
    rcases List.get?_eq_some.mp hget with ⟨h, _⟩
    exact h
  have heq := scale_image_accept_eq σ pos i img hsel hget hacc
  constructor
  · rw [hanc]
    rfl
  · rw [heq]
    simp [List.get?_eq_getElem?, List.getElem?_set_eq_of_lt _ hlt]

/-- C8 witness: dragging the bottom-right anchor of the imported 400x300
image to width 500 yields the recomputed height 375 and a pixmap resampled
from the original at 500x375. -/
theorem accepted_scale_resamples_from_original_witness :
    (scaleAcceptState.selected_image_index = some 0 ∧
      scaleAcceptState.images.get? 0 = some img400 ∧
      scaleAcceptState.anchor_clicked = some .bottomRight ∧
      ((anchorAdjustedRect scaleAcceptState.anchor_clicked img400.rect ⟨599, 300⟩).width > 10 ∧
        (anchorAdjustedRect scaleAcceptState.anchor_clicked img400.rect ⟨599, 300⟩).height > 10)) ∧
    ((scale_image scaleAcceptState ⟨599, 300⟩).images.get? 0).map
        (fun im => im.rect.height) = some 375 ∧
    ((scale_image scaleAcceptState ⟨599, 300⟩).images.get? 0).map
        (fun im => (im.pixmap.w, im.pixmap.h)) = some (500, 375) := by
  have h := accepted_scale_resamples_from_original scaleAcceptState ⟨599, 300⟩ 0 img400
    .bottomRight rfl rfl rfl (by decide)
  have hnh : scaleRecomputedHeight scaleAcceptState.anchor_clicked img400.original_pixmap.w
      img400.original_pixmap.h
      (anchorAdjustedRect scaleAcceptState.anchor_clicked img400.rect ⟨599, 300⟩).width
      (anchorAdjustedRect scaleAcceptState.anchor_clicked img400.rect ⟨599, 300⟩).height
      = 375 := by
    norm_num [scaleRecomputedHeight, pyInt, scaleAcceptState, initialCanvasState, img400,
      anchorAdjustedRect, Rect.setBottomRight, Rect.mkXYWH, Rect.width, Rect.height,
      Pixmap.filled]
  refine ⟨⟨rfl, rfl, rfl, by decide⟩, ?_, ?_⟩
  · rw [h.2]
    simp only [Option.map_some, acceptedScaledImg]
    rw [hnh]
    rfl
  · rw [h.2]
    simp only [Option.map_some, acceptedScaledImg]
    rw [hnh]
    rfl

/-- C4 witness: the amended statement at the freshly constructed window. -/
theorem drawing_then_shape_exactly_shape_witness :
    ((initialCanvasState 8 6).drag_mode = false ∧ (initialCanvasState 8 6).shape_mode = false) ∧
    (toggle_shape_mode (toggle_drawing_mode (initialCanvasState 8 6))).shape_mode = true ∧
    (toggle_shape_mode (toggle_drawing_mode (initialCanvasState 8 6))).drawing_mode = false ∧
    (toggle_shape_mode (toggle_drawing_mode (initialCanvasState 8 6))).eraser_mode = false ∧
    (toggle_shape_mode (toggle_drawing_mode (initialCanvasState 8 6))).drag_mode = false ∧
    (toggle_shape_mode (toggle_drawing_mode (initialCanvasState 8 6))).scale_mode = false ∧
    (toggle_shape_mode (toggle_drawing_mode (initialCanvasState 8 6))).text_mode = false ∧
    (toggle_shape_mode (toggle_drawing_mode (initialCanvasState 8 6))).crop_mode = false :=
  ⟨⟨rfl, rfl⟩,
    drawing_then_shape_exactly_shape (initialCanvasState 8 6) rfl rfl rfl rfl rfl rfl rfl⟩

/-- The integer truncation of a value clamped to [0, b] lies in [0, b]. -/
theorem pyInt_clamp_bounds (q b : ℚ) (hb : 0 ≤ b) :
    0 ≤ pyInt (max 0 (min q b)) ∧ pyInt (max 0 (min q b)) ≤ ⌊b⌋ := by
  have h0 : (0 : ℚ) ≤ max 0 (min q b) := le_max_left _ _
  have hub : max 0 (min q b) ≤ b := max_le hb (min_le_right _ _)
  unfold pyInt
  rw [if_pos h0]
  exact ⟨Int.floor_nonneg.mpr h0, Int.floor_le_floor hub⟩

/-- C9: the tools' screen-to-canvas mapping computes exactly the spec's
formula — canvasX = (widgetX − originX)/scaleX with scaleX =
displayedWidth/bufferWidth, likewise for y — and the result is clamped to
[0, bufferWidth] x [0, bufferHeight].  The mapping is a pure function of
the point and the offset and scale state, so two calls with equal inputs
agree and mutate nothing. -/
theorem map_to_canvas_matches_spec (σ : CanvasState) (p : Pt)
    (_hw : 0 < σ.width) (_hh : 0 < σ.height)
    (hpw : 0 < σ.pixmap.w) (hph : 0 < σ.pixmap.h) :
    map_to_canvas σ p =
      coordinateMapperSpec σ.width σ.height σ.pixmap.w σ.pixmap.h σ.canvas_x σ.canvas_y p ∧
    0 ≤ (map_to_canvas σ p).x ∧ (map_to_canvas σ p).x ≤ σ.pixmap.w ∧
    0 ≤ (map_to_canvas σ p).y ∧ (map_to_canvas σ p).y ≤ σ.pixmap.h := by
  have hbw : (0 : ℚ) ≤ (σ.pixmap.w : ℚ) := by exact_mod_cast hpw.le
  have hbh : (0 : ℚ) ≤ (σ.pixmap.h : ℚ) := by exact_mod_cast hph.le
  have hx := pyInt_clamp_bounds
    (((p.x - σ.canvas_x : Int) : ℚ) / ((σ.width : ℚ) / (σ.pixmap.w : ℚ))) (σ.pixmap.w : ℚ) hbw
  have hy := pyInt_clamp_bounds
    (((p.y - σ.canvas_y : Int) : ℚ) / ((σ.height : ℚ) / (σ.pixmap.h : ℚ))) (σ.pixmap.h : ℚ) hbh
  rw [Int.floor_intCast] at hx hy
  exact ⟨rfl, hx.1, hx.2, hy.1, hy.2⟩

/-- C9 witness: the mapping at the freshly constructed 800x600 window. -/
theorem map_to_canvas_matches_spec_witness :
    (0 < (initialCanvasState 800 600).width ∧ 0 < (initialCanvasState 800 600).pixmap.w) ∧
    map_to_canvas (initialCanvasState 800 600) ⟨110, 110⟩ =
      coordinateMapperSpec (initialCanvasState 800 600).width
        (initialCanvasState 800 600).height (initialCanvasState 800 600).pixmap.w
        (initialCanvasState 800 600).pixmap.h (initialCanvasState 800 600).canvas_x
        (initialCanvasState 800 600).canvas_y ⟨110, 110⟩ ∧
    0 ≤ (map_to_canvas (initialCanvasState 800 600) ⟨110, 110⟩).x ∧
    (map_to_canvas (initialCanvasState 800 600) ⟨110, 110⟩).x
      ≤ (initialCanvasState 800 600).pixmap.w :=
  ⟨⟨by decide, by decide⟩,
    (map_to_canvas_matches_spec (initialCanvasState 800 600) ⟨110, 110⟩
      (by decide) (by decide) (by decide) (by decide)).1,
    (map_to_canvas_matches_spec (initialCanvasState 800 600) ⟨110, 110⟩
      (by decide) (by decide) (by decide) (by decide)).2.1,
    (map_to_canvas_matches_spec (initialCanvasState 800 600) ⟨110, 110⟩
      (by decide) (by decide) (by decide) (by decide)).2.2.1⟩

/-- flip_horizontal with a valid selection: a checkpoint plus the single
pixmap replacement. -/
theorem flip_horizontal_eq (σ : CanvasState) (i : Nat) (img : ImgObj)
    (hsel : σ.selected_image_index = some i)
    (hget : σ.images.get? i = some img) :
    flip_horizontal σ =
      { σ with
        undo_stack := σ.undo_stack ++ [snapOf σ]
        redo_stack := []
        images := σ.images.set i { img with pixmap := img.pixmap.flippedH } } := by
  have hlt : i < σ.images.length := by
    rcases List.get?_eq_some.mp hget with ⟨h, _⟩
    exact h
  unfold flip_horizontal
  rw [hsel]
  dsimp only
  rw [if_pos hlt, save_state_eq]
  have hg2 : ({ σ with
      undo_stack := σ.undo_stack ++ [snapOf σ]
      redo_stack := [] } : CanvasState).images.get? i = some img := hget
  rw [hg2]
  dsimp only
  rw [hsel]

/-- flip_vertical with a valid selection: a checkpoint plus the single
pixmap replacement. -/
theorem flip_vertical_eq (σ : CanvasState) (i : Nat) (img : ImgObj)
    (hsel : σ.selected_image_index = some i)
    (hget : σ.images.get? i = some img) :
    flip_vertical σ =
      { σ with
        undo_stack := σ.undo_stack ++ [snapOf σ]
        redo_stack := []
        images := σ.images.set i { img with pixmap := img.pixmap.flippedV } } := by
  have hlt : i < σ.images.length := by
    rcases List.get?_eq_some.mp hget with ⟨h, _⟩
    exact h
  unfold flip_vertical
  rw [hsel]
  dsimp only
  rw [if_pos hlt, save_state_eq]
  have hg2 : ({ σ with
      undo_stack := σ.undo_stack ++ [snapOf σ]
      redo_stack := [] } : CanvasState).images.get? i = some img := hget
  rw [hg2]
  dsimp only
  rw [hsel]

/-- C10: with a validly selected image, flip_horizontal and flip_vertical
replace only that image's displayed pixmap — its original pixmap, position
and rect, every other image, the background pixmap, the overlay pixmap,
the text objects and the selection are untouched — and a later accepted
anchor-scale move, which resamples from the original pixmap, produces the
same image object whether or not the flip happened. -/
theorem flips_replace_only_display_pixmap (σ : CanvasState) (i : Nat) (img : ImgObj)
    (hsel : σ.selected_image_index = some i)
    (hget : σ.images.get? i = some img) :
    (flip_horizontal σ).images.get? i = some { img with pixmap := img.pixmap.flippedH } ∧
    (flip_vertical σ).images.get? i = some { img with pixmap := img.pixmap.flippedV } ∧
    (∀ j, j ≠ i → (flip_horizontal σ).images.get? j = σ.images.get? j ∧
      (flip_vertical σ).images.get? j = σ.images.get? j) ∧
    (flip_horizontal σ).pixmap = σ.pixmap ∧
    (flip_horizontal σ).overlay_pixmap = σ.overlay_pixmap ∧
    (flip_horizontal σ).text_tool.text_objects = σ.text_tool.text_objects ∧
    (flip_horizontal σ).selected_image_index = σ.selected_image_index ∧
    (flip_vertical σ).pixmap = σ.pixmap ∧
    (flip_vertical σ).overlay_pixmap = σ.overlay_pixmap ∧
    (flip_vertical σ).text_tool.text_objects = σ.text_tool.text_objects ∧
    (flip_vertical σ).selected_image_index = σ.selected_image_index ∧
    (∀ a pos, acceptedScaledImg a { img with pixmap := img.pixmap.flippedH } pos
        = acceptedScaledImg a img pos) ∧
    (∀ a pos, acceptedScaledImg a { img with pixmap := img.pixmap.flippedV } pos
        = acceptedScaledImg a img pos) := by
  have hlt : i < σ.images.length := by
    rcases List.get?_eq_some.mp hget with ⟨h, _⟩
    exact h
  have hH := flip_horizontal_eq σ i img hsel hget
  have hV := flip_vertical_eq σ i img hsel hget
  refine ⟨?_, ?_, ?_, by rw [hH], by rw [hH], by rw [hH], by rw [hH],
    by rw [hV], by rw [hV], by rw [hV], by rw [hV], fun a pos => rfl, fun a pos => rfl⟩
  · rw [hH]
    simp [List.get?_eq_getElem?, List.getElem?_set_eq_of_lt _ hlt]
  · rw [hV]
    simp [List.get?_eq_getElem?, List.getElem?_set_eq_of_lt _ hlt]
  · intro j hj
    constructor
    · rw [hH]
      simp [List.get?_eq_getElem?, List.getElem?_set_ne (fun h => hj h.symm)]
    · rw [hV]
      simp [List.get?_eq_getElem?, List.getElem?_set_ne (fun h => hj h.symm)]

/-- paintPx preserves the pixmap dimensions. -/
theorem paintPx_dims (p : Pixmap) (x y : Int) (c : RGBA) :
    (p.paintPx x y c).w = p.w ∧ (p.paintPx x y c).h = p.h := by
  unfold Pixmap.paintPx
  split <;> exact ⟨rfl, rfl⟩

/-- A fold of paintPx steps preserves the pixmap dimensions. -/
theorem foldl_paint_dims (c : RGBA) (ps : List Pt) (p : Pixmap) :
    (ps.foldl (fun acc r => acc.paintPx r.x r.y c) p).w = p.w ∧
    (ps.foldl (fun acc r => acc.paintPx r.x r.y c) p).h = p.h := by
  induction ps generalizing p with
  | nil => exact ⟨rfl, rfl⟩
  | cons r rest ih =>
    have h1 := paintPx_dims p r.x r.y c
    have h2 := ih (p.paintPx r.x r.y c)
    rw [List.foldl_cons]
    exact ⟨h2.1.trans h1.1, h2.2.trans h1.2⟩

/-- Painting a list of points with one fully opaque color leaves that color
at every in-bounds painted point. -/
theorem foldl_paint_data (c : RGBA) (hc : c.a = 255) (ps : List Pt) (p : Pixmap) (q : Pt)
    (hin : 0 ≤ q.x ∧ q.x < p.w ∧ 0 ≤ q.y ∧ q.y < p.h)
    (hmem : q ∈ ps ∨ p.data q.x q.y = c) :
    (ps.foldl (fun acc r => acc.paintPx r.x r.y c) p).data q.x q.y = c := by
  induction ps generalizing p with
  | nil =>
    rcases hmem with h | h
    · simp at h
    · exact h
  | cons r rest ih =>
    rw [List.foldl_cons]
    have hdims := paintPx_dims p r.x r.y c
    have hin2 : 0 ≤ q.x ∧ q.x < (p.paintPx r.x r.y c).w ∧ 0 ≤ q.y ∧
        q.y < (p.paintPx r.x r.y c).h := by
      rw [hdims.1, hdims.2]
      exact hin
    refine ih (p.paintPx r.x r.y c) hin2 ?_
    rcases hmem with h | h
    · rcases List.mem_cons.mp h with hq | hq
      · right
        subst hq
        unfold Pixmap.paintPx
        rw [if_pos hin]
        dsimp only
        rw [if_pos ⟨rfl, rfl⟩]
        unfold RGBA.over
        rw [if_pos hc]
      · exact Or.inl hq
    · right
      unfold Pixmap.paintPx
      split
      · dsimp only
        split
        · unfold RGBA.over
          rw [if_pos hc]
        · exact h
      · exact h

/-- drawLine preserves the pixmap dimensions. -/
theorem drawLine_dims (p : Pixmap) (a b : Pt) (c : RGBA) (penW : Int) (o : ℚ) :
    (p.drawLine a b c penW o).w = p.w ∧ (p.drawLine a b c penW o).h = p.h :=
  foldl_paint_dims (c.withOpacity o) ((linePoints a b).flatMap (fun r => brushPoints r penW)) p

/-- drawLine with a fully opaque effective pen color leaves that color at
every in-bounds point of the stroke. -/
theorem drawLine_opaque_pixel (p : Pixmap) (a b : Pt) (c : RGBA) (penW : Int) (o : ℚ)
    (hc : (c.withOpacity o).a = 255) (q : Pt)
    (hin : 0 ≤ q.x ∧ q.x < p.w ∧ 0 ≤ q.y ∧ q.y < p.h)
    (hmem : q ∈ (linePoints a b).flatMap (fun r => brushPoints r penW)) :
    (p.drawLine a b c penW o).data q.x q.y = c.withOpacity o :=
  foldl_paint_data (c.withOpacity o) hc
    ((linePoints a b).flatMap (fun r => brushPoints r penW)) p q hin (Or.inl hmem)

/-- A fully opaque black pen at painter opacity one stays opaque black. -/
theorem withOpacity_black_one : RGBA.withOpacity RGBA.black 1 = RGBA.black := by
  have h : pyInt ((255 : ℚ)) = 255 := by norm_num [pyInt]
  simp [RGBA.withOpacity, RGBA.black, h]

/-- drawing_end never touches the overlay pixmap. -/
theorem drawing_end_overlay (σ : CanvasState) :
    (drawing_end σ).overlay_pixmap = σ.overlay_pixmap := by
  unfold drawing_end
  split <;> rfl

/-- The press of the concrete freehand stroke: the drawing tool arms with
the mapped canvas point (10, 10); nothing else changes. -/
theorem pressedState_eq :
    pressedState =
      { drawState with drawing_tool := ⟨RGBA.black, 1, 1, .solid, true, some ⟨10, 10⟩⟩ } := by
  norm_num [pressedState, mousePressEvent, drawing_start, drawState, initialCanvasState,
    map_to_canvas, Pixmap.filled, pyInt]

/-- The move of the concrete freehand stroke: the segment from (10, 10) to
(10, 100) is drawn onto the overlay with the black one-pixel pen. -/
theorem strokeState_eq :
    strokeState =
      { pressedState with
        overlay_pixmap := pressedState.overlay_pixmap.drawLine ⟨10, 10⟩ ⟨10, 100⟩
          RGBA.black 1 1
        drawing_tool := ⟨RGBA.black, 1, 1, .solid, true, some ⟨10, 100⟩⟩ } := by
  rw [strokeState, pressedState_eq]
  norm_num [mouseMoveEvent, drawing_continue, drawState, initialCanvasState,
    map_to_canvas, Pixmap.filled, pyInt]

/-- The release of the concrete freehand stroke: the drawing branch of
mouseReleaseEvent composites and checkpoints. -/
theorem releasedState_eq :
    releasedState = { save_state (drawing_end strokeState) with anchor_clicked := none } := by
  have h1 : strokeState.selected_image_index = none := by
    rw [strokeState_eq, pressedState_eq]
    rfl
  have h2 : strokeState.drawing_mode = true := by
    rw [strokeState_eq, pressedState_eq]
    rfl
  have h3 : strokeState.scale_mode = false := by
    rw [strokeState_eq, pressedState_eq]
    rfl
  rw [releasedState]
  simp [mouseReleaseEvent, h1, h2, h3]

/-- C3: on pointer release of a freehand stroke the overlay is composited
onto the background and one checkpoint is taken, but the overlay is NOT
cleared to transparent — the clear on src/main.py:466 is commented out.
At the concrete stroke from canvas (10, 10) to (10, 100), after release the
pixel (10, 50) is black in the background pixmap and is still opaque black,
not transparent, in the overlay pixmap. -/
theorem overlay_not_cleared_after_release :
    releasedState.pixmap.data 10 50 = RGBA.black ∧
    releasedState.overlay_pixmap.data 10 50 = RGBA.black ∧
    RGBA.black.a ≠ 0 ∧
    releasedState.undo_stack.length = strokeState.undo_stack.length + 1 := by
  have hover : strokeState.overlay_pixmap =
      (Pixmap.filled 800 600 RGBA.transparent).drawLine ⟨10, 10⟩ ⟨10, 100⟩ RGBA.black 1 1 := by
    rw [strokeState_eq, pressedState_eq]
    rfl
  have hisdraw : strokeState.drawing_tool.is_drawing = true := by
    rw [strokeState_eq]
  have hpix : strokeState.pixmap = Pixmap.filled 800 600 RGBA.white := by
    rw [strokeState_eq, pressedState_eq]
    rfl
  have hmem : (⟨10, 50⟩ : Pt) ∈
      (linePoints ⟨10, 10⟩ ⟨10, 100⟩).flatMap (fun r => brushPoints r 1) := by decide
  have hpixel : strokeState.overlay_pixmap.data 10 50 = RGBA.black := by
    rw [hover]
    have h := drawLine_opaque_pixel (Pixmap.filled 800 600 RGBA.transparent)
      ⟨10, 10⟩ ⟨10, 100⟩ RGBA.black 1 1
      (by rw [withOpacity_black_one]; rfl) ⟨10, 50⟩
      (by exact ⟨by decide, by decide, by decide, by decide⟩) hmem
    rw [withOpacity_black_one] at h
    exact h
  have hdend : drawing_end strokeState =
      { strokeState with
        pixmap := strokeState.pixmap.compositeOver strokeState.overlay_pixmap
        drawing_tool := { strokeState.drawing_tool with is_drawing := false, last_pos := none } } := by
    unfold drawing_end
    rw [if_pos hisdraw]
  have hovW : strokeState.overlay_pixmap.w = 800 := by
    rw [hover]
    exact (drawLine_dims _ _ _ _ _ _).1
  have hovH : strokeState.overlay_pixmap.h = 600 := by
    rw [hover]
    exact (drawLine_dims _ _ _ _ _ _).2
  have hcomposite : (strokeState.pixmap.compositeOver strokeState.overlay_pixmap).data 10 50
      = RGBA.black := by
    unfold Pixmap.compositeOver
    dsimp only
    rw [if_pos ⟨by decide, by rw [hovW]; decide, by decide, by rw [hovH]; decide⟩]
    rw [hpixel, hpix]
    rfl
  refine ⟨?_, ?_, by decide, ?_⟩
  · rw [releasedState_eq]
    show (save_state (drawing_end strokeState)).pixmap.data 10 50 = RGBA.black
    rw [save_state_eq]
    show (drawing_end strokeState).pixmap.data 10 50 = RGBA.black
    rw [hdend]
    exact hcomposite
  · rw [releasedState_eq]
    show (save_state (drawing_end strokeState)).overlay_pixmap.data 10 50 = RGBA.black
    rw [save_state_eq]
    show (drawing_end strokeState).overlay_pixmap.data 10 50 = RGBA.black
    rw [drawing_end_overlay]
    exact hpixel
  · rw [releasedState_eq]
    show (save_state (drawing_end strokeState)).undo_stack.length = _
    rw [save_state_eq]
    show ((drawing_end strokeState).undo_stack ++ [snapOf (drawing_end strokeState)]).length = _
    rw [List.length_append]
    rw [show (drawing_end strokeState).undo_stack = strokeState.undo_stack from by
      rw [hdend]]
    rfl

/-- Heap extension is reflexive. -/
theorem heapExtends_refl (h : Heap) : HeapExtends h h :=
  ⟨le_refl _, le_refl _, le_refl _, fun _ _ => rfl, fun _ _ => rfl, fun _ _ => rfl⟩

/-- Heap extension is transitive. -/
theorem heapExtends_trans {h1 h2 h3 : Heap}
    (a : HeapExtends h1 h2) (b : HeapExtends h2 h3) : HeapExtends h1 h3 := by
  refine ⟨a.1.trans b.1, a.2.1.trans b.2.1, a.2.2.1.trans b.2.2.1, ?_, ?_, ?_⟩
  · intro i hi
    rw [b.2.2.2.1 i (lt_of_lt_of_le hi a.1), a.2.2.2.1 i hi]
  · intro i hi
    rw [b.2.2.2.2.1 i (lt_of_lt_of_le hi a.2.1), a.2.2.2.2.1 i hi]
  · intro i hi
    rw [b.2.2.2.2.2 i (lt_of_lt_of_le hi a.2.2.1), a.2.2.2.2.2 i hi]

/-- Allocating a pixmap extends the heap. -/
theorem allocPix_extends (h : Heap) (p : Pixmap) : HeapExtends h (h.allocPix p).1 := by
  refine ⟨Nat.le_succ _, le_refl _, le_refl _, ?_, fun _ _ => rfl, fun _ _ => rfl⟩
  intro i hi
  show (if i = h.pixN then p else h.pixmaps i) = h.pixmaps i
  rw [if_neg (Nat.ne_of_lt hi)]

/-- Allocating a rect extends the heap. -/
theorem allocRect_extends (h : Heap) (r : Rect) : HeapExtends h (h.allocRect r).1 := by
  refine ⟨le_refl _, Nat.le_succ _, le_refl _, fun _ _ => rfl, ?_, fun _ _ => rfl⟩
  intro i hi
  show (if i = h.rectN then r else h.rects i) = h.rects i
  rw [if_neg (Nat.ne_of_lt hi)]

/-- Allocating an image dict extends the heap. -/
theorem allocImg_extends (h : Heap) (d : HImg) : HeapExtends h (h.allocImg d).1 := by
  refine ⟨le_refl _, le_refl _, Nat.le_succ _, fun _ _ => rfl, fun _ _ => rfl, ?_⟩
  intro i hi
  show (if i = h.imgN then d else h.imgs i) = h.imgs i
  rw [if_neg (Nat.ne_of_lt hi)]

/-- The pixmap-id footprint depends on the heap only through the pix and
orig fields of the image dicts it lists. -/
theorem pixIdsOf_congr (h h2 : Heap) (images : List Nat) (bg ov : Nat)
    (himg : ∀ d ∈ images,
      (h2.imgs d).pix = (h.imgs d).pix ∧ (h2.imgs d).orig = (h.imgs d).orig) :
    pixIdsOf h2 images bg ov = pixIdsOf h images bg ov := by
  unfold pixIdsOf
  congr 2
  apply List.flatMap_congr
  intro d hd
  rw [(himg d hd).1, (himg d hd).2]

/-- The rect-id footprint depends on the heap only through the rect fields
of the image dicts it lists. -/
theorem rectIdsOf_congr (h h2 : Heap) (images : List Nat)
    (himg : ∀ d ∈ images, (h2.imgs d).rect = (h.imgs d).rect) :
    rectIdsOf h2 images = rectIdsOf h images := by
  unfold rectIdsOf
  apply List.map_congr_left
  intro d hd
  rw [himg d hd]

/-- The dereferenced value of a snapshot depends on the heap only through
the cells of the snapshot's footprint. -/
theorem derefSnap_congr (h h2 : Heap) (s : HSnapshot)
    (himg : ∀ d ∈ s.images, h2.imgs d = h.imgs d)
    (hpix : ∀ i ∈ snapPixIds h s, h2.pixmaps i = h.pixmaps i)
    (hrect : ∀ i ∈ snapRectIds h s, h2.rects i = h.rects i) :
    derefSnap h2 s = derefSnap h s := by
  unfold derefSnap
  have hbg : h2.pixmaps s.pixmap = h.pixmaps s.pixmap :=
    hpix s.pixmap (by unfold snapPixIds pixIdsOf; exact List.mem_cons_self _ _)
  have hov : h2.pixmaps s.overlay = h.pixmaps s.overlay :=
    hpix s.overlay (by unfold snapPixIds pixIdsOf; simp)
  rw [hbg, hov]
  congr 1
  apply List.map_congr_left
  intro d hd
  unfold derefImg
  rw [himg d hd]
  have hp : h2.pixmaps (h.imgs d).pix = h.pixmaps (h.imgs d).pix := by
    apply hpix
    unfold snapPixIds pixIdsOf
    simp only [List.mem_cons, List.mem_flatMap]
    right; right
    exact ⟨d, hd, by simp⟩
  have ho : h2.pixmaps (h.imgs d).orig = h.pixmaps (h.imgs d).orig := by
    apply hpix
    unfold snapPixIds pixIdsOf
    simp only [List.mem_cons, List.mem_flatMap]
    right; right
    exact ⟨d, hd, by simp⟩
  have hr : h2.rects (h.imgs d).rect = h.rects (h.imgs d).rect := by
    apply hrect
    unfold snapRectIds rectIdsOf
    exact List.mem_map_of_mem _ hd
  rw [hp, ho, hr]

/-- A heap extension leaves the value of every allocated snapshot
unchanged. -/
theorem derefSnap_extends (h h2 : Heap) (s : HSnapshot) (hext : HeapExtends h h2)
    (himg : ∀ d ∈ s.images, d < h.imgN)
    (hpix : ∀ i ∈ snapPixIds h s, i < h.pixN)
    (hrect : ∀ i ∈ snapRectIds h s, i < h.rectN) :
    derefSnap h2 s = derefSnap h s :=
  derefSnap_congr h h2 s
    (fun d hd => hext.2.2.2.2.2 d (himg d hd))
    (fun i hi => hext.2.2.2.1 i (hpix i hi))
    (fun i hi => hext.2.2.2.2.1 i (hrect i hi))

/-- snapOneImage's counters: two pixmaps, one rect, one dict allocated. -/
theorem snapOneImage_counters (h : Heap) (d : Nat) :
    (snapOneImage h d).1.pixN = h.pixN + 2 ∧
    (snapOneImage h d).1.rectN = h.rectN + 1 ∧
    (snapOneImage h d).1.imgN = h.imgN + 1 :=
  ⟨rfl, rfl, rfl⟩

/-- snapOneImage returns the freshly allocated dict id. -/
theorem snapOneImage_id (h : Heap) (d : Nat) : (snapOneImage h d).2 = h.imgN := rfl

/-- The freshly allocated snapshot dict references only the freshly
allocated pixmap and rect cells. -/
theorem snapOneImage_dict (h : Heap) (d : Nat) :
    (snapOneImage h d).1.imgs h.imgN =
      ⟨h.pixN, h.pixN + 1, (h.imgs d).x, (h.imgs d).y, h.rectN⟩ := by
  show (if h.imgN = h.imgN then _ else _) = _
  rw [if_pos rfl]
  rfl

/-- snapOneImage extends the heap. -/
theorem snapOneImage_extends (h : Heap) (d : Nat) : HeapExtends h (snapOneImage h d).1 :=
  heapExtends_trans (allocPix_extends h _)
    (heapExtends_trans (allocPix_extends _ _)
      (heapExtends_trans (allocRect_extends _ _) (allocImg_extends _ _)))

/-- The deep-copy loop extends the heap and every snapshot dict it returns
is fresh: its id and the pixmap and rect ids it references lie at or above
the pre-loop counters and below the post-loop counters. -/
theorem snapImages_spec (ds : List Nat) (h : Heap) :
    HeapExtends h (snapImages h ds).1 ∧
    (∀ d ∈ (snapImages h ds).2, h.imgN ≤ d ∧ d < (snapImages h ds).1.imgN) ∧
    (∀ d ∈ (snapImages h ds).2,
      h.pixN ≤ ((snapImages h ds).1.imgs d).pix ∧
      ((snapImages h ds).1.imgs d).pix < (snapImages h ds).1.pixN ∧
      h.pixN ≤ ((snapImages h ds).1.imgs d).orig ∧
      ((snapImages h ds).1.imgs d).orig < (snapImages h ds).1.pixN ∧
      h.rectN ≤ ((snapImages h ds).1.imgs d).rect ∧
      ((snapImages h ds).1.imgs d).rect < (snapImages h ds).1.rectN) := by
  induction ds generalizing h with
  | nil =>
    refine ⟨heapExtends_refl h, ?_, ?_⟩ <;> simp [snapImages]
  | cons d0 rest ih =>
    have hone := snapOneImage_extends h d0
    have hcnt := snapOneImage_counters h d0
    have hrec := ih (snapOneImage h d0).1
    have hunfold : snapImages h (d0 :: rest)
        = ((snapImages (snapOneImage h d0).1 rest).1,
           (snapOneImage h d0).2 :: (snapImages (snapOneImage h d0).1 rest).2) := rfl
    rw [hunfold]
    dsimp only
    refine ⟨heapExtends_trans hone hrec.1, ?_, ?_⟩
    · intro d hd
      rcases List.mem_cons.mp hd with hd0 | hdr
      · rw [snapOneImage_id] at hd0
        subst hd0
        refine ⟨le_refl _, ?_⟩
        refine lt_of_lt_of_le ?_ hrec.1.2.2.1
        rw [hcnt.2.2]
        omega
      · have hfacts := hrec.2.1 d hdr
        exact ⟨le_trans hone.2.2.1 hfacts.1, hfacts.2⟩
    · intro d hd
      rcases List.mem_cons.mp hd with hd0 | hdr
      · rw [snapOneImage_id] at hd0
        subst hd0
        have hdlt : h.imgN < (snapOneImage h d0).1.imgN := by
          rw [hcnt.2.2]
          omega
        have hread : (snapImages (snapOneImage h d0).1 rest).1.imgs h.imgN
            = (snapOneImage h d0).1.imgs h.imgN := hrec.1.2.2.2.2.2 _ hdlt
        rw [hread, snapOneImage_dict h d0]
        dsimp only
        refine ⟨le_refl _, ?_, Nat.le_succ _, ?_, le_refl _, ?_⟩
        · refine lt_of_lt_of_le ?_ hrec.1.1
          rw [hcnt.1]
          omega
        · refine lt_of_lt_of_le ?_ hrec.1.1
          rw [hcnt.1]
          omega
        · refine lt_of_lt_of_le ?_ hrec.1.2.1
          rw [hcnt.2.1]
          omega
      · have hfacts := hrec.2.2 d hdr
        exact ⟨le_trans hone.1 hfacts.1, hfacts.2.1, le_trans hone.1 hfacts.2.2.1,
          hfacts.2.2.2.1, le_trans hone.2.1 hfacts.2.2.2.2.1, hfacts.2.2.2.2.2⟩

/-- The save_state heap relative to the snapshot loop: reference
equations. -/
theorem hsaveHeap_imgs (σ : HState) :
    (hsaveHeap σ).imgs = (snapImages σ.heap σ.images).1.imgs := rfl

theorem hsaveHeap_rects (σ : HState) :
    (hsaveHeap σ).rects = (snapImages σ.heap σ.images).1.rects := rfl

theorem hsaveHeap_pixN (σ : HState) :
    (hsaveHeap σ).pixN = (snapImages σ.heap σ.images).1.pixN + 2 := rfl

theorem hsaveHeap_rectN (σ : HState) :
    (hsaveHeap σ).rectN = (snapImages σ.heap σ.images).1.rectN := rfl

theorem hsaveHeap_imgN (σ : HState) :
    (hsaveHeap σ).imgN = (snapImages σ.heap σ.images).1.imgN := rfl

theorem hsaveSnap_images (σ : HState) :
    (hsaveSnap σ).images = (snapImages σ.heap σ.images).2 := rfl

theorem hsaveSnap_pixmap (σ : HState) :
    (hsaveSnap σ).pixmap = (snapImages σ.heap σ.images).1.pixN := rfl

theorem hsaveSnap_overlay (σ : HState) :
    (hsaveSnap σ).overlay = (snapImages σ.heap σ.images).1.pixN + 1 := rfl

/-- The save_state copies extend the heap. -/
theorem hsaveHeap_extends (σ : HState) : HeapExtends σ.heap (hsaveHeap σ) := by
  unfold hsaveHeap
  exact heapExtends_trans (snapImages_spec σ.images σ.heap).1
    (heapExtends_trans (allocPix_extends _ _) (allocPix_extends _ _))

/-- Every id the fresh save_state snapshot references is fresh: at or above
the pre-save counters, below the post-save counters. -/
theorem hsaveSnap_fresh (σ : HState) :
    (∀ d ∈ (hsaveSnap σ).images, σ.heap.imgN ≤ d ∧ d < (hsaveHeap σ).imgN) ∧
    (∀ i ∈ snapPixIds (hsaveHeap σ) (hsaveSnap σ),
      σ.heap.pixN ≤ i ∧ i < (hsaveHeap σ).pixN) ∧
    (∀ i ∈ snapRectIds (hsaveHeap σ) (hsaveSnap σ),
      σ.heap.rectN ≤ i ∧ i < (hsaveHeap σ).rectN) := by
  have hs := snapImages_spec σ.images σ.heap
  refine ⟨?_, ?_, ?_⟩
  · intro d hd
    rw [hsaveSnap_images] at hd
    rw [hsaveHeap_imgN]
    exact hs.2.1 d hd
  · intro i hi
    unfold snapPixIds pixIdsOf at hi
    rw [hsaveHeap_pixN]
    rcases List.mem_cons.mp hi with h1 | hi
    · rw [h1, hsaveSnap_pixmap]
      exact ⟨hs.1.1, by omega⟩
    rcases List.mem_cons.mp hi with h1 | hi
    · rw [h1, hsaveSnap_overlay]
      exact ⟨le_trans hs.1.1 (Nat.le_succ _), by omega⟩
    · rcases List.mem_flatMap.mp hi with ⟨d, hd, hmem⟩
      rw [hsaveSnap_images] at hd
      have hfacts := hs.2.2 d hd
      have himgs : (hsaveHeap σ).imgs d = (snapImages σ.heap σ.images).1.imgs d := rfl
      rcases List.mem_cons.mp hmem with h1 | hmem
      · rw [h1, himgs]
        exact ⟨hfacts.1, by omega⟩
      · rcases List.mem_cons.mp hmem with h1 | hmem
        · rw [h1, himgs]
          exact ⟨hfacts.2.2.1, by omega⟩
        · simp at hmem
  · intro i hi
    unfold snapRectIds rectIdsOf at hi
    rw [hsaveHeap_rectN]
    rcases List.mem_map.mp hi with ⟨d, hd, h1⟩
    rw [hsaveSnap_images] at hd
    have hfacts := hs.2.2 d hd
    have himgs : (hsaveHeap σ).imgs d = (snapImages σ.heap σ.images).1.imgs d := rfl
    rw [← h1, himgs]
    exact ⟨hfacts.2.2.2.2.1, hfacts.2.2.2.2.2⟩

/-- hsave_state is exactly the heap growth plus the stack update: both
branches of its trailing conditional leave the same state. -/
theorem hsave_state_eq (σ : HState) :
    hsave_state σ =
      { σ with
        heap := hsaveHeap σ
        undo := σ.undo ++ [hsaveSnap σ]
        redo := [] } := by
  unfold hsave_state
  dsimp only
  split <;> rfl

/-- A fresh id is not in a bounded id list. -/
theorem not_mem_of_ge (l : List Nat) (n i : Nat) (hl : ∀ j ∈ l, j < n) (hi : n ≤ i) :
    i ∉ l :=
  fun hmem => absurd (hl i hmem) (not_lt.mpr hi)

/-- save_state preserves the unaliasing invariant: the fresh snapshot's
cells are newly allocated, so they are disjoint from the live document and
from every older snapshot. -/
theorem hsave_state_wf (σ : HState) (hWF : StateWF σ) : StateWF (hsave_state σ) := by
  rw [hsave_state_eq]
  have hext := hsaveHeap_extends σ
  have hfr := hsaveSnap_fresh σ
  have hliveimgs : ∀ d ∈ σ.images, (hsaveHeap σ).imgs d = σ.heap.imgs d :=
    fun d hd => hext.2.2.2.2.2 d (hWF.live_img d hd)
  have hlivepix : pixIdsOf (hsaveHeap σ) σ.images σ.bg σ.overlay = livePixIds σ :=
    pixIdsOf_congr σ.heap (hsaveHeap σ) σ.images σ.bg σ.overlay
      (fun d hd => ⟨by rw [hliveimgs d hd], by rw [hliveimgs d hd]⟩)
  have hliverect : rectIdsOf (hsaveHeap σ) σ.images = liveRectIds σ :=
    rectIdsOf_congr σ.heap (hsaveHeap σ) σ.images (fun d hd => by rw [hliveimgs d hd])
  have hsnapimgs : ∀ s ∈ σ.undo ++ σ.redo, ∀ d ∈ s.images,
      (hsaveHeap σ).imgs d = σ.heap.imgs d :=
    fun s hs d hd => hext.2.2.2.2.2 d (hWF.snap_img s hs d hd)
  have hsnappix : ∀ s ∈ σ.undo ++ σ.redo,
      snapPixIds (hsaveHeap σ) s = snapPixIds σ.heap s :=
    fun s hs => pixIdsOf_congr σ.heap (hsaveHeap σ) s.images s.pixmap s.overlay
      (fun d hd => ⟨by rw [hsnapimgs s hs d hd], by rw [hsnapimgs s hs d hd]⟩)
  have hsnaprect : ∀ s ∈ σ.undo ++ σ.redo,
      snapRectIds (hsaveHeap σ) s = snapRectIds σ.heap s :=
    fun s hs => rectIdsOf_congr σ.heap (hsaveHeap σ) s.images
      (fun d hd => by rw [hsnapimgs s hs d hd])
  constructor
  · intro d hd
    exact lt_of_lt_of_le (hWF.live_img d hd) hext.2.2.1
  · intro i hi
    have hi2 : i ∈ livePixIds σ := by
      unfold livePixIds at hi ⊢
      dsimp only at hi
      rw [hlivepix] at hi
      exact hi
    exact lt_of_lt_of_le (hWF.live_pix i hi2) hext.1
  · intro i hi
    have hi2 : i ∈ liveRectIds σ := by
      unfold liveRectIds at hi ⊢
      dsimp only at hi
      rw [hliverect] at hi
      exact hi
    exact lt_of_lt_of_le (hWF.live_rect i hi2) hext.2.1
  · intro s hs d hd
    dsimp only at hs
    rw [List.append_nil] at hs
    rcases List.mem_append.mp hs with hsu | hsn
    · exact lt_of_lt_of_le
        (hWF.snap_img s (List.mem_append_left _ hsu) d hd) hext.2.2.1
    · rw [List.mem_singleton.mp hsn] at hd
      exact (hfr.1 d hd).2
  · intro s hs i hi
    dsimp only at hs hi
    rw [List.append_nil] at hs
    rcases List.mem_append.mp hs with hsu | hsn
    · rw [hsnappix s (List.mem_append_left _ hsu)] at hi
      exact lt_of_lt_of_le (hWF.snap_pix s (List.mem_append_left _ hsu) i hi) hext.1
    · rw [List.mem_singleton.mp hsn] at hi
      exact (hfr.2.1 i hi).2
  · intro s hs i hi
    dsimp only at hs hi
    rw [List.append_nil] at hs
    rcases List.mem_append.mp hs with hsu | hsn
    · rw [hsnaprect s (List.mem_append_left _ hsu)] at hi
      exact lt_of_lt_of_le (hWF.snap_rect s (List.mem_append_left _ hsu) i hi) hext.2.1
    · rw [List.mem_singleton.mp hsn] at hi
      exact (hfr.2.2 i hi).2
  · intro s hs d hd
    dsimp only at hs ⊢
    rw [List.append_nil] at hs
    rcases List.mem_append.mp hs with hsu | hsn
    · exact hWF.disj_img s (List.mem_append_left _ hsu) d hd
    · rw [List.mem_singleton.mp hsn] at hd
      exact not_mem_of_ge σ.images σ.heap.imgN d hWF.live_img (hfr.1 d hd).1
  · intro s hs i hi
    dsimp only at hs hi ⊢
    rw [List.append_nil] at hs
    show i ∉ pixIdsOf (hsaveHeap σ) σ.images σ.bg σ.overlay
    rw [hlivepix]
    rcases List.mem_append.mp hs with hsu | hsn
    · rw [hsnappix s (List.mem_append_left _ hsu)] at hi
      exact hWF.disj_pix s (List.mem_append_left _ hsu) i hi
    · rw [List.mem_singleton.mp hsn] at hi
      exact not_mem_of_ge (livePixIds σ) σ.heap.pixN i hWF.live_pix (hfr.2.1 i hi).1
  · intro s hs i hi
    dsimp only at hs hi ⊢
    rw [List.append_nil] at hs
    show i ∉ rectIdsOf (hsaveHeap σ) σ.images
    rw [hliverect]
    rcases List.mem_append.mp hs with hsu | hsn
    · rw [hsnaprect s (List.mem_append_left _ hsu)] at hi
      exact hWF.disj_rect s (List.mem_append_left _ hsu) i hi
    · rw [List.mem_singleton.mp hsn] at hi
      exact not_mem_of_ge (liveRectIds σ) σ.heap.rectN i hWF.live_rect (hfr.2.2 i hi).1
  · dsimp only
    rw [List.append_nil]
    refine List.pairwise_append.mpr ⟨(List.pairwise_append.mp hWF.pair_img).1,
      List.pairwise_singleton _ _, ?_⟩
    intro s hsu t htn
    rw [List.mem_singleton.mp htn]
    intro d hd hmem
    exact absurd (hfr.1 d hmem).1
      (not_le.mpr (hWF.snap_img s (List.mem_append_left _ hsu) d hd))
  · dsimp only
    rw [List.append_nil]
    refine List.pairwise_append.mpr ⟨?_, List.pairwise_singleton _ _, ?_⟩
    · refine ((List.pairwise_append.mp hWF.pair_pix).1).imp_of_mem ?_
      intro a b ha hb hr i hi
      rw [hsnappix a (List.mem_append_left _ ha)] at hi
      rw [hsnappix b (List.mem_append_left _ hb)]
      exact hr i hi
    · intro s hsu t htn
      rw [List.mem_singleton.mp htn]
      intro i hi hmem
      rw [hsnappix s (List.mem_append_left _ hsu)] at hi
      exact absurd (hfr.2.1 i hmem).1
        (not_le.mpr (hWF.snap_pix s (List.mem_append_left _ hsu) i hi))
  · dsimp only
    rw [List.append_nil]
    refine List.pairwise_append.mpr ⟨?_, List.pairwise_singleton _ _, ?_⟩
    · refine ((List.pairwise_append.mp hWF.pair_rect).1).imp_of_mem ?_
      intro a b ha hb hr i hi
      rw [hsnaprect a (List.mem_append_left _ ha)] at hi
      rw [hsnaprect b (List.mem_append_left _ hb)]
      exact hr i hi
    · intro s hsu t htn
      rw [List.mem_singleton.mp htn]
      intro i hi hmem
      rw [hsnaprect s (List.mem_append_left _ hsu)] at hi
      exact absurd (hfr.2.2 i hmem).1
        (not_le.mpr (hWF.snap_rect s (List.mem_append_left _ hsu) i hi))

/-- save_state leaves the value of every previously stored snapshot
unchanged: its copies are fresh allocations. -/
theorem hsave_state_preserves (σ : HState) (hWF : StateWF σ) :
    ∀ s ∈ σ.undo ++ σ.redo,
      derefSnap (hsave_state σ).heap s = derefSnap σ.heap s := by
  intro s hs
  rw [hsave_state_eq]
  exact derefSnap_extends σ.heap (hsaveHeap σ) s (hsaveHeap_extends σ)
    (hWF.snap_img s hs) (hWF.snap_pix s hs) (hWF.snap_rect s hs)

/-- Disjointness of id lists is symmetric. -/
theorem disjoint_flip {α : Type} (A B : List α) (h : ∀ d ∈ A, d ∉ B) :
    ∀ d ∈ B, d ∉ A :=
  fun d hd hdA => h d hdA hd

/-- An element read by get? is a member of the list. -/
theorem mem_of_get?_eq (l : List Nat) (n a : Nat) (h : l.get? n = some a) : a ∈ l := by
  rw [List.get?_eq_getElem?] at h
  exact List.getElem?_mem h

/-- The background id is in the live pixmap footprint. -/
theorem bg_mem_livePix (σ : HState) : σ.bg ∈ livePixIds σ := by
  unfold livePixIds pixIdsOf
  exact List.mem_cons_self _ _

/-- The overlay id is in the live pixmap footprint. -/
theorem overlay_mem_livePix (σ : HState) : σ.overlay ∈ livePixIds σ := by
  unfold livePixIds pixIdsOf
  exact List.mem_cons_of_mem _ (List.mem_cons_self _ _)

/-- The display buffer of a live image dict is in the live pixmap footprint. -/
theorem imgpix_mem_livePix (σ : HState) (d : Nat) (hd : d ∈ σ.images) :
    (σ.heap.imgs d).pix ∈ livePixIds σ := by
  unfold livePixIds pixIdsOf
  refine List.mem_cons_of_mem _ (List.mem_cons_of_mem _ ?_)
  exact List.mem_flatMap.mpr ⟨d, hd, List.mem_cons_self _ _⟩

/-- The original buffer of a live image dict is in the live pixmap footprint. -/
theorem imgorig_mem_livePix (σ : HState) (d : Nat) (hd : d ∈ σ.images) :
    (σ.heap.imgs d).orig ∈ livePixIds σ := by
  unfold livePixIds pixIdsOf
  refine List.mem_cons_of_mem _ (List.mem_cons_of_mem _ ?_)
  exact List.mem_flatMap.mpr ⟨d, hd, by simp⟩

/-- The rect of a live image dict is in the live rect footprint. -/
theorem imgrect_mem_liveRect (σ : HState) (d : Nat) (hd : d ∈ σ.images) :
    (σ.heap.imgs d).rect ∈ liveRectIds σ := by
  unfold liveRectIds rectIdsOf
  exact List.mem_map_of_mem _ hd

/-- Case analysis for membership in a pixmap footprint. -/
theorem mem_pixIdsOf_cases (h : Heap) (is : List Nat) (bg ov j : Nat)
    (hj : j ∈ pixIdsOf h is bg ov) :
    j = bg ∨ j = ov ∨ ∃ d ∈ is, j = (h.imgs d).pix ∨ j = (h.imgs d).orig := by
  unfold pixIdsOf at hj
  rcases List.mem_cons.mp hj with h1 | hj
  · exact Or.inl h1
  rcases List.mem_cons.mp hj with h1 | hj
  · exact Or.inr (Or.inl h1)
  rcases List.mem_flatMap.mp hj with ⟨d, hd, hmem⟩
  rcases List.mem_cons.mp hmem with h1 | hmem
  · exact Or.inr (Or.inr ⟨d, hd, Or.inl h1⟩)
  rcases List.mem_cons.mp hmem with h1 | hmem
  · exact Or.inr (Or.inr ⟨d, hd, Or.inr h1⟩)
  · exact absurd hmem (List.not_mem_nil _)

/-- Case analysis for membership in a rect footprint. -/
theorem mem_rectIdsOf_cases (h : Heap) (is : List Nat) (j : Nat)
    (hj : j ∈ rectIdsOf h is) : ∃ d ∈ is, j = (h.imgs d).rect := by
  unfold rectIdsOf at hj
  rcases List.mem_map.mp hj with ⟨d, hd, h1⟩
  exact ⟨d, hd, h1.symm⟩

/-- Decomposing a pairwise relation over a stack whose left part ends in a
distinguished element. -/
theorem pairwise_decomp {α : Type} (R : α → α → Prop) (l2 : List α) (a : α) (r : List α)
    (h : List.Pairwise R ((l2 ++ [a]) ++ r)) :
    List.Pairwise R l2 ∧ List.Pairwise R r ∧
    (∀ s ∈ l2, R s a) ∧ (∀ t ∈ r, R a t) ∧
    (∀ s ∈ l2, ∀ t ∈ r, R s t) ∧ List.Pairwise R (l2 ++ r) := by
  have h1 := List.pairwise_append.mp h
  have h2 := List.pairwise_append.mp h1.1
  refine ⟨h2.1, h1.2.1, fun s hs => h2.2.2 s hs a (List.mem_singleton_self _),
    fun t ht => h1.2.2 a (List.mem_append_right _ (List.mem_singleton_self _)) t ht,
    fun s hs t ht => h1.2.2 s (List.mem_append_left _ hs) t ht, ?_⟩
  exact List.pairwise_append.mpr ⟨h2.1, h1.2.1,
    fun s hs t ht => h1.2.2 s (List.mem_append_left _ hs) t ht⟩

/-- Decomposing a pairwise relation over a stack whose right part ends in a
distinguished element. -/
theorem pairwise_decomp_right {α : Type} (R : α → α → Prop) (u l2 : List α) (a : α)
    (h : List.Pairwise R (u ++ (l2 ++ [a]))) :
    List.Pairwise R u ∧ List.Pairwise R l2 ∧
    (∀ s ∈ u, ∀ t ∈ l2, R s t) ∧ (∀ s ∈ u, R s a) ∧ (∀ s ∈ l2, R s a) ∧
    List.Pairwise R (u ++ l2) := by
  have h1 := List.pairwise_append.mp h
  have h2 := List.pairwise_append.mp h1.2.1
  refine ⟨h1.1, h2.1,
    fun s hs t ht => h1.2.2 s hs t (List.mem_append_left _ ht),
    fun s hs => h1.2.2 s hs a (List.mem_append_right _ (List.mem_singleton_self _)),
    fun s hs => h2.2.2 s hs a (List.mem_singleton_self _), ?_⟩
  exact List.pairwise_append.mpr ⟨h1.1, h2.1,
    fun s hs t ht => h1.2.2 s hs t (List.mem_append_left _ ht)⟩

/-- Rebuilding a pairwise disjointness relation after appending a fresh
snapshot at the end of the right stack. -/
theorem pairwise_fresh_append {α : Type} (R S : α → α → Prop)
    (l1 l2 : List α) (f : α)
    (hP : List.Pairwise R (l1 ++ l2))
    (himp : ∀ a ∈ l1 ++ l2, ∀ b ∈ l1 ++ l2, R a b → S a b)
    (hfresh : ∀ a ∈ l1 ++ l2, S a f) :
    List.Pairwise S (l1 ++ (l2 ++ [f])) := by
  rw [← List.append_assoc]
  have hP2 : List.Pairwise S (l1 ++ l2) := by
    refine hP.imp_of_mem ?_
    intro a b ha hb hr
    exact himp a ha b hb hr
  refine List.pairwise_append.mpr ⟨hP2, List.pairwise_singleton _ _, ?_⟩
  intro a ha b hb
  rw [List.mem_singleton.mp hb]
  exact hfresh a ha

/-- Rebuilding a pairwise disjointness relation after inserting a fresh
snapshot between the two stacks. -/
theorem pairwise_fresh_mid {α : Type} (R S : α → α → Prop)
    (l1 l2 : List α) (f : α)
    (hP : List.Pairwise R (l1 ++ l2))
    (himp : ∀ a ∈ l1 ++ l2, ∀ b ∈ l1 ++ l2, R a b → S a b)
    (hfresh1 : ∀ a ∈ l1 ++ l2, S a f)
    (hfresh2 : ∀ b ∈ l1 ++ l2, S f b) :
    List.Pairwise S ((l1 ++ [f]) ++ l2) := by
  have hP2 : List.Pairwise S (l1 ++ l2) := by
    refine hP.imp_of_mem ?_
    intro a b ha hb hr
    exact himp a ha b hb hr
  have hd := List.pairwise_append.mp hP2
  refine List.pairwise_append.mpr ⟨?_, hd.2.1, ?_⟩
  · refine List.pairwise_append.mpr ⟨hd.1, List.pairwise_singleton _ _, ?_⟩
    intro a ha b hb
    rw [List.mem_singleton.mp hb]
    exact hfresh1 a (List.mem_append_left _ ha)
  · intro a ha b hb
    rcases List.mem_append.mp ha with ha1 | ha2
    · exact hd.2.2 a ha1 b hb
    · rw [List.mem_singleton.mp ha2]
      exact hfresh2 b (List.mem_append_right _ hb)

/-- The master frame lemma for in-place document mutation: a heap change
that leaves every allocated cell outside the live document's write
footprint intact, together with a new live image list whose ids are old
live ids or freshly allocated, preserves the unaliasing invariant and the
dereferenced value of every stored snapshot. -/
theorem mutate_wf_pres (σ : HState) (h2 : Heap) (is2 : List Nat) (hWF : StateWF σ)
    (cpix : σ.heap.pixN ≤ h2.pixN) (crect : σ.heap.rectN ≤ h2.rectN)
    (cimg : σ.heap.imgN ≤ h2.imgN)
    (simg : ∀ n, n < σ.heap.imgN → n ∉ σ.images → h2.imgs n = σ.heap.imgs n)
    (spix : ∀ n, n < σ.heap.pixN → n ∉ livePixIds σ → h2.pixmaps n = σ.heap.pixmaps n)
    (srect : ∀ n, n < σ.heap.rectN → n ∉ liveRectIds σ → h2.rects n = σ.heap.rects n)
    (limg : ∀ d ∈ is2, d < h2.imgN)
    (limgsrc : ∀ d ∈ is2, d ∈ σ.images ∨ σ.heap.imgN ≤ d)
    (lpix : ∀ j ∈ pixIdsOf h2 is2 σ.bg σ.overlay, j < h2.pixN)
    (lpixsrc : ∀ j ∈ pixIdsOf h2 is2 σ.bg σ.overlay, j ∈ livePixIds σ ∨ σ.heap.pixN ≤ j)
    (lrect : ∀ j ∈ rectIdsOf h2 is2, j < h2.rectN)
    (lrectsrc : ∀ j ∈ rectIdsOf h2 is2, j ∈ liveRectIds σ ∨ σ.heap.rectN ≤ j) :
    (∀ sel2 ts2, StateWF { σ with
        heap := h2
        images := is2
        selected := sel2
        texts := ts2 }) ∧
    ∀ s ∈ σ.undo ++ σ.redo, derefSnap h2 s = derefSnap σ.heap s := by
  have hsnapimgs : ∀ s ∈ σ.undo ++ σ.redo, ∀ d ∈ s.images,
      h2.imgs d = σ.heap.imgs d :=
    fun s hs d hd => simg d (hWF.snap_img s hs d hd) (hWF.disj_img s hs d hd)
  have hsnappix_ids : ∀ s ∈ σ.undo ++ σ.redo,
      snapPixIds h2 s = snapPixIds σ.heap s :=
    fun s hs => pixIdsOf_congr σ.heap h2 s.images s.pixmap s.overlay
      (fun d hd => ⟨by rw [hsnapimgs s hs d hd], by rw [hsnapimgs s hs d hd]⟩)
  have hsnaprect_ids : ∀ s ∈ σ.undo ++ σ.redo,
      snapRectIds h2 s = snapRectIds σ.heap s :=
    fun s hs => rectIdsOf_congr σ.heap h2 s.images
      (fun d hd => by rw [hsnapimgs s hs d hd])
  have hsnappix_cells : ∀ s ∈ σ.undo ++ σ.redo, ∀ i ∈ snapPixIds σ.heap s,
      h2.pixmaps i = σ.heap.pixmaps i :=
    fun s hs i hi => spix i (hWF.snap_pix s hs i hi) (hWF.disj_pix s hs i hi)
  have hsnaprect_cells : ∀ s ∈ σ.undo ++ σ.redo, ∀ i ∈ snapRectIds σ.heap s,
      h2.rects i = σ.heap.rects i :=
    fun s hs i hi => srect i (hWF.snap_rect s hs i hi) (hWF.disj_rect s hs i hi)
  have hpres : ∀ s ∈ σ.undo ++ σ.redo, derefSnap h2 s = derefSnap σ.heap s :=
    fun s hs => derefSnap_congr σ.heap h2 s (hsnapimgs s hs)
      (hsnappix_cells s hs) (hsnaprect_cells s hs)
  refine ⟨fun sel2 ts2 => ?_, hpres⟩
  constructor
  · exact limg
  · exact lpix
  · exact lrect
  · intro s hs d hd
    exact lt_of_lt_of_le (hWF.snap_img s hs d hd) cimg
  · intro s hs i hi
    have hi2 : i ∈ snapPixIds h2 s := hi
    rw [hsnappix_ids s hs] at hi2
    exact lt_of_lt_of_le (hWF.snap_pix s hs i hi2) cpix
  · intro s hs i hi
    have hi2 : i ∈ snapRectIds h2 s := hi
    rw [hsnaprect_ids s hs] at hi2
    exact lt_of_lt_of_le (hWF.snap_rect s hs i hi2) crect
  · intro s hs d hd hmem
    rcases limgsrc d hmem with hin | hge
    · exact hWF.disj_img s hs d hd hin
    · exact absurd (hWF.snap_img s hs d hd) (not_lt.mpr hge)
  · intro s hs i hi
    have hi2 : i ∈ snapPixIds h2 s := hi
    rw [hsnappix_ids s hs] at hi2
    intro hmem
    rcases lpixsrc i hmem with hin | hge
    · exact hWF.disj_pix s hs i hi2 hin
    · exact absurd (hWF.snap_pix s hs i hi2) (not_lt.mpr hge)
  · intro s hs i hi
    have hi2 : i ∈ snapRectIds h2 s := hi
    rw [hsnaprect_ids s hs] at hi2
    intro hmem
    rcases lrectsrc i hmem with hin | hge
    · exact hWF.disj_rect s hs i hi2 hin
    · exact absurd (hWF.snap_rect s hs i hi2) (not_lt.mpr hge)
  · exact hWF.pair_img
  · refine hWF.pair_pix.imp_of_mem ?_
    intro a b ha hb hr i hi
    have hi2 : i ∈ snapPixIds h2 a := hi
    rw [hsnappix_ids a ha] at hi2
    show i ∉ snapPixIds h2 b
    rw [hsnappix_ids b hb]
    exact hr i hi2
  · refine hWF.pair_rect.imp_of_mem ?_
    intro a b ha hb hr i hi
    have hi2 : i ∈ snapRectIds h2 a := hi
    rw [hsnaprect_ids a ha] at hi2
    show i ∉ snapRectIds h2 b
    rw [hsnaprect_ids b hb]
    exact hr i hi2

/-- Painting through a live pixmap reference (strokes, erases, previews,
composites, fills) preserves the invariant and every stored snapshot. -/
theorem writePix_live_wf_pres (σ : HState) (hWF : StateWF σ) (i : Nat) (p : Pixmap)
    (hi : i ∈ livePixIds σ) :
    StateWF { σ with heap := σ.heap.writePix i p } ∧
    ∀ s ∈ σ.undo ++ σ.redo,
      derefSnap (σ.heap.writePix i p) s = derefSnap σ.heap s := by
  have hfoot : pixIdsOf (σ.heap.writePix i p) σ.images σ.bg σ.overlay = livePixIds σ := rfl
  have hrfoot : rectIdsOf (σ.heap.writePix i p) σ.images = liveRectIds σ := rfl
  have h := mutate_wf_pres σ (σ.heap.writePix i p) σ.images hWF
    (le_refl _) (le_refl _) (le_refl _)
    (fun n _ _ => rfl)
    (fun n _ hnl => by
      show (if n = i then p else σ.heap.pixmaps n) = σ.heap.pixmaps n
      exact if_neg (fun he => hnl (by rw [he]; exact hi)))
    (fun n _ _ => rfl)
    (fun d hd => hWF.live_img d hd)
    (fun d hd => Or.inl hd)
    (fun j hj => by rw [hfoot] at hj; exact hWF.live_pix j hj)
    (fun j hj => by rw [hfoot] at hj; exact Or.inl hj)
    (fun j hj => by rw [hrfoot] at hj; exact hWF.live_rect j hj)
    (fun j hj => by rw [hrfoot] at hj; exact Or.inl hj)
  exact ⟨h.1 σ.selected σ.texts, h.2⟩

/-- Mutating a live rect object in place preserves the invariant and every
stored snapshot. -/
theorem writeRect_live_wf_pres (σ : HState) (hWF : StateWF σ) (i : Nat) (r : Rect)
    (hi : i ∈ liveRectIds σ) :
    StateWF { σ with heap := σ.heap.writeRect i r } ∧
    ∀ s ∈ σ.undo ++ σ.redo,
      derefSnap (σ.heap.writeRect i r) s = derefSnap σ.heap s := by
  have hfoot : pixIdsOf (σ.heap.writeRect i r) σ.images σ.bg σ.overlay = livePixIds σ := rfl
  have hrfoot : rectIdsOf (σ.heap.writeRect i r) σ.images = liveRectIds σ := rfl
  have h := mutate_wf_pres σ (σ.heap.writeRect i r) σ.images hWF
    (le_refl _) (le_refl _) (le_refl _)
    (fun n _ _ => rfl)
    (fun n _ _ => rfl)
    (fun n _ hnl => by
      show (if n = i then r else σ.heap.rects n) = σ.heap.rects n
      exact if_neg (fun he => hnl (by rw [he]; exact hi)))
    (fun d hd => hWF.live_img d hd)
    (fun d hd => Or.inl hd)
    (fun j hj => by rw [hfoot] at hj; exact hWF.live_pix j hj)
    (fun j hj => by rw [hfoot] at hj; exact Or.inl hj)
    (fun j hj => by rw [hrfoot] at hj; exact hWF.live_rect j hj)
    (fun j hj => by rw [hrfoot] at hj; exact Or.inl hj)
  exact ⟨h.1 σ.selected σ.texts, h.2⟩

/-- Replacing the display buffer of a selected live image by a freshly
allocated pixmap (flip_horizontal, flip_vertical, the filter handlers)
preserves the invariant and every stored snapshot. -/
theorem replacePix_wf_pres (ρ : HState) (hWFρ : StateWF ρ) (d : Nat) (hd : d ∈ ρ.images)
    (P : Pixmap) :
    StateWF { ρ with
      heap := (ρ.heap.allocPix P).1.writeImg d
        { ρ.heap.imgs d with pix := (ρ.heap.allocPix P).2 } } ∧
    ∀ s ∈ ρ.undo ++ ρ.redo,
      derefSnap ((ρ.heap.allocPix P).1.writeImg d
        { ρ.heap.imgs d with pix := (ρ.heap.allocPix P).2 }) s = derefSnap ρ.heap s := by
  set h2 := (ρ.heap.allocPix P).1.writeImg d
    { ρ.heap.imgs d with pix := (ρ.heap.allocPix P).2 } with hh2
  have himgsd : h2.imgs d = { ρ.heap.imgs d with pix := ρ.heap.pixN } := by
    show (if d = d then _ else _) = _
    rw [if_pos rfl]
    rfl
  have hpixd : (h2.imgs d).pix = ρ.heap.pixN := by rw [himgsd]
  have horigd : (h2.imgs d).orig = (ρ.heap.imgs d).orig := by rw [himgsd]
  have hrectd : (h2.imgs d).rect = (ρ.heap.imgs d).rect := by rw [himgsd]
  have himgs2 : ∀ n, n ≠ d → h2.imgs n = ρ.heap.imgs n := by
    intro n hne
    show (if n = d then _ else _) = _
    exact if_neg hne
  have hrfoot : rectIdsOf h2 ρ.images = liveRectIds ρ := by
    show rectIdsOf h2 ρ.images = rectIdsOf ρ.heap ρ.images
    apply rectIdsOf_congr
    intro n hn
    by_cases hnd : n = d
    · subst hnd
      rw [hrectd]
    · rw [himgs2 n hnd]
  have hpixbound : ∀ j ∈ pixIdsOf h2 ρ.images ρ.bg ρ.overlay, j < h2.pixN := by
    intro j hj
    show j < ρ.heap.pixN + 1
    rcases mem_pixIdsOf_cases h2 ρ.images ρ.bg ρ.overlay j hj with h1 | h1 | ⟨n, hn, h1 | h1⟩
    · rw [h1]
      exact lt_of_lt_of_le (hWFρ.live_pix _ (bg_mem_livePix ρ)) (Nat.le_succ _)
    · rw [h1]
      exact lt_of_lt_of_le (hWFρ.live_pix _ (overlay_mem_livePix ρ)) (Nat.le_succ _)
    · by_cases hnd : n = d
      · subst hnd
        rw [hpixd] at h1
        omega
      · rw [himgs2 n hnd] at h1
        rw [h1]
        exact lt_of_lt_of_le (hWFρ.live_pix _ (imgpix_mem_livePix ρ n hn)) (Nat.le_succ _)
    · by_cases hnd : n = d
      · subst hnd
        rw [horigd] at h1
        rw [h1]
        exact lt_of_lt_of_le (hWFρ.live_pix _ (imgorig_mem_livePix ρ n hn)) (Nat.le_succ _)
      · rw [himgs2 n hnd] at h1
        rw [h1]
        exact lt_of_lt_of_le (hWFρ.live_pix _ (imgorig_mem_livePix ρ n hn)) (Nat.le_succ _)
  have hpixsrc : ∀ j ∈ pixIdsOf h2 ρ.images ρ.bg ρ.overlay,
      j ∈ livePixIds ρ ∨ ρ.heap.pixN ≤ j := by
    intro j hj
    rcases mem_pixIdsOf_cases h2 ρ.images ρ.bg ρ.overlay j hj with h1 | h1 | ⟨n, hn, h1 | h1⟩
    · rw [h1]
      exact Or.inl (bg_mem_livePix ρ)
    · rw [h1]
      exact Or.inl (overlay_mem_livePix ρ)
    · by_cases hnd : n = d
      · subst hnd
        rw [hpixd] at h1
        exact Or.inr (le_of_eq h1.symm)
      · rw [himgs2 n hnd] at h1
        rw [h1]
        exact Or.inl (imgpix_mem_livePix ρ n hn)
    · by_cases hnd : n = d
      · subst hnd
        rw [horigd] at h1
        rw [h1]
        exact Or.inl (imgorig_mem_livePix ρ n hn)
      · rw [himgs2 n hnd] at h1
        rw [h1]
        exact Or.inl (imgorig_mem_livePix ρ n hn)
  have h := mutate_wf_pres ρ h2 ρ.images hWFρ
    (Nat.le_succ _) (le_refl _) (le_refl _)
    (fun n _ hnl => himgs2 n (fun he => hnl (by rw [he]; exact hd)))
    (fun n hn _ => by
      show (if n = ρ.heap.pixN then P else ρ.heap.pixmaps n) = ρ.heap.pixmaps n
      exact if_neg (Nat.ne_of_lt hn))
    (fun n _ _ => rfl)
    (fun n hn => hWFρ.live_img n hn)
    (fun n hn => Or.inl hn)
    hpixbound hpixsrc
    (fun j hj => by rw [hrfoot] at hj; exact hWFρ.live_rect j hj)
    (fun j hj => by rw [hrfoot] at hj; exact Or.inl hj)
  exact ⟨h.1 ρ.selected ρ.texts, h.2⟩

/-- undo on an empty undo stack is the identity. -/
theorem hundo_none (σ : HState) (h : σ.undo.getLast? = none) : hundo σ = σ := by
  unfold hundo
  rw [h]

/-- undo with a non-empty undo stack: the explicit record form. -/
theorem hundo_some (σ : HState) (last : HSnapshot) (h : σ.undo.getLast? = some last) :
    hundo σ = { σ with
      heap := hsaveHeap σ
      redo := σ.redo ++ [hsaveSnap σ]
      undo := σ.undo.dropLast
      images := last.images
      selected := last.selected
      bg := last.pixmap
      overlay := last.overlay
      texts := last.texts
      threshold := last.threshold
      sharp := last.sharp
      gamma := last.gamma } := by
  unfold hundo
  rw [h]

/-- redo on an empty redo stack is the identity. -/
theorem hredo_none (σ : HState) (h : σ.redo.getLast? = none) : hredo σ = σ := by
  unfold hredo
  rw [h]

/-- redo with a non-empty redo stack: the explicit record form. -/
theorem hredo_some (σ : HState) (nxt : HSnapshot) (h : σ.redo.getLast? = some nxt) :
    hredo σ = { σ with
      heap := hsaveHeap σ
      undo := σ.undo ++ [hsaveSnap σ]
      redo := σ.redo.dropLast
      images := nxt.images
      selected := nxt.selected
      bg := nxt.pixmap
      overlay := nxt.overlay
      texts := nxt.texts
      threshold := nxt.threshold
      sharp := nxt.sharp
      gamma := nxt.gamma } := by
  unfold hredo
  rw [h]

/-- undo preserves the unaliasing invariant and the value of every
snapshot stored before the call: the redo-bound copy is freshly allocated,
and the installed live references come from the popped snapshot, which was
disjoint from every other stored snapshot. -/
theorem hundo_wf_pres (σ : HState) (hWF : StateWF σ) :
    StateWF (hundo σ) ∧
    ∀ s ∈ σ.undo ++ σ.redo, derefSnap (hundo σ).heap s = derefSnap σ.heap s := by
  cases hlast : σ.undo.getLast? with
  | none =>
    rw [hundo_none σ hlast]
    exact ⟨hWF, fun s _ => rfl⟩
  | some last =>
    rw [hundo_some σ last hlast]
    obtain ⟨l2, hdec⟩ := List.getLast?_eq_some_iff.mp hlast
    have hdrop : σ.undo.dropLast = l2 := by rw [hdec, List.dropLast_concat]
    have hlastmem : last ∈ σ.undo ++ σ.redo := by
      refine List.mem_append_left _ ?_
      rw [hdec]
      exact List.mem_append_right _ (List.mem_singleton_self _)
    have hl2mem : ∀ s ∈ l2, s ∈ σ.undo ++ σ.redo := by
      intro s hs
      refine List.mem_append_left _ ?_
      rw [hdec]
      exact List.mem_append_left _ hs
    have hrmem : ∀ s ∈ σ.redo, s ∈ σ.undo ++ σ.redo :=
      fun s hs => List.mem_append_right _ hs
    have hallmem : ∀ s ∈ l2 ++ σ.redo, s ∈ σ.undo ++ σ.redo := by
      intro s hs
      rcases List.mem_append.mp hs with h1 | h1
      · exact hl2mem s h1
      · exact hrmem s h1
    have hext := hsaveHeap_extends σ
    have hfr := hsaveSnap_fresh σ
    have hsnapimgs : ∀ s ∈ σ.undo ++ σ.redo, ∀ d ∈ s.images,
        (hsaveHeap σ).imgs d = σ.heap.imgs d :=
      fun s hs d hd => hext.2.2.2.2.2 d (hWF.snap_img s hs d hd)
    have hsnappix_ids : ∀ s ∈ σ.undo ++ σ.redo,
        snapPixIds (hsaveHeap σ) s = snapPixIds σ.heap s :=
      fun s hs => pixIdsOf_congr σ.heap (hsaveHeap σ) s.images s.pixmap s.overlay
        (fun d hd => ⟨by rw [hsnapimgs s hs d hd], by rw [hsnapimgs s hs d hd]⟩)
    have hsnaprect_ids : ∀ s ∈ σ.undo ++ σ.redo,
        snapRectIds (hsaveHeap σ) s = snapRectIds σ.heap s :=
      fun s hs => rectIdsOf_congr σ.heap (hsaveHeap σ) s.images
        (fun d hd => by rw [hsnapimgs s hs d hd])
    have hpres : ∀ s ∈ σ.undo ++ σ.redo,
        derefSnap (hsaveHeap σ) s = derefSnap σ.heap s :=
      fun s hs => derefSnap_extends σ.heap (hsaveHeap σ) s hext
        (hWF.snap_img s hs) (hWF.snap_pix s hs) (hWF.snap_rect s hs)
    have hlast_img := hWF.snap_img last hlastmem
    have hlast_pix := hWF.snap_pix last hlastmem
    have hlast_rect := hWF.snap_rect last hlastmem
    have hcase3 : ∀ s : HSnapshot, s ∈ σ.undo.dropLast ++ (σ.redo ++ [hsaveSnap σ]) →
        s ∈ l2 ∨ s ∈ σ.redo ∨ s = hsaveSnap σ := by
      intro s hs
      rcases List.mem_append.mp hs with hs1 | hs2
      · rw [hdrop] at hs1
        exact Or.inl hs1
      · rcases List.mem_append.mp hs2 with hs3 | hs4
        · exact Or.inr (Or.inl hs3)
        · exact Or.inr (Or.inr (List.mem_singleton.mp hs4))
    have hPimg := hWF.pair_img
    have hPpix := hWF.pair_pix
    have hPrect := hWF.pair_rect
    rw [hdec] at hPimg hPpix hPrect
    obtain ⟨hAi, hBi, hCi, hDi, hEi, hFi⟩ := pairwise_decomp _ l2 last σ.redo hPimg
    obtain ⟨hAp, hBp, hCp, hDp, hEp, hFp⟩ := pairwise_decomp _ l2 last σ.redo hPpix
    obtain ⟨hAr, hBr, hCr, hDr, hEr, hFr⟩ := pairwise_decomp _ l2 last σ.redo hPrect
    refine ⟨?_, hpres⟩
    constructor
    · intro d hd
      exact lt_of_lt_of_le (hlast_img d hd) hext.2.2.1
    · intro j hj
      have hj2 : j ∈ snapPixIds (hsaveHeap σ) last := hj
      rw [hsnappix_ids last hlastmem] at hj2
      exact lt_of_lt_of_le (hlast_pix j hj2) hext.1
    · intro j hj
      have hj2 : j ∈ snapRectIds (hsaveHeap σ) last := hj
      rw [hsnaprect_ids last hlastmem] at hj2
      exact lt_of_lt_of_le (hlast_rect j hj2) hext.2.1
    · intro s hs d hd
      rcases hcase3 s hs with h1 | h1 | h1
      · exact lt_of_lt_of_le (hWF.snap_img s (hl2mem s h1) d hd) hext.2.2.1
      · exact lt_of_lt_of_le (hWF.snap_img s (hrmem s h1) d hd) hext.2.2.1
      · rw [h1] at hd
        exact (hfr.1 d hd).2
    · intro s hs i hi
      rcases hcase3 s hs with h1 | h1 | h1
      · have hi2 : i ∈ snapPixIds (hsaveHeap σ) s := hi
        rw [hsnappix_ids s (hl2mem s h1)] at hi2
        exact lt_of_lt_of_le (hWF.snap_pix s (hl2mem s h1) i hi2) hext.1
      · have hi2 : i ∈ snapPixIds (hsaveHeap σ) s := hi
        rw [hsnappix_ids s (hrmem s h1)] at hi2
        exact lt_of_lt_of_le (hWF.snap_pix s (hrmem s h1) i hi2) hext.1
      · rw [h1] at hi
        exact (hfr.2.1 i hi).2
    · intro s hs i hi
      rcases hcase3 s hs with h1 | h1 | h1
      · have hi2 : i ∈ snapRectIds (hsaveHeap σ) s := hi
        rw [hsnaprect_ids s (hl2mem s h1)] at hi2
        exact lt_of_lt_of_le (hWF.snap_rect s (hl2mem s h1) i hi2) hext.2.1
      · have hi2 : i ∈ snapRectIds (hsaveHeap σ) s := hi
        rw [hsnaprect_ids s (hrmem s h1)] at hi2
        exact lt_of_lt_of_le (hWF.snap_rect s (hrmem s h1) i hi2) hext.2.1
      · rw [h1] at hi
        exact (hfr.2.2 i hi).2
    · intro s hs d hd
      rcases hcase3 s hs with h1 | h1 | h1
      · exact hCi s h1 d hd
      · exact disjoint_flip last.images s.images (hDi s h1) d hd
      · rw [h1] at hd
        exact not_mem_of_ge last.images σ.heap.imgN d hlast_img (hfr.1 d hd).1
    · intro s hs i hi
      show i ∉ snapPixIds (hsaveHeap σ) last
      rw [hsnappix_ids last hlastmem]
      rcases hcase3 s hs with h1 | h1 | h1
      · have hi2 : i ∈ snapPixIds (hsaveHeap σ) s := hi
        rw [hsnappix_ids s (hl2mem s h1)] at hi2
        exact hCp s h1 i hi2
      · have hi2 : i ∈ snapPixIds (hsaveHeap σ) s := hi
        rw [hsnappix_ids s (hrmem s h1)] at hi2
        exact disjoint_flip _ _ (hDp s h1) i hi2
      · rw [h1] at hi
        exact not_mem_of_ge (snapPixIds σ.heap last) σ.heap.pixN i hlast_pix
          (hfr.2.1 i hi).1
    · intro s hs i hi
      show i ∉ snapRectIds (hsaveHeap σ) last
      rw [hsnaprect_ids last hlastmem]
      rcases hcase3 s hs with h1 | h1 | h1
      · have hi2 : i ∈ snapRectIds (hsaveHeap σ) s := hi
        rw [hsnaprect_ids s (hl2mem s h1)] at hi2
        exact hCr s h1 i hi2
      · have hi2 : i ∈ snapRectIds (hsaveHeap σ) s := hi
        rw [hsnaprect_ids s (hrmem s h1)] at hi2
        exact disjoint_flip _ _ (hDr s h1) i hi2
      · rw [h1] at hi
        exact not_mem_of_ge (snapRectIds σ.heap last) σ.heap.rectN i hlast_rect
          (hfr.2.2 i hi).1
    · show List.Pairwise (fun s t => ∀ d ∈ s.images, d ∉ t.images)
        (σ.undo.dropLast ++ (σ.redo ++ [hsaveSnap σ]))
      rw [hdrop]
      refine pairwise_fresh_append _ _ l2 σ.redo (hsaveSnap σ) hFi ?_ ?_
      · intro a _ b _ hr
        exact hr
      · intro a ha d hd hmem
        exact absurd (hfr.1 d hmem).1 (not_le.mpr (hWF.snap_img a (hallmem a ha) d hd))
    · show List.Pairwise
        (fun s t => ∀ i ∈ snapPixIds (hsaveHeap σ) s, i ∉ snapPixIds (hsaveHeap σ) t)
        (σ.undo.dropLast ++ (σ.redo ++ [hsaveSnap σ]))
      rw [hdrop]
      refine pairwise_fresh_append _ _ l2 σ.redo (hsaveSnap σ) hFp ?_ ?_
      · intro a ha b hb hr i hi
        rw [hsnappix_ids a (hallmem a ha)] at hi
        rw [hsnappix_ids b (hallmem b hb)]
        exact hr i hi
      · intro a ha i hi hmem
        rw [hsnappix_ids a (hallmem a ha)] at hi
        exact absurd (hfr.2.1 i hmem).1
          (not_le.mpr (hWF.snap_pix a (hallmem a ha) i hi))
    · show List.Pairwise
        (fun s t => ∀ i ∈ snapRectIds (hsaveHeap σ) s, i ∉ snapRectIds (hsaveHeap σ) t)
        (σ.undo.dropLast ++ (σ.redo ++ [hsaveSnap σ]))
      rw [hdrop]
      refine pairwise_fresh_append _ _ l2 σ.redo (hsaveSnap σ) hFr ?_ ?_
      · intro a ha b hb hr i hi
        rw [hsnaprect_ids a (hallmem a ha)] at hi
        rw [hsnaprect_ids b (hallmem b hb)]
        exact hr i hi
      · intro a ha i hi hmem
        rw [hsnaprect_ids a (hallmem a ha)] at hi
        exact absurd (hfr.2.2 i hmem).1
          (not_le.mpr (hWF.snap_rect a (hallmem a ha) i hi))

/-- redo preserves the unaliasing invariant and the value of every
snapshot stored before the call, symmetrically to undo. -/
theorem hredo_wf_pres (σ : HState) (hWF : StateWF σ) :
    StateWF (hredo σ) ∧
    ∀ s ∈ σ.undo ++ σ.redo, derefSnap (hredo σ).heap s = derefSnap σ.heap s := by
  cases hlast : σ.redo.getLast? with
  | none =>
    rw [hredo_none σ hlast]
    exact ⟨hWF, fun s _ => rfl⟩
  | some nxt =>
    rw [hredo_some σ nxt hlast]
    obtain ⟨l2, hdec⟩ := List.getLast?_eq_some_iff.mp hlast
    have hdrop : σ.redo.dropLast = l2 := by rw [hdec, List.dropLast_concat]
    have hnxtmem : nxt ∈ σ.undo ++ σ.redo := by
      refine List.mem_append_right _ ?_
      rw [hdec]
      exact List.mem_append_right _ (List.mem_singleton_self _)
    have humem : ∀ s ∈ σ.undo, s ∈ σ.undo ++ σ.redo :=
      fun s hs => List.mem_append_left _ hs
    have hl2mem : ∀ s ∈ l2, s ∈ σ.undo ++ σ.redo := by
      intro s hs
      refine List.mem_append_right _ ?_
      rw [hdec]
      exact List.mem_append_left _ hs
    have hallmem : ∀ s ∈ σ.undo ++ l2, s ∈ σ.undo ++ σ.redo := by
      intro s hs
      rcases List.mem_append.mp hs with h1 | h1
      · exact humem s h1
      · exact hl2mem s h1
    have hext := hsaveHeap_extends σ
    have hfr := hsaveSnap_fresh σ
    have hsnapimgs : ∀ s ∈ σ.undo ++ σ.redo, ∀ d ∈ s.images,
        (hsaveHeap σ).imgs d = σ.heap.imgs d :=
      fun s hs d hd => hext.2.2.2.2.2 d (hWF.snap_img s hs d hd)
    have hsnappix_ids : ∀ s ∈ σ.undo ++ σ.redo,
        snapPixIds (hsaveHeap σ) s = snapPixIds σ.heap s :=
      fun s hs => pixIdsOf_congr σ.heap (hsaveHeap σ) s.images s.pixmap s.overlay
        (fun d hd => ⟨by rw [hsnapimgs s hs d hd], by rw [hsnapimgs s hs d hd]⟩)
    have hsnaprect_ids : ∀ s ∈ σ.undo ++ σ.redo,
        snapRectIds (hsaveHeap σ) s = snapRectIds σ.heap s :=
      fun s hs => rectIdsOf_congr σ.heap (hsaveHeap σ) s.images
        (fun d hd => by rw [hsnapimgs s hs d hd])
    have hpres : ∀ s ∈ σ.undo ++ σ.redo,
        derefSnap (hsaveHeap σ) s = derefSnap σ.heap s :=
      fun s hs => derefSnap_extends σ.heap (hsaveHeap σ) s hext
        (hWF.snap_img s hs) (hWF.snap_pix s hs) (hWF.snap_rect s hs)
    have hnxt_img := hWF.snap_img nxt hnxtmem
    have hnxt_pix := hWF.snap_pix nxt hnxtmem
    have hnxt_rect := hWF.snap_rect nxt hnxtmem
    have hcase3 : ∀ s : HSnapshot, s ∈ (σ.undo ++ [hsaveSnap σ]) ++ σ.redo.dropLast →
        s ∈ σ.undo ∨ s ∈ l2 ∨ s = hsaveSnap σ := by
      intro s hs
      rcases List.mem_append.mp hs with hs1 | hs2
      · rcases List.mem_append.mp hs1 with hs3 | hs4
        · exact Or.inl hs3
        · exact Or.inr (Or.inr (List.mem_singleton.mp hs4))
      · rw [hdrop] at hs2
        exact Or.inr (Or.inl hs2)
    have hPimg := hWF.pair_img
    have hPpix := hWF.pair_pix
    have hPrect := hWF.pair_rect
    rw [hdec] at hPimg hPpix hPrect
    obtain ⟨hAi, hBi, hCi, hDi, hEi, hFi⟩ := pairwise_decomp_right _ σ.undo l2 nxt hPimg
    obtain ⟨hAp, hBp, hCp, hDp, hEp, hFp⟩ := pairwise_decomp_right _ σ.undo l2 nxt hPpix
    obtain ⟨hAr, hBr, hCr, hDr, hEr, hFr⟩ := pairwise_decomp_right _ σ.undo l2 nxt hPrect
    refine ⟨?_, hpres⟩
    constructor
    · intro d hd
      exact lt_of_lt_of_le (hnxt_img d hd) hext.2.2.1
    · intro j hj
      have hj2 : j ∈ snapPixIds (hsaveHeap σ) nxt := hj
      rw [hsnappix_ids nxt hnxtmem] at hj2
      exact lt_of_lt_of_le (hnxt_pix j hj2) hext.1
    · intro j hj
      have hj2 : j ∈ snapRectIds (hsaveHeap σ) nxt := hj
      rw [hsnaprect_ids nxt hnxtmem] at hj2
      exact lt_of_lt_of_le (hnxt_rect j hj2) hext.2.1
    · intro s hs d hd
      rcases hcase3 s hs with h1 | h1 | h1
      · exact lt_of_lt_of_le (hWF.snap_img s (humem s h1) d hd) hext.2.2.1
      · exact lt_of_lt_of_le (hWF.snap_img s (hl2mem s h1) d hd) hext.2.2.1
      · rw [h1] at hd
        exact (hfr.1 d hd).2
    · intro s hs i hi
      rcases hcase3 s hs with h1 | h1 | h1
      · have hi2 : i ∈ snapPixIds (hsaveHeap σ) s := hi
        rw [hsnappix_ids s (humem s h1)] at hi2
        exact lt_of_lt_of_le (hWF.snap_pix s (humem s h1) i hi2) hext.1
      · have hi2 : i ∈ snapPixIds (hsaveHeap σ) s := hi
        rw [hsnappix_ids s (hl2mem s h1)] at hi2
        exact lt_of_lt_of_le (hWF.snap_pix s (hl2mem s h1) i hi2) hext.1
      · rw [h1] at hi
        exact (hfr.2.1 i hi).2
    · intro s hs i hi
      rcases hcase3 s hs with h1 | h1 | h1
      · have hi2 : i ∈ snapRectIds (hsaveHeap σ) s := hi
        rw [hsnaprect_ids s (humem s h1)] at hi2
        exact lt_of_lt_of_le (hWF.snap_rect s (humem s h1) i hi2) hext.2.1
      · have hi2 : i ∈ snapRectIds (hsaveHeap σ) s := hi
        rw [hsnaprect_ids s (hl2mem s h1)] at hi2
        exact lt_of_lt_of_le (hWF.snap_rect s (hl2mem s h1) i hi2) hext.2.1
      · rw [h1] at hi
        exact (hfr.2.2 i hi).2
    · intro s hs d hd
      rcases hcase3 s hs with h1 | h1 | h1
      · exact hDi s h1 d hd
      · exact hEi s h1 d hd
      · rw [h1] at hd
        exact not_mem_of_ge nxt.images σ.heap.imgN d hnxt_img (hfr.1 d hd).1
    · intro s hs i hi
      show i ∉ snapPixIds (hsaveHeap σ) nxt
      rw [hsnappix_ids nxt hnxtmem]
      rcases hcase3 s hs with h1 | h1 | h1
      · have hi2 : i ∈ snapPixIds (hsaveHeap σ) s := hi
        rw [hsnappix_ids s (humem s h1)] at hi2
        exact hDp s h1 i hi2
      · have hi2 : i ∈ snapPixIds (hsaveHeap σ) s := hi
        rw [hsnappix_ids s (hl2mem s h1)] at hi2
        exact hEp s h1 i hi2
      · rw [h1] at hi
        exact not_mem_of_ge (snapPixIds σ.heap nxt) σ.heap.pixN i hnxt_pix
          (hfr.2.1 i hi).1
    · intro s hs i hi
      show i ∉ snapRectIds (hsaveHeap σ) nxt
      rw [hsnaprect_ids nxt hnxtmem]
      rcases hcase3 s hs with h1 | h1 | h1
      · have hi2 : i ∈ snapRectIds (hsaveHeap σ) s := hi
        rw [hsnaprect_ids s (humem s h1)] at hi2
        exact hDr s h1 i hi2
      · have hi2 : i ∈ snapRectIds (hsaveHeap σ) s := hi
        rw [hsnaprect_ids s (hl2mem s h1)] at hi2
        exact hEr s h1 i hi2
      · rw [h1] at hi
        exact not_mem_of_ge (snapRectIds σ.heap nxt) σ.heap.rectN i hnxt_rect
          (hfr.2.2 i hi).1
    · show List.Pairwise (fun s t => ∀ d ∈ s.images, d ∉ t.images)
        ((σ.undo ++ [hsaveSnap σ]) ++ σ.redo.dropLast)
      rw [hdrop]
      refine pairwise_fresh_mid _ _ σ.undo l2 (hsaveSnap σ) hFi ?_ ?_ ?_
      · intro a _ b _ hr
        exact hr
      · intro a ha d hd hmem
        exact absurd (hfr.1 d hmem).1 (not_le.mpr (hWF.snap_img a (hallmem a ha) d hd))
      · intro b hb d hd
        exact not_mem_of_ge b.images σ.heap.imgN d (hWF.snap_img b (hallmem b hb))
          (hfr.1 d hd).1
    · show List.Pairwise
        (fun s t => ∀ i ∈ snapPixIds (hsaveHeap σ) s, i ∉ snapPixIds (hsaveHeap σ) t)
        ((σ.undo ++ [hsaveSnap σ]) ++ σ.redo.dropLast)
      rw [hdrop]
      refine pairwise_fresh_mid _ _ σ.undo l2 (hsaveSnap σ) hFp ?_ ?_ ?_
      · intro a ha b hb hr i hi
        rw [hsnappix_ids a (hallmem a ha)] at hi
        rw [hsnappix_ids b (hallmem b hb)]
        exact hr i hi
      · intro a ha i hi hmem
        rw [hsnappix_ids a (hallmem a ha)] at hi
        exact absurd (hfr.2.1 i hmem).1
          (not_le.mpr (hWF.snap_pix a (hallmem a ha) i hi))
      · intro b hb i hi
        show i ∉ snapPixIds (hsaveHeap σ) b
        rw [hsnappix_ids b (hallmem b hb)]
        exact not_mem_of_ge (snapPixIds σ.heap b) σ.heap.pixN i
          (hWF.snap_pix b (hallmem b hb)) (hfr.2.1 i hi).1
    · show List.Pairwise
        (fun s t => ∀ i ∈ snapRectIds (hsaveHeap σ) s, i ∉ snapRectIds (hsaveHeap σ) t)
        ((σ.undo ++ [hsaveSnap σ]) ++ σ.redo.dropLast)
      rw [hdrop]
      refine pairwise_fresh_mid _ _ σ.undo l2 (hsaveSnap σ) hFr ?_ ?_ ?_
      · intro a ha b hb hr i hi
        rw [hsnaprect_ids a (hallmem a ha)] at hi
        rw [hsnaprect_ids b (hallmem b hb)]
        exact hr i hi
      · intro a ha i hi hmem
        rw [hsnaprect_ids a (hallmem a ha)] at hi
        exact absurd (hfr.2.2 i hmem).1
          (not_le.mpr (hWF.snap_rect a (hallmem a ha) i hi))
      · intro b hb i hi
        show i ∉ snapRectIds (hsaveHeap σ) b
        rw [hsnaprect_ids b (hallmem b hb)]
        exact not_mem_of_ge (snapRectIds σ.heap b) σ.heap.rectN i
          (hWF.snap_rect b (hallmem b hb)) (hfr.2.2 i hi).1

/-- The freshly constructed window satisfies the unaliasing invariant:
no snapshots, and the two live pixmaps are allocated. -/
theorem hinit_wf : StateWF hinit := by
  constructor
  · intro d hd
    exact absurd hd (List.not_mem_nil d)
  · intro j hj
    have hj2 : j ∈ [0, 1] := hj
    show j < 2
    rcases List.mem_cons.mp hj2 with h1 | h1
    · omega
    · have h2 := List.mem_singleton.mp h1
      omega
  · intro j hj
    have hj2 : j ∈ ([] : List Nat) := hj
    exact absurd hj2 (List.not_mem_nil j)
  · intro s hs
    have hs2 : s ∈ ([] : List HSnapshot) := hs
    exact absurd hs2 (List.not_mem_nil s)
  · intro s hs
    have hs2 : s ∈ ([] : List HSnapshot) := hs
    exact absurd hs2 (List.not_mem_nil s)
  · intro s hs
    have hs2 : s ∈ ([] : List HSnapshot) := hs
    exact absurd hs2 (List.not_mem_nil s)
  · intro s hs
    have hs2 : s ∈ ([] : List HSnapshot) := hs
    exact absurd hs2 (List.not_mem_nil s)
  · intro s hs
    have hs2 : s ∈ ([] : List HSnapshot) := hs
    exact absurd hs2 (List.not_mem_nil s)
  · intro s hs
    have hs2 : s ∈ ([] : List HSnapshot) := hs
    exact absurd hs2 (List.not_mem_nil s)
  · exact List.Pairwise.nil
  · exact List.Pairwise.nil
  · exact List.Pairwise.nil

/-- Replacing both the display buffer and the rect of a selected live image
by fresh allocations (perform_crop, the accepted scale_image branch)
preserves the invariant and every stored snapshot. -/
theorem replacePixRect_wf_pres (ρ : HState) (hWFρ : StateWF ρ) (d : Nat)
    (hd : d ∈ ρ.images) (Pnew : Pixmap) (Rnew : Rect) :
    (let a1 := ρ.heap.allocPix Pnew
     let a2 := a1.1.allocRect Rnew
     let h2 := a2.1.writeImg d { ρ.heap.imgs d with pix := a1.2, rect := a2.2 }
     StateWF { ρ with heap := h2 } ∧
     ∀ s ∈ ρ.undo ++ ρ.redo, derefSnap h2 s = derefSnap ρ.heap s) := by
  dsimp only
  set h2 := ((ρ.heap.allocPix Pnew).1.allocRect Rnew).1.writeImg d
    { ρ.heap.imgs d with
      pix := (ρ.heap.allocPix Pnew).2
      rect := ((ρ.heap.allocPix Pnew).1.allocRect Rnew).2 } with hh2
  have himgsd : h2.imgs d =
      { ρ.heap.imgs d with pix := ρ.heap.pixN, rect := ρ.heap.rectN } := by
    show (if d = d then _ else _) = _
    rw [if_pos rfl]
    rfl
  have hpixd : (h2.imgs d).pix = ρ.heap.pixN := by rw [himgsd]
  have horigd : (h2.imgs d).orig = (ρ.heap.imgs d).orig := by rw [himgsd]
  have hrectd : (h2.imgs d).rect = ρ.heap.rectN := by rw [himgsd]
  have himgs2 : ∀ n, n ≠ d → h2.imgs n = ρ.heap.imgs n := by
    intro n hne
    show (if n = d then _ else _) = _
    exact if_neg hne
  have hpixbound : ∀ j ∈ pixIdsOf h2 ρ.images ρ.bg ρ.overlay, j < h2.pixN := by
    intro j hj
    show j < ρ.heap.pixN + 1
    rcases mem_pixIdsOf_cases h2 ρ.images ρ.bg ρ.overlay j hj with h1 | h1 | ⟨n, hn, h1 | h1⟩
    · rw [h1]
      exact lt_of_lt_of_le (hWFρ.live_pix _ (bg_mem_livePix ρ)) (Nat.le_succ _)
    · rw [h1]
      exact lt_of_lt_of_le (hWFρ.live_pix _ (overlay_mem_livePix ρ)) (Nat.le_succ _)
    · by_cases hnd : n = d
      · subst hnd
        rw [hpixd] at h1
        omega
      · rw [himgs2 n hnd] at h1
        rw [h1]
        exact lt_of_lt_of_le (hWFρ.live_pix _ (imgpix_mem_livePix ρ n hn)) (Nat.le_succ _)
    · by_cases hnd : n = d
      · subst hnd
        rw [horigd] at h1
        rw [h1]
        exact lt_of_lt_of_le (hWFρ.live_pix _ (imgorig_mem_livePix ρ n hn)) (Nat.le_succ _)
      · rw [himgs2 n hnd] at h1
        rw [h1]
        exact lt_of_lt_of_le (hWFρ.live_pix _ (imgorig_mem_livePix ρ n hn)) (Nat.le_succ _)
  have hpixsrc : ∀ j ∈ pixIdsOf h2 ρ.images ρ.bg ρ.overlay,
      j ∈ livePixIds ρ ∨ ρ.heap.pixN ≤ j := by
    intro j hj
    rcases mem_pixIdsOf_cases h2 ρ.images ρ.bg ρ.overlay j hj with h1 | h1 | ⟨n, hn, h1 | h1⟩
    · rw [h1]
      exact Or.inl (bg_mem_livePix ρ)
    · rw [h1]
      exact Or.inl (overlay_mem_livePix ρ)
    · by_cases hnd : n = d
      · subst hnd
        rw [hpixd] at h1
        exact Or.inr (le_of_eq h1.symm)
      · rw [himgs2 n hnd] at h1
        rw [h1]
        exact Or.inl (imgpix_mem_livePix ρ n hn)
    · by_cases hnd : n = d
      · subst hnd
        rw [horigd] at h1
        rw [h1]
        exact Or.inl (imgorig_mem_livePix ρ n hn)
      · rw [himgs2 n hnd] at h1
        rw [h1]
        exact Or.inl (imgorig_mem_livePix ρ n hn)
  have hrectbound : ∀ j ∈ rectIdsOf h2 ρ.images, j < h2.rectN := by
    intro j hj
    show j < ρ.heap.rectN + 1
    rcases mem_rectIdsOf_cases h2 ρ.images j hj with ⟨n, hn, h1⟩
    by_cases hnd : n = d
    · subst hnd
      rw [hrectd] at h1
      omega
    · rw [himgs2 n hnd] at h1
      rw [h1]
      exact lt_of_lt_of_le (hWFρ.live_rect _ (imgrect_mem_liveRect ρ n hn)) (Nat.le_succ _)
  have hrectsrc : ∀ j ∈ rectIdsOf h2 ρ.images,
      j ∈ liveRectIds ρ ∨ ρ.heap.rectN ≤ j := by
    intro j hj
    rcases mem_rectIdsOf_cases h2 ρ.images j hj with ⟨n, hn, h1⟩
    by_cases hnd : n = d
    · subst hnd
      rw [hrectd] at h1
      exact Or.inr (le_of_eq h1.symm)
    · rw [himgs2 n hnd] at h1
      rw [h1]
      exact Or.inl (imgrect_mem_liveRect ρ n hn)
  have h := mutate_wf_pres ρ h2 ρ.images hWFρ
    (Nat.le_succ _) (Nat.le_succ _) (le_refl _)
    (fun n _ hnl => himgs2 n (fun he => hnl (by rw [he]; exact hd)))
    (fun n hn _ => by
      show (if n = ρ.heap.pixN then Pnew else ρ.heap.pixmaps n) = ρ.heap.pixmaps n
      exact if_neg (Nat.ne_of_lt hn))
    (fun n hn _ => by
      show (if n = ρ.heap.rectN then Rnew else ρ.heap.rects n) = ρ.heap.rects n
      exact if_neg (Nat.ne_of_lt hn))
    (fun n hn => hWFρ.live_img n hn)
    (fun n hn => Or.inl hn)
    hpixbound hpixsrc hrectbound hrectsrc
  exact ⟨h.1 ρ.selected ρ.texts, h.2⟩

/-- Dragging a selected live image: the dict's position fields and the rect
object are mutated in place, through live references only. -/
theorem dragStep_wf_pres (ρ : HState) (hWFρ : StateWF ρ) (d : Nat) (hd : d ∈ ρ.images)
    (nx ny : Int) :
    (let h1 := ρ.heap.writeImg d { ρ.heap.imgs d with x := nx, y := ny }
     let h2 := h1.writeRect (ρ.heap.imgs d).rect
       ((h1.rects (ρ.heap.imgs d).rect).moveTo nx ny)
     StateWF { ρ with heap := h2 } ∧
     ∀ s ∈ ρ.undo ++ ρ.redo, derefSnap h2 s = derefSnap ρ.heap s) := by
  dsimp only
  set h2 := (ρ.heap.writeImg d { ρ.heap.imgs d with x := nx, y := ny }).writeRect
    (ρ.heap.imgs d).rect
    (((ρ.heap.writeImg d { ρ.heap.imgs d with x := nx, y := ny }).rects
      (ρ.heap.imgs d).rect).moveTo nx ny) with hh2
  have himgsd : h2.imgs d = { ρ.heap.imgs d with x := nx, y := ny } := by
    show (if d = d then _ else _) = _
    rw [if_pos rfl]
  have hpixd : (h2.imgs d).pix = (ρ.heap.imgs d).pix := by rw [himgsd]
  have horigd : (h2.imgs d).orig = (ρ.heap.imgs d).orig := by rw [himgsd]
  have hrectd : (h2.imgs d).rect = (ρ.heap.imgs d).rect := by rw [himgsd]
  have himgs2 : ∀ n, n ≠ d → h2.imgs n = ρ.heap.imgs n := by
    intro n hne
    show (if n = d then _ else _) = _
    exact if_neg hne
  have hfoot : pixIdsOf h2 ρ.images ρ.bg ρ.overlay = livePixIds ρ := by
    show pixIdsOf h2 ρ.images ρ.bg ρ.overlay = pixIdsOf ρ.heap ρ.images ρ.bg ρ.overlay
    apply pixIdsOf_congr
    intro n hn
    by_cases hnd : n = d
    · subst hnd
      exact ⟨hpixd, horigd⟩
    · rw [himgs2 n hnd]
      exact ⟨rfl, rfl⟩
  have hrfoot : rectIdsOf h2 ρ.images = liveRectIds ρ := by
    show rectIdsOf h2 ρ.images = rectIdsOf ρ.heap ρ.images
    apply rectIdsOf_congr
    intro n hn
    by_cases hnd : n = d
    · subst hnd
      exact hrectd
    · rw [himgs2 n hnd]
  have h := mutate_wf_pres ρ h2 ρ.images hWFρ
    (le_refl _) (le_refl _) (le_refl _)
    (fun n _ hnl => himgs2 n (fun he => hnl (by rw [he]; exact hd)))
    (fun n _ _ => rfl)
    (fun n _ hnl => by
      show (if n = (ρ.heap.imgs d).rect then _ else ρ.heap.rects n) = ρ.heap.rects n
      exact if_neg (fun he => hnl (by rw [he]; exact imgrect_mem_liveRect ρ d hd)))
    (fun n hn => hWFρ.live_img n hn)
    (fun n hn => Or.inl hn)
    (fun j hj => by rw [hfoot] at hj; exact hWFρ.live_pix j hj)
    (fun j hj => by rw [hfoot] at hj; exact Or.inl hj)
    (fun j hj => by rw [hrfoot] at hj; exact hWFρ.live_rect j hj)
    (fun j hj => by rw [hrfoot] at hj; exact Or.inl hj)
  exact ⟨h.1 ρ.selected ρ.texts, h.2⟩

/-- Importing an image: four fresh allocations, appended to the live list;
nothing already allocated is touched. -/
theorem importStep_wf_pres (ρ : HState) (hWFρ : StateWF ρ) (p : Pixmap) (x y : Int) :
    (let a1 := ρ.heap.allocPix p
     let a2 := a1.1.allocPix p
     let a3 := a2.1.allocRect (Rect.mkXYWH x y p.w p.h)
     let a4 := a3.1.allocImg ⟨a1.2, a2.2, x, y, a3.2⟩
     StateWF { ρ with heap := a4.1, images := ρ.images ++ [a4.2] } ∧
     ∀ s ∈ ρ.undo ++ ρ.redo, derefSnap a4.1 s = derefSnap ρ.heap s) := by
  dsimp only
  set H4 := (((ρ.heap.allocPix p).1.allocPix p).1.allocRect
      (Rect.mkXYWH x y p.w p.h)).1.allocImg
    ⟨(ρ.heap.allocPix p).2, ((ρ.heap.allocPix p).1.allocPix p).2, x, y,
      (((ρ.heap.allocPix p).1.allocPix p).1.allocRect (Rect.mkXYWH x y p.w p.h)).2⟩
    with hH4
  have hext : HeapExtends ρ.heap H4.1 :=
    heapExtends_trans (allocPix_extends ρ.heap p)
      (heapExtends_trans (allocPix_extends _ p)
        (heapExtends_trans (allocRect_extends _ _) (allocImg_extends _ _)))
  have hid : H4.2 = ρ.heap.imgN := rfl
  have hnew : H4.1.imgs ρ.heap.imgN =
      ⟨ρ.heap.pixN, ρ.heap.pixN + 1, x, y, ρ.heap.rectN⟩ := by
    show (if ρ.heap.imgN = ρ.heap.imgN then _ else _) = _
    rw [if_pos rfl]
    rfl
  have hold : ∀ n, n < ρ.heap.imgN → H4.1.imgs n = ρ.heap.imgs n :=
    fun n hn => hext.2.2.2.2.2 n hn
  have hlimg : ∀ n ∈ ρ.images ++ [H4.2], n < H4.1.imgN := by
    intro n hn
    show n < ρ.heap.imgN + 1
    rcases List.mem_append.mp hn with h1 | h1
    · exact lt_of_lt_of_le (hWFρ.live_img n h1) (Nat.le_succ _)
    · have h2 : n = ρ.heap.imgN := List.mem_singleton.mp h1
      omega
  have hlimgsrc : ∀ n ∈ ρ.images ++ [H4.2], n ∈ ρ.images ∨ ρ.heap.imgN ≤ n := by
    intro n hn
    rcases List.mem_append.mp hn with h1 | h1
    · exact Or.inl h1
    · have h2 : n = ρ.heap.imgN := List.mem_singleton.mp h1
      exact Or.inr (le_of_eq h2.symm)
  have hlpix : ∀ j ∈ pixIdsOf H4.1 (ρ.images ++ [H4.2]) ρ.bg ρ.overlay, j < H4.1.pixN := by
    intro j hj
    show j < ρ.heap.pixN + 2
    rcases mem_pixIdsOf_cases H4.1 (ρ.images ++ [H4.2]) ρ.bg ρ.overlay j hj
      with h1 | h1 | ⟨n, hn, h1 | h1⟩
    · rw [h1]
      exact lt_of_lt_of_le (hWFρ.live_pix _ (bg_mem_livePix ρ)) (Nat.le_add_right _ 2)
    · rw [h1]
      exact lt_of_lt_of_le (hWFρ.live_pix _ (overlay_mem_livePix ρ)) (Nat.le_add_right _ 2)
    · rcases List.mem_append.mp hn with h2 | h2
      · rw [hold n (hWFρ.live_img n h2)] at h1
        rw [h1]
        exact lt_of_lt_of_le (hWFρ.live_pix _ (imgpix_mem_livePix ρ n h2))
          (Nat.le_add_right _ 2)
      · rw [List.mem_singleton.mp h2, hid, hnew] at h1
        have h3 : j = ρ.heap.pixN := h1
        omega
    · rcases List.mem_append.mp hn with h2 | h2
      · rw [hold n (hWFρ.live_img n h2)] at h1
        rw [h1]
        exact lt_of_lt_of_le (hWFρ.live_pix _ (imgorig_mem_livePix ρ n h2))
          (Nat.le_add_right _ 2)
      · rw [List.mem_singleton.mp h2, hid, hnew] at h1
        have h3 : j = ρ.heap.pixN + 1 := h1
        omega
  have hlpixsrc : ∀ j ∈ pixIdsOf H4.1 (ρ.images ++ [H4.2]) ρ.bg ρ.overlay,
      j ∈ livePixIds ρ ∨ ρ.heap.pixN ≤ j := by
    intro j hj
    rcases mem_pixIdsOf_cases H4.1 (ρ.images ++ [H4.2]) ρ.bg ρ.overlay j hj
      with h1 | h1 | ⟨n, hn, h1 | h1⟩
    · rw [h1]
      exact Or.inl (bg_mem_livePix ρ)
    · rw [h1]
      exact Or.inl (overlay_mem_livePix ρ)
    · rcases List.mem_append.mp hn with h2 | h2
      · rw [hold n (hWFρ.live_img n h2)] at h1
        rw [h1]
        exact Or.inl (imgpix_mem_livePix ρ n h2)
      · rw [List.mem_singleton.mp h2, hid, hnew] at h1
        have h3 : j = ρ.heap.pixN := h1
        exact Or.inr (le_of_eq h3.symm)
    · rcases List.mem_append.mp hn with h2 | h2
      · rw [hold n (hWFρ.live_img n h2)] at h1
        rw [h1]
        exact Or.inl (imgorig_mem_livePix ρ n h2)
      · rw [List.mem_singleton.mp h2, hid, hnew] at h1
        have h3 : j = ρ.heap.pixN + 1 := h1
        refine Or.inr ?_
        omega
  have hlrect : ∀ j ∈ rectIdsOf H4.1 (ρ.images ++ [H4.2]), j < H4.1.rectN := by
    intro j hj
    show j < ρ.heap.rectN + 1
    rcases mem_rectIdsOf_cases H4.1 (ρ.images ++ [H4.2]) j hj with ⟨n, hn, h1⟩
    rcases List.mem_append.mp hn with h2 | h2
    · rw [hold n (hWFρ.live_img n h2)] at h1
      rw [h1]
      exact lt_of_lt_of_le (hWFρ.live_rect _ (imgrect_mem_liveRect ρ n h2)) (Nat.le_succ _)
    · rw [List.mem_singleton.mp h2, hid, hnew] at h1
      have h3 : j = ρ.heap.rectN := h1
      omega
  have hlrectsrc : ∀ j ∈ rectIdsOf H4.1 (ρ.images ++ [H4.2]),
      j ∈ liveRectIds ρ ∨ ρ.heap.rectN ≤ j := by
    intro j hj
    rcases mem_rectIdsOf_cases H4.1 (ρ.images ++ [H4.2]) j hj with ⟨n, hn, h1⟩
    rcases List.mem_append.mp hn with h2 | h2
    · rw [hold n (hWFρ.live_img n h2)] at h1
      rw [h1]
      exact Or.inl (imgrect_mem_liveRect ρ n h2)
    · rw [List.mem_singleton.mp h2, hid, hnew] at h1
      have h3 : j = ρ.heap.rectN := h1
      exact Or.inr (le_of_eq h3.symm)
  have h := mutate_wf_pres ρ H4.1 (ρ.images ++ [H4.2]) hWFρ
    hext.1 hext.2.1 hext.2.2.1
    (fun n hn _ => hext.2.2.2.2.2 n hn)
    (fun n hn _ => hext.2.2.2.1 n hn)
    (fun n hn _ => hext.2.2.2.2.1 n hn)
    hlimg hlimgsrc hlpix hlpixsrc hlrect hlrectsrc
  exact ⟨h.1 ρ.selected ρ.texts, h.2⟩

/-- Deleting the selected image only narrows the live image list: the heap
is untouched, so every stored snapshot keeps its value and the invariant
holds with a smaller live footprint. -/
theorem deleteStep_wf (ρ : HState) (hWFρ : StateWF ρ) (i : Nat) :
    StateWF { ρ with images := ρ.images.eraseIdx i, selected := none } := by
  have hsub : ∀ n ∈ ρ.images.eraseIdx i, n ∈ ρ.images :=
    fun n hn => (List.eraseIdx_sublist ρ.images i).mem hn
  have hlp : ∀ j ∈ pixIdsOf ρ.heap (ρ.images.eraseIdx i) ρ.bg ρ.overlay,
      j ∈ livePixIds ρ := by
    intro j hj
    rcases mem_pixIdsOf_cases ρ.heap (ρ.images.eraseIdx i) ρ.bg ρ.overlay j hj
      with h1 | h1 | ⟨n, hn, h1 | h1⟩
    · rw [h1]
      exact bg_mem_livePix ρ
    · rw [h1]
      exact overlay_mem_livePix ρ
    · rw [h1]
      exact imgpix_mem_livePix ρ n (hsub n hn)
    · rw [h1]
      exact imgorig_mem_livePix ρ n (hsub n hn)
  have hlr : ∀ j ∈ rectIdsOf ρ.heap (ρ.images.eraseIdx i), j ∈ liveRectIds ρ := by
    intro j hj
    rcases mem_rectIdsOf_cases ρ.heap (ρ.images.eraseIdx i) j hj with ⟨n, hn, h1⟩
    rw [h1]
    exact imgrect_mem_liveRect ρ n (hsub n hn)
  have h := mutate_wf_pres ρ ρ.heap (ρ.images.eraseIdx i) hWFρ
    (le_refl _) (le_refl _) (le_refl _)
    (fun _ _ _ => rfl) (fun _ _ _ => rfl) (fun _ _ _ => rfl)
    (fun n hn => hWFρ.live_img n (hsub n hn))
    (fun n hn => Or.inl (hsub n hn))
    (fun j hj => hWFρ.live_pix j (hlp j hj))
    (fun j hj => Or.inl (hlp j hj))
    (fun j hj => hWFρ.live_rect j (hlr j hj))
    (fun j hj => Or.inl (hlr j hj))
  exact h.1 none ρ.texts

/-- Appending a text object touches no heap cell, so the invariant is
untouched. -/
theorem textStep_wf (ρ : HState) (hWFρ : StateWF ρ) (ts2 : List TextObj) :
    StateWF { ρ with texts := ts2 } := by
  have h := mutate_wf_pres ρ ρ.heap ρ.images hWFρ
    (le_refl _) (le_refl _) (le_refl _)
    (fun _ _ _ => rfl) (fun _ _ _ => rfl) (fun _ _ _ => rfl)
    (fun n hn => hWFρ.live_img n hn)
    (fun n hn => Or.inl hn)
    (fun j hj => hWFρ.live_pix j hj)
    (fun j hj => Or.inl hj)
    (fun j hj => hWFρ.live_rect j hj)
    (fun j hj => Or.inl hj)
  exact h.1 ρ.selected ts2

/-- Every document mutation preserves the unaliasing invariant, and leaves
the dereferenced value of every snapshot that is stored both before and
after the mutation unchanged. -/
theorem hstep_wf_pres (op : DocOp) (σ : HState) (hWF : StateWF σ) :
    StateWF (hstep op σ) ∧
    ∀ s ∈ (hstep op σ).undo ++ (hstep op σ).redo, s ∈ σ.undo ++ σ.redo →
      derefSnap (hstep op σ).heap s = derefSnap σ.heap s := by
  cases op with
  | importImg p =>
    simp only [hstep]
    have hWF0 := hsave_state_wf σ hWF
    have hpres0 := hsave_state_preserves σ hWF
    obtain ⟨h1, h2⟩ := importStep_wf_pres (hsave_state σ) hWF0 p
      ((hsave_state σ).canvas_x + Int.fdiv ((hsave_state σ).width - p.w) 2)
      ((hsave_state σ).canvas_y + Int.fdiv ((hsave_state σ).height - p.h) 2)
    refine ⟨h1, ?_⟩
    intro s hs hsb
    have hs0 : s ∈ (hsave_state σ).undo ++ (hsave_state σ).redo := hs
    exact (h2 s hs0).trans (hpres0 s hsb)
  | dragMove delta =>
    simp only [hstep]
    cases hsel : σ.selected with
    | none => exact ⟨hWF, fun s _ _ => rfl⟩
    | some i =>
      dsimp only
      cases hget : σ.images.get? i with
      | none => exact ⟨hWF, fun s _ _ => rfl⟩
      | some d =>
        have hd : d ∈ σ.images := mem_of_get?_eq σ.images i d hget
        dsimp only
        rw [← hsel]
        obtain ⟨h1, h2⟩ := dragStep_wf_pres σ hWF d hd
          ((σ.heap.imgs d).x + delta.x) ((σ.heap.imgs d).y + delta.y)
        exact ⟨h1, fun s _ hsb => h2 s hsb⟩
  | scaleMove pos =>
    simp only [hstep]
    cases hsel : σ.selected with
    | none => exact ⟨hWF, fun s _ _ => rfl⟩
    | some i =>
      dsimp only
      cases hget : σ.images.get? i with
      | none => exact ⟨hWF, fun s _ _ => rfl⟩
      | some d =>
        have hd : d ∈ σ.images := mem_of_get?_eq σ.images i d hget
        have hw := writeRect_live_wf_pres σ hWF (σ.heap.imgs d).rect
          (anchorAdjustedRect σ.anchor (σ.heap.rects (σ.heap.imgs d).rect) pos)
          (imgrect_mem_liveRect σ d hd)
        dsimp only
        rw [← hsel]
        split
        · exact ⟨(replacePixRect_wf_pres _ hw.1 d hd _ _).1,
            fun s hs hsb =>
              ((replacePixRect_wf_pres _ hw.1 d hd _ _).2 s hs).trans (hw.2 s hsb)⟩
        · exact ⟨hw.1, fun s _ hsb => hw.2 s hsb⟩
  | flipH =>
    simp only [hstep]
    cases hsel : σ.selected with
    | none => exact ⟨hWF, fun s _ _ => rfl⟩
    | some i =>
      dsimp only
      cases hget : σ.images.get? i with
      | none => exact ⟨hWF, fun s _ _ => rfl⟩
      | some d =>
        have hd : d ∈ σ.images := mem_of_get?_eq σ.images i d hget
        have hWF0 := hsave_state_wf σ hWF
        have hpres0 := hsave_state_preserves σ hWF
        have hd0 : d ∈ (hsave_state σ).images := by
          rw [hsave_state_eq]
          exact hd
        obtain ⟨h1, h2⟩ := replacePix_wf_pres (hsave_state σ) hWF0 d hd0
          (((hsave_state σ).heap.pixmaps ((hsave_state σ).heap.imgs d).pix).flippedH)
        refine ⟨h1, ?_⟩
        intro s hs hsb
        have hs0 : s ∈ (hsave_state σ).undo ++ (hsave_state σ).redo := hs
        exact (h2 s hs0).trans (hpres0 s hsb)
  | flipV =>
    simp only [hstep]
    cases hsel : σ.selected with
    | none => exact ⟨hWF, fun s _ _ => rfl⟩
    | some i =>
      dsimp only
      cases hget : σ.images.get? i with
      | none => exact ⟨hWF, fun s _ _ => rfl⟩
      | some d =>
        have hd : d ∈ σ.images := mem_of_get?_eq σ.images i d hget
        have hWF0 := hsave_state_wf σ hWF
        have hpres0 := hsave_state_preserves σ hWF
        have hd0 : d ∈ (hsave_state σ).images := by
          rw [hsave_state_eq]
          exact hd
        obtain ⟨h1, h2⟩ := replacePix_wf_pres (hsave_state σ) hWF0 d hd0
          (((hsave_state σ).heap.pixmaps ((hsave_state σ).heap.imgs d).pix).flippedV)
        refine ⟨h1, ?_⟩
        intro s hs hsb
        have hs0 : s ∈ (hsave_state σ).undo ++ (hsave_state σ).redo := hs
        exact (h2 s hs0).trans (hpres0 s hsb)
  | applyFilter f =>
    simp only [hstep]
    cases hsel : σ.selected with
    | none => exact ⟨hWF, fun s _ _ => rfl⟩
    | some i =>
      dsimp only
      cases hget : σ.images.get? i with
      | none => exact ⟨hWF, fun s _ _ => rfl⟩
      | some d =>
        have hd : d ∈ σ.images := mem_of_get?_eq σ.images i d hget
        have hWF0 := hsave_state_wf σ hWF
        have hpres0 := hsave_state_preserves σ hWF
        have hd0 : d ∈ (hsave_state σ).images := by
          rw [hsave_state_eq]
          exact hd
        obtain ⟨h1, h2⟩ := replacePix_wf_pres (hsave_state σ) hWF0 d hd0
          ((f ((hsave_state σ).heap.pixmaps
              ((hsave_state σ).heap.imgs d).orig)).scaledKeepAspect
            ((hsave_state σ).heap.pixmaps ((hsave_state σ).heap.imgs d).pix).w
            ((hsave_state σ).heap.pixmaps ((hsave_state σ).heap.imgs d).pix).h)
        refine ⟨h1, ?_⟩
        intro s hs hsb
        have hs0 : s ∈ (hsave_state σ).undo ++ (hsave_state σ).redo := hs
        exact (h2 s hs0).trans (hpres0 s hsb)
  | cropSelected r =>
    simp only [hstep]
    cases hsel : σ.selected with
    | none => exact ⟨hWF, fun s _ _ => rfl⟩
    | some i =>
      dsimp only
      cases hget : σ.images.get? i with
      | none => exact ⟨hWF, fun s _ _ => rfl⟩
      | some d =>
        have hd : d ∈ σ.images := mem_of_get?_eq σ.images i d hget
        have hWF0 := hsave_state_wf σ hWF
        have hpres0 := hsave_state_preserves σ hWF
        have hd0 : d ∈ (hsave_state σ).images := by
          rw [hsave_state_eq]
          exact hd
        refine ⟨(replacePixRect_wf_pres _ hWF0 d hd0 _ _).1, ?_⟩
        intro s hs hsb
        have hs0 : s ∈ (hsave_state σ).undo ++ (hsave_state σ).redo := hs
        exact ((replacePixRect_wf_pres _ hWF0 d hd0 _ _).2 s hs0).trans (hpres0 s hsb)
  | drawSeg a b c penW o =>
    simp only [hstep]
    obtain ⟨h1, h2⟩ := writePix_live_wf_pres σ hWF σ.overlay
      ((σ.heap.pixmaps σ.overlay).drawLine a b c penW o) (overlay_mem_livePix σ)
    exact ⟨h1, fun s _ hsb => h2 s hsb⟩
  | eraseSeg a b penW =>
    simp only [hstep]
    obtain ⟨h1, h2⟩ := writePix_live_wf_pres σ hWF σ.overlay
      ((σ.heap.pixmaps σ.overlay).drawLine a b RGBA.white penW 1) (overlay_mem_livePix σ)
    exact ⟨h1, fun s _ hsb => h2 s hsb⟩
  | shapePreview t a b =>
    simp only [hstep]
    obtain ⟨h1, h2⟩ := writePix_live_wf_pres σ hWF σ.overlay
      (draw_shape t ((σ.heap.pixmaps σ.overlay).fill RGBA.transparent) a b)
      (overlay_mem_livePix σ)
    exact ⟨h1, fun s _ hsb => h2 s hsb⟩
  | shapeCommit t a b =>
    simp only [hstep]
    obtain ⟨h1, h2⟩ := writePix_live_wf_pres σ hWF σ.bg
      (draw_shape t (σ.heap.pixmaps σ.bg) a b) (bg_mem_livePix σ)
    exact ⟨h1, fun s _ hsb => h2 s hsb⟩
  | commitStroke =>
    simp only [hstep]
    obtain ⟨h1, h2⟩ := writePix_live_wf_pres σ hWF σ.bg
      ((σ.heap.pixmaps σ.bg).compositeOver (σ.heap.pixmaps σ.overlay))
      (bg_mem_livePix σ)
    exact ⟨h1, fun s _ hsb => h2 s hsb⟩
  | overlayClear =>
    simp only [hstep]
    obtain ⟨h1, h2⟩ := writePix_live_wf_pres σ hWF σ.overlay
      ((σ.heap.pixmaps σ.overlay).fill RGBA.transparent) (overlay_mem_livePix σ)
    exact ⟨h1, fun s _ hsb => h2 s hsb⟩
  | finalizeText t =>
    simp only [hstep]
    exact ⟨textStep_wf σ hWF (σ.texts ++ [t]), fun s _ _ => trivial⟩
  | deleteSelected =>
    simp only [hstep]
    cases hsel : σ.selected with
    | none => exact ⟨hWF, fun s _ _ => rfl⟩
    | some i =>
      dsimp only
      split
      · refine ⟨deleteStep_wf (hsave_state σ) (hsave_state_wf σ hWF) i, ?_⟩
        intro s hs hsb
        exact hsave_state_preserves σ hWF s hsb
      · exact ⟨hWF, fun s _ _ => rfl⟩
  | push =>
    simp only [hstep]
    exact ⟨hsave_state_wf σ hWF, fun s _ hsb => hsave_state_preserves σ hWF s hsb⟩
  | undoOp =>
    simp only [hstep]
    obtain ⟨h1, h2⟩ := hundo_wf_pres σ hWF
    exact ⟨h1, fun s _ hsb => h2 s hsb⟩
  | redoOp =>
    simp only [hstep]
    obtain ⟨h1, h2⟩ := hredo_wf_pres σ hWF
    exact ⟨h1, fun s _ hsb => h2 s hsb⟩

/-- Running any mutation sequence from a well-formed state keeps the state
well-formed. -/
theorem hrun_wf_aux (ops : List DocOp) (σ : HState) (hWF : StateWF σ) :
    StateWF (hrun ops σ) := by
  induction ops generalizing σ with
  | nil => exact hWF
  | cons op rest ih =>
    have h : hrun (op :: rest) σ = hrun rest (hstep op σ) := rfl
    rw [h]
    exact ih (hstep op σ) (hstep_wf_pres op σ hWF).1

/-- C2: every snapshot stored on the undo or redo stack is a fully
independent deep copy of the document.  In any state reachable from the
fresh window by document operations, and for any further mutation of the
live document, every snapshot that is stored both before and after the
mutation dereferences to exactly the same value afterwards — image display
and original pixmaps, rects, background pixmap, overlay pixmap, text
objects and slider values all included — because save_state's copies are
fresh allocations disjoint from every live reference. -/
theorem snapshots_independent (ops : List DocOp) (op : DocOp) (s : HSnapshot)
    (hbefore : s ∈ (hrun ops hinit).undo ++ (hrun ops hinit).redo)
    (hafter : s ∈ (hstep op (hrun ops hinit)).undo ++
      (hstep op (hrun ops hinit)).redo) :
    derefSnap (hstep op (hrun ops hinit)).heap s
      = derefSnap (hrun ops hinit).heap s :=
  (hstep_wf_pres op (hrun ops hinit)
    (hrun_wf_aux ops hinit hinit_wf)).2 s hafter hbefore

/-- C2 witness: after one history push from the fresh window, the single
stored snapshot keeps its dereferenced value across a further overlay
clear. -/
theorem snapshots_independent_witness :
    ((⟨[], none, 2, 3, [], 127, 0, 10⟩ : HSnapshot) ∈
        (hrun [DocOp.push] hinit).undo ++ (hrun [DocOp.push] hinit).redo) ∧
    derefSnap (hstep DocOp.overlayClear (hrun [DocOp.push] hinit)).heap
        ⟨[], none, 2, 3, [], 127, 0, 10⟩
      = derefSnap (hrun [DocOp.push] hinit).heap
        ⟨[], none, 2, 3, [], 127, 0, 10⟩ := by
  have hmem : (⟨[], none, 2, 3, [], 127, 0, 10⟩ : HSnapshot) ∈
      (hrun [DocOp.push] hinit).undo ++ (hrun [DocOp.push] hinit).redo := by
    decide
  have hmem2 : (⟨[], none, 2, 3, [], 127, 0, 10⟩ : HSnapshot) ∈
      (hstep DocOp.overlayClear (hrun [DocOp.push] hinit)).undo ++
        (hstep DocOp.overlayClear (hrun [DocOp.push] hinit)).redo := hmem
  exact ⟨hmem, snapshots_independent [DocOp.push] DocOp.overlayClear _ hmem hmem2⟩

/-- C10 witness: the flip statement at the concrete one-image canvas. -/
theorem flips_replace_only_display_pixmap_witness :
    (scaleRejectState.selected_image_index = some 0 ∧
      scaleRejectState.images.get? 0 = some imgA) ∧
    (flip_horizontal scaleRejectState).images.get? 0 =
      some { imgA with pixmap := imgA.pixmap.flippedH } ∧
    (flip_horizontal scaleRejectState).pixmap = scaleRejectState.pixmap :=
  ⟨⟨rfl, rfl⟩,
    (flips_replace_only_display_pixmap scaleRejectState 0 imgA rfl rfl).1,
    (flips_replace_only_display_pixmap scaleRejectState 0 imgA rfl rfl).2.2.2.1⟩

end CanvasEditor
